import Mathlib

/-!
Verification development for the `ecmascript_toy` compiler
(lexer, recursive-descent parser, two-pass scope analyzer,
assembler and code generator), shallowly embedded from the
Rust sources in `src/`.

Conventions of the embedding:
* fallible Rust code (panics, `unwrap`, out-of-bounds indexing,
  `Result`) is modelled with `Except String`;
* the output file is modelled as a random-access byte store
  (`Store`) with an explicit write cursor, mirroring the
  seek/write interface used by the assembler;
* `f32` literals are carried as their 32-bit patterns; no claim
  depends on numeric float values, only on the emitted byte count;
* machine-integer casts that are value-preserving for any state a
  real run can reach (for example `usize as u32` on collection
  lengths) are modelled exactly; the `i32`/`u32` reinterpreting
  casts on the simulated stack pointer are modelled with an
  explicit `mod 2^32`.
-/

set_option linter.unusedVariables false

namespace EcmaToy

instance {ε α : Type} [DecidableEq ε] [DecidableEq α] :
    DecidableEq (Except ε α) := fun a b =>
  match a, b with
  | .ok x, .ok y =>
    if h : x = y then isTrue (by rw [h]) else
      isFalse (by intro hc; injection hc; contradiction)
  | .error x, .error y =>
    if h : x = y then isTrue (by rw [h]) else
      isFalse (by intro hc; injection hc; contradiction)
  | .ok _, .error _ => isFalse (by intro hc; cases hc)
  | .error _, .ok _ => isFalse (by intro hc; cases hc)

/-! ## Tokenizer (src/tokenizer.rs) -/

inductive TokenType where
  | Sym | Str | Num
  | OpPlus | OpMinus | OpMul | OpDiv | OpMod
  | OpOr | OpAnd | OpNot | OpLs | OpGt | OpLsEq | OpGtEq | OpEq | OpNotEq
  | Assign
  | Comma
  | Dot
  | Colon
  | End
  | LBr | RBr
  | LBlock | RBlock
  | LPar | RPar
  | Comment
  | Empty
  | Eof
deriving DecidableEq, Repr

structure Token where
  type_ : TokenType
  text : String
  line : Nat
  col : Nat
deriving DecidableEq, Repr

def Token.new_empty : Token := ⟨.Empty, "", 0, 0⟩

/-- `Token::as_sym` -/
def Token.as_sym (t : Token) : Option String :=
  if t.type_ = .Sym then some t.text else none

/-- The state of `Tokenizer::tokenize`'s loop.  `rest` is the character
iterator; `ttext` models the slice `text[start..cursor]` accumulated for
the token under construction (`cur_text`); `ttype`/`tline`/`tcol` model
the fields of `self.token` set by `new_token`. -/
structure LexState where
  tokens : List Token
  rest : List Char
  line : Nat
  col : Nat
  ttype : TokenType
  ttext : List Char
  tline : Nat
  tcol : Nat
deriving Repr

namespace Lex

def isUpper (c : Char) : Bool := 'A' ≤ c && c ≤ 'Z'
def isLower (c : Char) : Bool := 'a' ≤ c && c ≤ 'z'
def isDigitCh (c : Char) : Bool := '0' ≤ c && c ≤ '9'

/-- `Tokenizer::next`: consume one character, updating line/col and the
accumulated slice. -/
def next (st : LexState) : LexState :=
  match st.rest with
  | [] => { st with col := st.col + 1 }
  | c :: r =>
    if c = '\n' then
      { st with rest := r, ttext := st.ttext ++ [c], line := st.line + 1, col := 0 }
    else
      { st with rest := r, ttext := st.ttext ++ [c], col := st.col + 1 }

/-- `Tokenizer::new_token` (does not reset the slice start). -/
def new_token (t : TokenType) (st : LexState) : LexState :=
  { st with ttype := t, tline := st.line, tcol := st.col }

/-- `Tokenizer::reset`. -/
def reset (st : LexState) : LexState :=
  { st with ttype := .Empty, ttext := [], tline := 0, tcol := 0 }

/-- `Tokenizer::commit`: push the token under construction with its
accumulated text, then reset. -/
def commit (st : LexState) : LexState :=
  reset { st with
    tokens := st.tokens ++ [⟨st.ttype, ⟨st.ttext⟩, st.tline, st.tcol⟩] }

def peek (st : LexState) : Option Char := st.rest.head?

/-- The default (no token under construction) branch of the tokenize
loop, in the source's order of tests. -/
def stepDefault (c : Char) (st : LexState) : Except String LexState :=
  if isUpper c || isLower c then .ok (next (new_token .Sym st))
  else if c = '/' then
    let st := next st
    match peek st with
    | some '/' => .ok (new_token .Comment (next st))
    | _ => .ok (commit (new_token .OpDiv st))
  else if c = '+' then .ok (commit (next (new_token .OpPlus st)))
  else if c = '-' then .ok (commit (next (new_token .OpMinus st)))
  else if isDigitCh c then .ok (next (new_token .Num st))
  else if c = '\'' then .ok (next (new_token .Str st))
  else if c = '=' then
    let st := next (new_token .Assign st)
    match peek st with
    | some '=' => .ok (commit (new_token .OpEq (next st)))
    | _ => .ok (commit st)
  else if c = '(' then .ok (commit (next (new_token .LPar st)))
  else if c = ')' then .ok (commit (next (new_token .RPar st)))
  else if c = '[' then .ok (commit (next (new_token .LBr st)))
  else if c = ']' then .ok (commit (next (new_token .RBr st)))
  else if c = '.' then .ok (commit (next (new_token .Dot st)))
  else if c = '{' then .ok (commit (next (new_token .LBlock st)))
  else if c = '}' then .ok (commit (next (new_token .RBlock st)))
  else if c = ';' then .ok (commit (next (new_token .End st)))
  else if c = ':' then .ok (commit (next (new_token .Colon st)))
  else if c = ',' then .ok (commit (next (new_token .Comma st)))
  else if c = '*' then .ok (commit (next (new_token .OpMul st)))
  else if c = '%' then .ok (commit (next (new_token .OpMod st)))
  else if c = '!' then
    let st := next (new_token .OpNot st)
    match peek st with
    | some '=' => .ok (commit (new_token .OpNotEq (next st)))
    | _ => .ok (commit st)
  else if c = '|' then
    let st := next st
    match peek st with
    | some '|' => .ok (commit (new_token .OpOr (next st)))
    | _ => .error "Unknown character"
  else if c = '&' then
    let st := next st
    match peek st with
    | some '&' => .ok (commit (new_token .OpAnd (next st)))
    | _ => .error "Unknown character"
  else if c = '<' then
    let st := next (new_token .OpLs st)
    match peek st with
    | some '=' => .ok (commit (new_token .OpLsEq (next st)))
    | _ => .ok (commit st)
  else if c = '>' then
    let st := next (new_token .OpGt st)
    match peek st with
    | some '=' => .ok (commit (new_token .OpGtEq (next st)))
    | _ => .ok (commit st)
  else if c = ' ' || c = '\t' || c = '\n' then .ok (reset (next st))
  else .error "Unknown character"

/-- One iteration of the tokenize loop (the input is known non-empty). -/
def step (c : Char) (st : LexState) : Except String LexState :=
  match st.ttype with
  | .Sym =>
    if isUpper c || isLower c || isDigitCh c || c = '_' then .ok (next st)
    else .ok (commit st)
  | .Num =>
    if isDigitCh c || (c = '.' && !st.ttext.contains '.') then .ok (next st)
    else .ok (commit st)
  | .Str =>
    if c = '\'' then .ok (commit (next st)) else .ok (next st)
  | .Comment =>
    if c = '\n' then .ok (reset (next st)) else .ok (next st)
  | _ => stepDefault c st

/-- `Tokenizer::tokenize`'s loop.  On end of input, `new_token(Eof)` is
followed by `commit`; at that point `cur_text` yields the empty slice
(`peek` has no position and the default offset equals `start`), so any
token still under construction is dropped and an `Eof` token with empty
text is pushed. -/
def lexLoop : Nat → LexState → Except String (List Token)
  | 0, _ => .error "fuel"
  | fuel + 1, st =>
    match st.rest with
    | [] => .ok (st.tokens ++ [⟨.Eof, "", st.line, st.col⟩])
    | c :: _ => do
      let st' ← step c st
      lexLoop fuel st'

def initLexState (text : String) : LexState :=
  ⟨[], text.data, 1, 0, .Empty, [], 0, 0⟩

def tokenize (text : String) : Except String (List Token) :=
  lexLoop (2 * text.length + 2) (initLexState text)

end Lex

/-! ## Syntax tree (src/syntax_tree.rs) -/

inductive OpType where
  | OpPlus | OpMinus | OpMul | OpDiv | OpMod
  | OpOr | OpAnd | OpNot
  | OpLs | OpGt | OpLsEq | OpGtEq | OpEq | OpNotEq
deriving DecidableEq, Repr

/-- Alias for the global `String` type, needed inside `NodeType`, whose
constructor named `String` shadows the global name there. -/
abbrev Text := String

/-- `NodeType`.  The `f32` payload of `Number` is carried as its 32-bit
IEEE-754 pattern; no claim in this development depends on numeric float
values, only on the fact that a float occupies four bytes. -/
inductive NodeType where
  | Number (bits : Nat)
  | String (s : Text)
  | Symbol (s : Text)
  | Function
  | Call
  | Dict
  | Array
  | StmtVar | StmtIf | StmtIfElse | StmtWhile | StmtReturn
  | Member
  | Index
  | Op (op : OpType)
  | Assign
  | Block
  | Empty
deriving DecidableEq, Repr

inductive Node where
  | mk (type_ : NodeType) (body : List Node)
deriving Repr

mutual

def Node.decEq : (a b : Node) → Decidable (a = b)
  | .mk t1 b1, .mk t2 b2 =>
    match inferInstanceAs (Decidable (t1 = t2)) with
    | isFalse h => isFalse (by intro hc; injection hc; contradiction)
    | isTrue h1 =>
      match Node.decEqList b1 b2 with
      | isTrue h2 => isTrue (by rw [h1, h2])
      | isFalse h2 => isFalse (by intro hc; injection hc; contradiction)

def Node.decEqList : (as bs : List Node) → Decidable (as = bs)
  | [], [] => isTrue rfl
  | [], _ :: _ => isFalse (by intro hc; cases hc)
  | _ :: _, [] => isFalse (by intro hc; cases hc)
  | a :: as, b :: bs =>
    match Node.decEq a b, Node.decEqList as bs with
    | isTrue h1, isTrue h2 => isTrue (by rw [h1, h2])
    | isFalse h1, isTrue h2 => isFalse (by intro hc; injection hc; contradiction)
    | isTrue h1, isFalse h2 => isFalse (by intro hc; injection hc; contradiction)
    | isFalse h1, isFalse h2 => isFalse (by intro hc; injection hc; contradiction)

end

instance : DecidableEq Node := Node.decEq

def Node.type_ : Node → NodeType
  | .mk t _ => t

def Node.body : Node → List Node
  | .mk _ b => b

/-! ## Parser (src/parser.rs)

All parse functions are embedded with an explicit fuel parameter (the
Rust recursion is bounded by the input in all terminating runs; fuel
exhaustion is reported as an error and never occurs for the inputs used
in the theorems below).  A Rust parse method appends the nodes it
produces to its `parent` argument; every method except `parse_block`,
`parse_list`, `parse_dict` and `parse_fun`'s argument loop appends
exactly one node, so those are embedded as functions returning one
`Node` and the others as functions returning the appended list. -/

structure PState where
  stream : List Token
  token : Token
  prev_token : Token
deriving Repr, DecidableEq

abbrev PM (α : Type) := Except String α

namespace Parse

/-- `Parser::token_next`. -/
def token_next (st : PState) : PState :=
  match st.stream with
  | t :: r => { stream := r, token := t, prev_token := st.token }
  | [] => { st with prev_token := st.token }

/-- `Parser::token_revert`. -/
def token_revert (st : PState) : PState :=
  { stream := st.token :: st.stream, token := st.prev_token,
    prev_token := st.prev_token }

/-- `Parser::die` (panic). -/
def die {α : Type} (expected : String) : PM α :=
  .error ("Unexpected token, expected " ++ expected)

/-- `Parser::token_accept`. -/
def token_accept (t : TokenType) (st : PState) : Bool × PState :=
  if st.token.type_ = t then (true, token_next st) else (false, st)

/-- `Parser::token_expect`. -/
def token_expect (t : TokenType) (st : PState) : PM PState :=
  let (ok, st') := token_accept t st
  if ok then .ok st' else die "token type"

/-- `text.parse::<f32>()` on a numeric lexeme.  The decimal-to-binary
IEEE-754 conversion is out of scope of this development: no claim
depends on the numeric value of a float literal, only on its size in
the emitted bytecode (always four bytes), so the bit pattern is left
abstract as zero. -/
def f32_of_lexeme (s : String) : Nat := 0

/-- `str::trim_matches('\'')`: repeatedly strip the quote character
from both ends. -/
def trim_quotes (s : String) : String :=
  ⟨((s.data.dropWhile (· = '\'')).reverse.dropWhile (· = '\'')).reverse⟩

mutual

/-- `Parser::parse_fun`; entered with the current token being the
`fn`/`function` symbol (after `token_revert`). -/
def parse_fun : Nat → PState → PM (Node × PState)
  | 0, _ => .error "fuel"
  | fuel + 1, st => do
    let st := token_next st
    let st ← token_expect .LPar st
    let (args, st) ←
      if st.token.type_ ≠ .RPar then parse_fun_args fuel st
      else .ok ([], st)
    let st ← token_expect .RPar st
    let (body, st) ← parse_block fuel st
    .ok (Node.mk .Function [Node.mk .Block args, Node.mk .Block body], st)

/-- The formal-argument loop inside `Parser::parse_fun`. -/
def parse_fun_args : Nat → PState → PM (List Node × PState)
  | 0, _ => .error "fuel"
  | fuel + 1, st => do
    if h : st.token.type_ = .Sym then
      let arg := Node.mk (.Symbol st.token.text) []
      let st := token_next st
      let (more, st) := token_accept .Comma st
      if more then
        let (rest, st) ← parse_fun_args fuel st
        .ok (arg :: rest, st)
      else
        .ok ([arg], st)
    else
      die "function argument"

/-- `Parser::parse_factor`. -/
def parse_factor : Nat → PState → PM (Node × PState)
  | 0, _ => .error "fuel"
  | fuel + 1, st => do
    if st.token.type_ = .Sym then
      let s := st.token.text
      let st := token_next st
      if s = "fn" ∨ s = "function" then
        parse_fun fuel (token_revert st)
      else
        .ok (Node.mk (.Symbol s) [], st)
    else if st.token.type_ = .Num then
      let x := st.token.text
      let st := token_next st
      .ok (Node.mk (.Number (f32_of_lexeme x)) [], st)
    else if st.token.type_ = .Str then
      let x := st.token.text
      let st := token_next st
      .ok (Node.mk (.String (trim_quotes x)) [], st)
    else if st.token.type_ = .LPar then
      let st := token_next st
      let (n, st) ← parse_condition fuel st
      let st ← token_expect .RPar st
      .ok (n, st)
    else if st.token.type_ = .LBr then
      let st := token_next st
      let (elems, st) ←
        if st.token.type_ ≠ .RBr then parse_list fuel st else .ok ([], st)
      let st ← token_expect .RBr st
      .ok (Node.mk .Array elems, st)
    else if st.token.type_ = .LBlock then
      let st := token_next st
      let (elems, st) ←
        if st.token.type_ ≠ .RBlock then parse_dict fuel st else .ok ([], st)
      let st ← token_expect .RBlock st
      .ok (Node.mk .Dict elems, st)
    else
      die "function call or expression"

/-- `Parser::parse_unary`. -/
def parse_unary : Nat → PState → PM (Node × PState)
  | 0, _ => .error "fuel"
  | fuel + 1, st =>
    let op : Option OpType :=
      match st.token.type_ with
      | .OpPlus => some .OpPlus
      | .OpMinus => some .OpMinus
      | .OpNot => some .OpNot
      | _ => none
    match op with
    | some o => do
      let st := token_next st
      let (child, st) ← parse_unary fuel st
      .ok (Node.mk (.Op o) [child], st)
    | none => parse_call fuel st

/-- `Parser::parse_list`. -/
def parse_list : Nat → PState → PM (List Node × PState)
  | 0, _ => .error "fuel"
  | fuel + 1, st => do
    let (n, st) ← parse_condition fuel st
    let (more, st) := token_accept .Comma st
    if more then
      let (rest, st) ← parse_list fuel st
      .ok (n :: rest, st)
    else
      .ok ([n], st)

/-- `Parser::parse_pair` (appends the key node and the value node). -/
def parse_pair : Nat → PState → PM (List Node × PState)
  | 0, _ => .error "fuel"
  | fuel + 1, st => do
    let key ←
      if st.token.type_ = .Num then
        .ok (Node.mk (.Number (f32_of_lexeme st.token.text)) [])
      else if st.token.type_ = .Sym then
        .ok (Node.mk (.Symbol st.token.text) [])
      else if st.token.type_ = .Str then
        .ok (Node.mk (.String (trim_quotes st.token.text)) [])
      else
        die "symbol or number"
    let st := token_next st
    let st ← token_expect .Colon st
    let (v, st) ← parse_condition fuel st
    .ok ([key, v], st)

/-- `Parser::parse_dict`. -/
def parse_dict : Nat → PState → PM (List Node × PState)
  | 0, _ => .error "fuel"
  | fuel + 1, st => do
    let (kv, st) ← parse_pair fuel st
    let (more, st) := token_accept .Comma st
    if more then
      let (rest, st) ← parse_dict fuel st
      .ok (kv ++ rest, st)
    else
      .ok (kv, st)

/-- The accessor loop of `Parser::parse_accessor`, with `n` the node
built so far. -/
def parse_accessor_loop : Nat → Node → PState → PM (Node × PState)
  | 0, _, _ => .error "fuel"
  | fuel + 1, n, st => do
    let (isIdx, st') := token_accept .LBr st
    if isIdx then
      let (idx, st') ← parse_condition fuel st'
      let st' ← token_expect .RBr st'
      parse_accessor_loop fuel (Node.mk .Index [idx, n]) st'
    else
      let (isDot, st') := token_accept .Dot st
      if isDot then
        if st'.token.type_ = .Sym then
          let m := Node.mk .Member [Node.mk (.Symbol st'.token.text) [], n]
          parse_accessor_loop fuel m (token_next st')
        else
          die "symbol"
      else
        .ok (n, st)

/-- `Parser::parse_accessor`. -/
def parse_accessor : Nat → PState → PM (Node × PState)
  | 0, _ => .error "fuel"
  | fuel + 1, st => do
    let (n, st) ← parse_factor fuel st
    parse_accessor_loop fuel n st

/-- The call/member loop of `Parser::parse_call`. -/
def parse_call_loop : Nat → Node → PState → PM (Node × PState)
  | 0, _, _ => .error "fuel"
  | fuel + 1, n, st => do
    let (isCall, st') := token_accept .LPar st
    if isCall then
      let (args, st') ←
        if st'.token.type_ ≠ .RPar then parse_list fuel st'
        else .ok ([], st')
      let call := Node.mk .Call [n, Node.mk .Block args]
      let st' ← token_expect .RPar st'
      parse_call_loop fuel call st'
    else
      let (isDot, st') := token_accept .Dot st
      if isDot then
        if st'.token.type_ = .Sym then
          let m := Node.mk .Member [Node.mk (.Symbol st'.token.text) [], n]
          parse_call_loop fuel m (token_next st')
        else
          die "symbol"
      else
        .ok (n, st)

/-- `Parser::parse_call`. -/
def parse_call : Nat → PState → PM (Node × PState)
  | 0, _ => .error "fuel"
  | fuel + 1, st => do
    let (n, st) ← parse_accessor fuel st
    parse_call_loop fuel n st

/-- `Parser::parse_term`.  The Rust loop pushes the newly typed operator
node into `parent` and then makes that node the parent of the next
iteration, so the chain grows inside the *last* operand position; this
is expressed here by the right recursion below. -/
def parse_term : Nat → PState → PM (Node × PState)
  | 0, _ => .error "fuel"
  | fuel + 1, st => do
    let (u, st) ← parse_unary fuel st
    let op : Option OpType :=
      match st.token.type_ with
      | .OpMul => some .OpMul
      | .OpDiv => some .OpDiv
      | .OpMod => some .OpMod
      | _ => none
    match op with
    | some o => do
      let st := token_next st
      let (rest, st) ← parse_term fuel st
      .ok (Node.mk (.Op o) [u, rest], st)
    | none => .ok (u, st)

/-- The additive fold of `Parser::parse_expression`, with `term` the
running left operand. -/
def parse_expression_loop : Nat → Node → PState → PM (Node × PState)
  | 0, _, _ => .error "fuel"
  | fuel + 1, term, st =>
    let op : Option OpType :=
      match st.token.type_ with
      | .OpPlus => some .OpPlus
      | .OpMinus => some .OpMinus
      | _ => none
    match op with
    | some o => do
      let st := token_next st
      let (t2, st) ← parse_term fuel st
      parse_expression_loop fuel (Node.mk (.Op o) [term, t2]) st
    | none => .ok (term, st)

/-- `Parser::parse_expression`. -/
def parse_expression : Nat → PState → PM (Node × PState)
  | 0, _ => .error "fuel"
  | fuel + 1, st => do
    let (term, st) ← parse_term fuel st
    parse_expression_loop fuel term st

/-- The comparison fold of `Parser::parse_condition_cmp`. -/
def parse_condition_cmp_loop : Nat → Node → PState → PM (Node × PState)
  | 0, _, _ => .error "fuel"
  | fuel + 1, expr, st =>
    let op : Option OpType :=
      match st.token.type_ with
      | .OpLs => some .OpLs
      | .OpGt => some .OpGt
      | .OpGtEq => some .OpGtEq
      | .OpLsEq => some .OpLsEq
      | .OpEq => some .OpEq
      | .OpNotEq => some .OpNotEq
      | _ => none
    match op with
    | some o => do
      let st := token_next st
      let (e2, st) ← parse_expression fuel st
      parse_condition_cmp_loop fuel (Node.mk (.Op o) [expr, e2]) st
    | none => .ok (expr, st)

/-- `Parser::parse_condition_cmp`. -/
def parse_condition_cmp : Nat → PState → PM (Node × PState)
  | 0, _ => .error "fuel"
  | fuel + 1, st => do
    let (e, st) ← parse_expression fuel st
    parse_condition_cmp_loop fuel e st

/-- The fold of `Parser::parse_condition_and` (reads `&&`, builds
`Op(OpAnd)`). -/
def parse_condition_and_loop : Nat → Node → PState → PM (Node × PState)
  | 0, _, _ => .error "fuel"
  | fuel + 1, expr, st =>
    match st.token.type_ with
    | .OpAnd => do
      let st := token_next st
      let (e2, st) ← parse_condition_cmp fuel st
      parse_condition_and_loop fuel (Node.mk (.Op .OpAnd) [expr, e2]) st
    | _ => .ok (expr, st)

/-- `Parser::parse_condition_and`. -/
def parse_condition_and : Nat → PState → PM (Node × PState)
  | 0, _ => .error "fuel"
  | fuel + 1, st => do
    let (e, st) ← parse_condition_cmp fuel st
    parse_condition_and_loop fuel e st

/-- The fold of `Parser::parse_condition`: note that, as in the source,
the token tag read is `OpAnd` while the node built is `Op(OpOr)`. -/
def parse_condition_loop : Nat → Node → PState → PM (Node × PState)
  | 0, _, _ => .error "fuel"
  | fuel + 1, expr, st =>
    match st.token.type_ with
    | .OpAnd => do
      let st := token_next st
      let (e2, st) ← parse_condition_and fuel st
      parse_condition_loop fuel (Node.mk (.Op .OpOr) [expr, e2]) st
    | _ => .ok (expr, st)

/-- `Parser::parse_condition`. -/
def parse_condition : Nat → PState → PM (Node × PState)
  | 0, _ => .error "fuel"
  | fuel + 1, st => do
    let (e, st) ← parse_condition_and fuel st
    parse_condition_loop fuel e st

/-- `Parser::parse_assignment`. -/
def parse_assignment : Nat → PState → PM (Node × PState)
  | 0, _ => .error "fuel"
  | fuel + 1, st => do
    let (c1, st) ← parse_condition fuel st
    let (isAsg, st) := token_accept .Assign st
    if isAsg then
      let (c2, st) ← parse_condition fuel st
      let st ← token_expect .End st
      .ok (Node.mk .Assign [c1, c2], st)
    else
      let st ← token_expect .End st
      .ok (c1, st)

/-- `Parser::parse_statement`. -/
def parse_statement : Nat → PState → PM (Node × PState)
  | 0, _ => .error "fuel"
  | fuel + 1, st => do
    if st.token.type_ ≠ .Sym then
      parse_assignment fuel st
    else
      let sym := st.token.text
      if sym = "var" then
        let st := token_next st
        let name ←
          match (st.token.as_sym) with
          | some s => .ok s
          | none => die "variable name"
        let st := token_next st
        let st ← token_expect .Assign st
        let (rhs, st) ← parse_condition fuel st
        let st ← token_expect .End st
        .ok (Node.mk .StmtVar [Node.mk (.Symbol name) [], rhs], st)
      else if sym = "if" then
        let st := token_next st
        let st ← token_expect .LPar st
        let (cond, st) ← parse_condition fuel st
        let st ← token_expect .RPar st
        let (ifb, st) ← parse_block fuel st
        if st.token.as_sym = some "else" then
          let st := token_next st
          let (elb, st) ← parse_block fuel st
          .ok (Node.mk .StmtIfElse
                 [cond, Node.mk .Block ifb, Node.mk .Block elb], st)
        else
          .ok (Node.mk .StmtIf [cond, Node.mk .Block ifb], st)
      else if sym = "while" then
        let st := token_next st
        let st ← token_expect .LPar st
        let (cond, st) ← parse_condition fuel st
        let st ← token_expect .RPar st
        let (b, st) ← parse_block fuel st
        .ok (Node.mk .StmtWhile [cond, Node.mk .Block b], st)
      else if sym = "return" then
        let st := token_next st
        let (e, st) ← parse_condition fuel st
        let st ← token_expect .End st
        .ok (Node.mk .StmtReturn [e], st)
      else
        parse_assignment fuel st

/-- The statement loop inside a braced `Parser::parse_block`. -/
def parse_block_loop : Nat → PState → PM (List Node × PState)
  | 0, _ => .error "fuel"
  | fuel + 1, st => do
    if st.token.type_ = .RBlock then
      .ok ([], st)
    else
      let (ns, st) ← parse_block fuel st
      let (rest, st) ← parse_block_loop fuel st
      .ok (ns ++ rest, st)

/-- `Parser::parse_block`. -/
def parse_block : Nat → PState → PM (List Node × PState)
  | 0, _ => .error "fuel"
  | fuel + 1, st => do
    let (isBlk, st) := token_accept .LBlock st
    if isBlk then
      let (ns, st) ← parse_block_loop fuel st
      let st ← token_expect .RBlock st
      .ok (ns, st)
    else
      let (n, st) ← parse_statement fuel st
      .ok ([n], st)

end

/-- The top-level loop of `Parser::parse_program`. -/
def parse_program_loop : Nat → PState → PM (List Node × PState)
  | 0, _ => .error "fuel"
  | fuel + 1, st => do
    if st.token.type_ = .Eof then
      .ok ([], st)
    else
      let (ns, st) ← parse_block fuel st
      let (rest, st) ← parse_program_loop fuel st
      .ok (ns ++ rest, st)

/-- `Parser::parse_program` / `Parser::parse`. -/
def parse_program (fuel : Nat) (tokens : List Token) : PM Node := do
  let st := token_next ⟨tokens, Token.new_empty, Token.new_empty⟩
  let (ns, st) ← parse_program_loop fuel st
  let _ ← token_expect .Eof st
  .ok (Node.mk .Block ns)

/-- The tokenize-then-parse pipeline on a source string. -/
def parse_src (s : String) : PM Node := do
  let ts ← Lex.tokenize s
  parse_program (8 * (ts.length + 2)) ts

end Parse

/-! ## Frame-stack tree (src/frame_stack.rs) -/

structure Frame where
  var_offsets : List String
deriving DecidableEq, Repr

/-- `Frame::new`: pre-populated with the reserved `this` slot. -/
def Frame.new : Frame := ⟨["this"]⟩

structure Link where
  children : List Nat
  parent : Nat
deriving DecidableEq, Repr

structure VarDescr where
  frame_offset : Nat
  var_offset : Nat
  frame_id : Nat
deriving DecidableEq, Repr

structure FrameStackTree where
  frames : List Frame
  links : List Link
  cur_frame : Nat
  next_frame : Nat
deriving DecidableEq, Repr

namespace FrameStackTree

def new : FrameStackTree :=
  ⟨[Frame.new], [⟨[], 0⟩], 0, 1⟩

/-- Read a frame; out-of-range indexing (a panic in the source, never
reached on the states the passes build) yields an empty dummy frame. -/
def frameD (fs : FrameStackTree) (i : Nat) : Frame :=
  fs.frames.getD i ⟨[]⟩

/-- Read a link; out-of-range indexing (a panic in the source, never
reached on the states the passes build) yields a self-loop. -/
def linkD (fs : FrameStackTree) (i : Nat) : Link :=
  fs.links.getD i ⟨[], i⟩

def reset (fs : FrameStackTree) : FrameStackTree :=
  { fs with cur_frame := 0, next_frame := 1 }

/-- The loop of `FrameStackTree::parents`, walking parent links from
`cur` and collecting them until the root self-loop.  The walk only
continues while `parent < cur` — true of every link `add_child`
creates; a malformed upward link (impossible for states built by the
passes) stops the walk like the root does — so a structural fuel equal
to the starting frame index always suffices, keeping the definition
kernel-reducible. -/
def parents_from (fs : FrameStackTree) : Nat → Nat → List Nat
  | fuel, cur =>
    let parent := (fs.linkD cur).parent
    if parent < cur then
      match fuel with
      | f + 1 => parent :: parents_from fs f parent
      | 0 => []
    else []

/-- `FrameStackTree::parents` (note: the collected list includes the
root frame 0 whenever the cursor is below it). -/
def parents (fs : FrameStackTree) : List Nat :=
  parents_from fs fs.cur_frame fs.cur_frame

/-- `FrameStackTree::enter`. -/
def enter (fs : FrameStackTree) : FrameStackTree :=
  { fs with
    cur_frame := fs.next_frame,
    next_frame := ((fs.linkD fs.next_frame).children.getD 0 0) }

/-- `FrameStackTree::exit`.  The `position(..).unwrap()` on the parent's
child list panics when the cursor is not recorded there (which the
passes never cause); that case is modelled by position 0. -/
def exit (fs : FrameStackTree) : FrameStackTree :=
  let parent := (fs.linkD fs.cur_frame).parent
  let pos := ((fs.linkD parent).children.findIdx? (· = fs.cur_frame)).getD 0
  { fs with
    cur_frame := parent,
    next_frame := ((fs.linkD parent).children.getD (pos + 1) 0) }

/-- `FrameStackTree::add_child`. -/
def add_child (fs : FrameStackTree) : FrameStackTree :=
  let new_id := fs.links.length
  let updated := fs.links.set fs.cur_frame
    ⟨(fs.linkD fs.cur_frame).children ++ [new_id], (fs.linkD fs.cur_frame).parent⟩
  { fs with
    frames := fs.frames ++ [Frame.new],
    links := updated ++ [⟨[], fs.cur_frame⟩],
    next_frame := new_id }

/-- The loop of `FrameStackTree::find_var`.  As in `parents_from`, the
walk only continues while `parent < frame` (the `is_root` break of the
source is the `¬ parent < frame` case: all links built by the passes
have `parent < self` except the root self-loop), so a structural fuel
equal to the starting frame index always suffices. -/
def find_var_from (fs : FrameStackTree) (name : String) :
    Nat → Nat → Nat → Option VarDescr
  | fuel, frame, frame_offset =>
    match (fs.frameD frame).var_offsets.findIdx? (· = name) with
    | some var_offset => some ⟨frame_offset, var_offset, frame⟩
    | none =>
      let parent := (fs.linkD frame).parent
      if parent < frame then
        match fuel with
        | f + 1 => find_var_from fs name f parent (frame_offset + 1)
        | 0 => none
      else none

/-- `FrameStackTree::find_var`. -/
def find_var (fs : FrameStackTree) (name : String) : Option VarDescr :=
  find_var_from fs name fs.cur_frame fs.cur_frame 0

/-- `FrameStackTree::put_var`: append `name` to the cursor frame's slot
list if absent (`insert` at index `len` is an append). -/
def put_var (fs : FrameStackTree) (name : String) : FrameStackTree :=
  let offsets := (fs.frameD fs.cur_frame).var_offsets
  if offsets.contains name then fs
  else
    { fs with frames := fs.frames.set fs.cur_frame ⟨offsets ++ [name]⟩ }

/-- `FrameStackTree::put_var_global`: same against frame 0. -/
def put_var_global (fs : FrameStackTree) (name : String) : FrameStackTree :=
  let offsets := (fs.frameD 0).var_offsets
  if offsets.contains name then fs
  else
    { fs with frames := fs.frames.set 0 ⟨offsets ++ [name]⟩ }

end FrameStackTree

/-! ## Visitor (src/syntax_tree.rs) and variable analyzer
(src/var_analyzer.rs)

The visitor's callbacks mutate only the pass state (the Rust passes
never modify the AST), so `Node::visit` is embedded as a state fold.
Pass state `σ` is instantiated with `Except String FrameStackTree` so
that the panics inside the callbacks propagate. -/

structure Visitor (σ : Type) where
  enter_term : Node → σ → σ := fun _ s => s
  enter_fun : Node → σ → σ := fun _ s => s
  enter_call : Node → σ → σ := fun _ s => s
  enter_var : Node → σ → σ := fun _ s => s
  enter_if : Node → σ → σ := fun _ s => s
  enter_while : Node → σ → σ := fun _ s => s
  enter_return : Node → σ → σ := fun _ s => s
  enter_expr : Node → σ → σ := fun _ s => s
  enter_assign : Node → σ → σ := fun _ s => s
  enter_block : Node → σ → σ := fun _ s => s
  exit_term : Node → σ → σ := fun _ s => s
  exit_fun : Node → σ → σ := fun _ s => s
  exit_call : Node → σ → σ := fun _ s => s
  exit_var : Node → σ → σ := fun _ s => s
  exit_if : Node → σ → σ := fun _ s => s
  exit_while : Node → σ → σ := fun _ s => s
  exit_return : Node → σ → σ := fun _ s => s
  exit_expr : Node → σ → σ := fun _ s => s
  exit_assign : Node → σ → σ := fun _ s => s
  exit_block : Node → σ → σ := fun _ s => s

/-- The enter dispatch at the top of `Node::visit`. -/
def Visitor.enterStep {σ : Type} (v : Visitor σ) (n : Node) (s : σ) : σ :=
  match n.type_ with
  | .Number _ | .String _ | .Symbol _ => v.enter_term n s
  | .Function => v.enter_fun n s
  | .Call => v.enter_call n s
  | .StmtVar => v.enter_var n s
  | .StmtIf | .StmtIfElse => v.enter_if n s
  | .StmtWhile => v.enter_while n s
  | .StmtReturn => v.enter_return n s
  | .Op _ => v.enter_expr n s
  | .Assign => v.enter_assign n s
  | .Block => v.enter_block n s
  | _ => s

/-- The exit dispatch at the bottom of `Node::visit`. -/
def Visitor.exitStep {σ : Type} (v : Visitor σ) (n : Node) (s : σ) : σ :=
  match n.type_ with
  | .Number _ | .String _ | .Symbol _ => v.exit_term n s
  | .Function => v.exit_fun n s
  | .Call => v.exit_call n s
  | .StmtVar => v.exit_var n s
  | .StmtIf | .StmtIfElse => v.exit_if n s
  | .StmtWhile => v.exit_while n s
  | .StmtReturn => v.exit_return n s
  | .Op _ => v.exit_expr n s
  | .Assign => v.exit_assign n s
  | .Block => v.exit_block n s
  | _ => s

mutual

/-- `Node::visit`. -/
def Node.visit {σ : Type} (v : Visitor σ) : Node → σ → σ
  | .mk t b, s =>
    Visitor.exitStep v (.mk t b)
      (Node.visitList v b (Visitor.enterStep v (.mk t b) s))

def Node.visitList {σ : Type} (v : Visitor σ) : List Node → σ → σ
  | [], s => s
  | n :: rest, s => Node.visitList v rest (Node.visit v n s)

end

/-- Analyzer pass state. -/
abbrev AState := Except String FrameStackTree

namespace Analyze

/-- `LocalPass::enter_var`: `node.body[0]` must be a `Symbol`
(the source panics otherwise). -/
def local_enter_var (n : Node) (s : AState) : AState := do
  let fs ← s
  match n.body.head? with
  | some (.mk (.Symbol name) _) => .ok (fs.put_var name)
  | _ => .error "enter_var: malformed StmtVar"

/-- One step of `LocalPass::enter_fun`'s argument loop: insert a
`Symbol` argument at slot index 0 of the cursor frame (non-symbol
argument nodes are skipped by the `if let`). -/
def insert_formal (fs : FrameStackTree) (arg : Node) : FrameStackTree :=
  match arg.type_ with
  | .Symbol a =>
    let fr : Frame := ⟨a :: (fs.frameD fs.cur_frame).var_offsets⟩
    { fs with frames := fs.frames.set fs.cur_frame fr }
  | _ => fs

/-- `LocalPass::enter_fun`: create and enter the new frame, then insert
each formal argument at slot index 0. -/
def local_enter_fun (n : Node) (s : AState) : AState := do
  let fs ← s
  let fs := fs.add_child.enter
  match n.body.head? with
  | some args => .ok (args.body.foldl insert_formal fs)
  | none => .error "enter_fun: missing argument block"

def local_exit_fun (_n : Node) (s : AState) : AState := do
  let fs ← s
  .ok fs.exit

/-- `LocalPass` as a visitor. -/
def localPass : Visitor AState :=
  { enter_var := local_enter_var,
    enter_fun := local_enter_fun,
    exit_fun := local_exit_fun }

/-- `GlobalPass::enter_assign`: if the left-hand side is a symbol that
`find_var` cannot resolve, declare it in frame 0.  (`node.body[0]` on a
childless `Assign` panics in the source.) -/
def global_enter_assign (n : Node) (s : AState) : AState := do
  let fs ← s
  match n.body.head? with
  | some (.mk (.Symbol name) _) =>
    if (fs.find_var name).isNone then .ok (fs.put_var_global name)
    else .ok fs
  | some _ => .ok fs
  | none => .error "enter_assign: malformed Assign"

def global_enter_fun (_n : Node) (s : AState) : AState := do
  let fs ← s
  .ok fs.enter

def global_exit_fun (_n : Node) (s : AState) : AState := do
  let fs ← s
  .ok fs.exit

/-- `GlobalPass` as a visitor. -/
def globalPass : Visitor AState :=
  { enter_assign := global_enter_assign,
    enter_fun := global_enter_fun,
    exit_fun := global_exit_fun }

/-- `var_analyzer::build_frame_stack`. -/
def build_frame_stack (ast : Node) : AState := do
  let fs ← Node.visit localPass ast (.ok FrameStackTree.new)
  let fs ← Node.visit globalPass ast (.ok fs.reset)
  .ok fs.reset

end Analyze

/-! ## Assembler (src/assembler.rs)

The output file is a random-access byte store with a write cursor:
a write at the end appends, a write after a backwards seek overwrites,
and `SeekFrom::End(0)` moves the cursor to `len`.  The simulated
operand-stack counters (`sp`, `i32` in the source) are carried as
unbounded integers: no claim depends on `i32` overflow (a panic in
debug builds).  Every four-byte immediate is emitted little-endian,
reduced `mod 2^32` exactly as a `u32` store does. -/

structure Store where
  mem : Nat → Nat
  len : Nat
  cursor : Nat

def Store.empty : Store := ⟨fun _ => 0, 0, 0⟩

/-- One byte written at the cursor. -/
def Store.writeByte (s : Store) (b : Nat) : Store :=
  { mem := fun i => if i = s.cursor then b else s.mem i,
    len := max s.len (s.cursor + 1),
    cursor := s.cursor + 1 }

/-- The four little-endian bytes of `x mod 2^32`. -/
def u32Bytes (x : Nat) : List Nat :=
  [x % 256, x / 256 % 256, x / 65536 % 256, x / 16777216 % 256]

def Store.writeBytes (s : Store) (bs : List Nat) : Store :=
  bs.foldl Store.writeByte s

def Store.writeU32 (s : Store) (x : Nat) : Store :=
  s.writeBytes (u32Bytes x)

/-- Read back a four-byte little-endian word. -/
def Store.readU32 (s : Store) (pos : Nat) : Nat :=
  s.mem pos + 256 * s.mem (pos + 1) + 65536 * s.mem (pos + 2) +
    16777216 * s.mem (pos + 3)

/-- The first `n` bytes of the stream as a list. -/
def Store.dump (s : Store) (n : Nat) : List Nat :=
  (List.range n).map s.mem

/-- `i32 as u32` / `usize as u32` on a possibly negative exact value:
reinterpret `mod 2^32`. -/
def u32OfInt (i : Int) : Nat := (i.emod 4294967296).toNat

/-- Opcode bytes (the `OpCode` enum). -/
def opPushNum : Nat := 0x20
def opPushStr : Nat := 0x21
def opPushInt : Nat := 0x22
def opPushFn : Nat := 0x23
def opTake : Nat := 0x24
def opSwap : Nat := 0x25
def opPop : Nat := 0x26
def opLoad : Nat := 0x31
def opStore : Nat := 0x32
def opJumpIf : Nat := 0x40
def opJump : Nat := 0x41
def opCall : Nat := 0x42

/-- `OpCode::from_op_node_type`. -/
def from_op_node_type : NodeType → Option Nat
  | .Op .OpMul => some 0x52
  | .Op .OpDiv => some 0x53
  | .Op .OpMod => some 0x54
  | .Op .OpOr => some 0x67
  | .Op .OpAnd => some 0x66
  | .Op .OpLs => some 0x60
  | .Op .OpGt => some 0x61
  | .Op .OpLsEq => some 0x64
  | .Op .OpGtEq => some 0x65
  | .Op .OpEq => some 0x62
  | .Op .OpNotEq => some 0x63
  | .Op .OpNot => some 0x68
  | .Op .OpPlus => some 0x50
  | .Op .OpMinus => some 0x51
  | _ => none

/-- UTF-8 encoding of one character (`str::as_bytes`). -/
def utf8Bytes (c : Char) : List Nat :=
  let n := c.toNat
  if n < 0x80 then [n]
  else if n < 0x800 then [0xC0 + n / 64, 0x80 + n % 64]
  else if n < 0x10000 then
    [0xE0 + n / 4096, 0x80 + n / 64 % 64, 0x80 + n % 64]
  else
    [0xF0 + n / 262144, 0x80 + n / 4096 % 64, 0x80 + n / 64 % 64,
     0x80 + n % 64]

/-- UTF-8 bytes of a string. -/
def strBytes (s : String) : List Nat := s.data.flatMap utf8Bytes

structure Asm where
  store : Store
  sp : List Int
  labels : List (List Nat)

def Asm.init : Asm := ⟨Store.empty, [0], []⟩

abbrev AM (α : Type) := Except String α

namespace Asm

/-- `Assembler::get_ip`. -/
def get_ip (a : Asm) : Nat := a.store.cursor

/-- `Assembler::get_sp` (`unwrap` on an empty counter stack panics). -/
def get_sp (a : Asm) : AM Int :=
  match a.sp with
  | t :: _ => .ok t
  | [] => .error "sp empty"

/-- `Assembler::push_sp`. -/
def push_sp (new : Int) (a : Asm) : Asm := { a with sp := new :: a.sp }

/-- `Assembler::pop_sp`. -/
def pop_sp (a : Asm) : AM Asm :=
  match a.sp with
  | _ :: r => .ok { a with sp := r }
  | [] => .error "sp empty"

/-- `*self.sp.last_mut().unwrap() += d`. -/
def mod_sp (d : Int) (a : Asm) : AM Asm :=
  match a.sp with
  | t :: r => .ok { a with sp := (t + d) :: r }
  | [] => .error "sp empty"

def emit (bs : List Nat) (a : Asm) : Asm :=
  { a with store := a.store.writeBytes bs }

/-- `Assembler::push_int`. -/
def push_int (value : Nat) (a : Asm) : AM Asm :=
  mod_sp 1 (emit (opPushInt :: u32Bytes value) a)

/-- `Assembler::push_float` (the f32 is emitted as its four
pattern bytes). -/
def push_float (bits : Nat) (a : Asm) : AM Asm :=
  mod_sp 1 (emit (opPushNum :: u32Bytes bits) a)

/-- `Assembler::push_str`. -/
def push_str (value : String) (a : Asm) : AM Asm :=
  let bs := strBytes value
  mod_sp 1 (emit ((opPushStr :: u32Bytes bs.length) ++ bs) a)

/-- `Assembler::push_fn` (no sp change). -/
def push_fn (parent_frames_count parent_frames_offset own_frame_size : Nat)
    (a : Asm) : Asm :=
  emit ((opPushFn :: u32Bytes parent_frames_count) ++
    u32Bytes parent_frames_offset ++ u32Bytes own_frame_size) a

/-- `Assembler::push_dict`: `sp -= len*2; sp += 1`. -/
def push_dict (len : Nat) (a : Asm) : AM Asm :=
  mod_sp (1 - 2 * (len : Int)) (emit (0x71 :: u32Bytes len) a)

/-- `Assembler::push_array`. -/
def push_array (len : Nat) (a : Asm) : AM Asm :=
  mod_sp (1 - (len : Int)) (emit (0x72 :: u32Bytes len) a)

/-- `Assembler::take`. -/
def take (offset : Nat) (a : Asm) : AM Asm :=
  mod_sp 1 (emit (opTake :: u32Bytes offset) a)

/-- `Assembler::swap` (no sp change). -/
def swap (x y : Nat) (a : Asm) : Asm :=
  emit ((opSwap :: u32Bytes x) ++ u32Bytes y) a

/-- `Assembler::pop`. -/
def pop (n : Nat) (a : Asm) : AM Asm :=
  mod_sp (-(n : Int)) (emit (opPop :: u32Bytes n) a)

/-- `Assembler::load` (no sp change). -/
def load (offset : Nat) (a : Asm) : Asm :=
  emit (opLoad :: u32Bytes offset) a

/-- `Assembler::store`. -/
def store_op (a : Asm) : AM Asm :=
  mod_sp (-2) (emit [opStore] a)

/-- `Assembler::op_binary` (`unwrap` on a non-operator node panics). -/
def op_binary (op : NodeType) (a : Asm) : AM Asm :=
  match from_op_node_type op with
  | some opcode => mod_sp (-1) (emit [opcode] a)
  | none => .error "op_binary: not an operator"

/-- `Assembler::op_unary`: unary plus emits nothing, otherwise emit
`Neg`/`Not`; anything else panics.  No sp change. -/
def op_unary (op : NodeType) (a : Asm) : AM Asm :=
  match op with
  | .Op .OpPlus => .ok a
  | .Op .OpMinus => .ok (emit [0x55] a)
  | .Op .OpNot => .ok (emit [0x68] a)
  | _ => .error "op_unary: bad operator"

/-- `Assembler::gen_label`. -/
def gen_label (a : Asm) : Nat × Asm :=
  (a.labels.length, { a with labels := a.labels ++ [[]] })

/-- `Assembler::put_label`: record the current offset under the label
and emit `PushInt 0xDEAD`. -/
def put_label (label : Nat) (a : Asm) : AM Asm :=
  match a.labels.get? label with
  | none => .error "put_label: no such label"
  | some sites =>
    let a := { a with labels := a.labels.set label (sites ++ [a.get_ip]) }
    mod_sp 1 (emit (opPushInt :: u32Bytes 0xDEAD) a)

/-- One backpatch of `Assembler::fill_label`: seek to the recorded
site, rewrite the `PushInt` and its payload, then seek to the end. -/
def patch_site (offset : Nat) (s : Store) (pos : Nat) : Store :=
  let s := { s with cursor := pos }
  let s := s.writeBytes (opPushInt :: u32Bytes offset)
  { s with cursor := s.len }

/-- `Assembler::fill_label`: capture the current offset as the target
and overwrite the payload of every recorded site with it. -/
def fill_label (label : Nat) (a : Asm) : AM Asm :=
  match a.labels.get? label with
  | none => .error "fill_label: no such label"
  | some sites =>
    let offset := a.get_ip
    .ok { a with store := sites.foldl (patch_site offset) a.store }

/-- `Assembler::jump`. -/
def jump (a : Asm) : AM Asm := mod_sp (-1) (emit [opJump] a)

/-- `Assembler::jump_if`. -/
def jump_if (a : Asm) : AM Asm := mod_sp (-2) (emit [opJumpIf] a)

/-- `Assembler::call`: `sp -= 1 + n_args + 1`. -/
def call (n_args : Nat) (a : Asm) : AM Asm :=
  mod_sp (-(1 + (n_args : Int) + 1)) (emit [opCall] a)

/-- `Assembler::get`. -/
def get_op (a : Asm) : AM Asm := mod_sp (-1) (emit [0x70] a)

end Asm

/-! ## Compiler / codegen (src/compiler.rs)

`CSt` bundles the frame-stack tree and the assembler, matching the
fields of `Compiler`.  The mutually recursive compile methods carry a
fuel parameter (their recursion is structural on the AST in the
source; fuel exhaustion never occurs for the inputs used below). -/

structure CSt where
  frame_stack : FrameStackTree
  assembler : Asm

/-- The `sys_objects` map (`std` → 0). -/
def sys_objects (s : String) : Option Nat :=
  if s = "std" then some 0 else none

abbrev CM (α : Type) := Except String α

namespace Compile

/-- Lift an assembler action into the compiler state. -/
def asmM (f : Asm → AM Asm) (st : CSt) : CM CSt := do
  let a ← f st.assembler
  .ok { st with assembler := a }

/-- Lift a pure assembler action. -/
def asmP (f : Asm → Asm) (st : CSt) : CSt :=
  { st with assembler := f st.assembler }

/-- `Compiler::take_value`: reference forms are followed by `Load 0`. -/
def take_value (n : Node) (st : CSt) : CSt :=
  match n.type_ with
  | .Symbol _ | .Member | .Index => asmP (Asm.load 0) st
  | _ => st

/-- `Compiler::compile_dict_key`. -/
def compile_dict_key (n : Node) (st : CSt) : CM CSt :=
  match n.type_ with
  | .Symbol name => asmM (Asm.push_str name) st
  | .String name => asmM (Asm.push_str name) st
  | .Number num => asmM (Asm.push_float num) st
  | _ => .error "invalid dict key"

/-- f32 negation: flip the sign bit of the pattern. -/
def negF32 (bits : Nat) : Nat :=
  if bits < 2147483648 then bits + 2147483648 else bits - 2147483648

mutual

/-- `Compiler::compile_block` (statement/block compilation). -/
def compile_block : Nat → Node → CSt → CM CSt
  | 0, _, _ => .error "fuel"
  | fuel + 1, n, st =>
    match n.type_ with
    | .Block => compile_stmts fuel n.body st
    | .Assign | .StmtVar => compile_assign fuel n st
    | .Call => do
      let st ← compile_call fuel n st
      asmM (Asm.pop 1) st
    | .StmtIf | .StmtIfElse => compile_if fuel n st
    | .StmtWhile => compile_while fuel n st
    | .StmtReturn => compile_return fuel n st
    | _ => .error "unsupported statement"

/-- The statement loop inside the `Block` arm of `compile_block`. -/
def compile_stmts : Nat → List Node → CSt → CM CSt
  | 0, _, _ => .error "fuel"
  | _, [], st => .ok st
  | fuel + 1, n :: rest, st => do
    let st ← compile_block fuel n st
    compile_stmts fuel rest st

/-- `Compiler::compile_assign`. -/
def compile_assign : Nat → Node → CSt → CM CSt
  | 0, _, _ => .error "fuel"
  | fuel + 1, n, st => do
    let lhand ← match n.body.get? 0 with
      | some x => .ok x
      | none => .error "compile_assign: missing lhs"
    let rhand ← match n.body.get? 1 with
      | some x => .ok x
      | none => .error "compile_assign: missing rhs"
    let st ← compile_expr fuel rhand st
    let st := take_value rhand st
    let st ← compile_expr fuel lhand st
    asmM Asm.store_op st

/-- `Compiler::compile_expr`. -/
def compile_expr : Nat → Node → CSt → CM CSt
  | 0, _, _ => .error "fuel"
  | fuel + 1, n, st =>
    match n.type_ with
    | .Op .OpMul | .Op .OpDiv | .Op .OpMod | .Op .OpOr | .Op .OpAnd
    | .Op .OpLs | .Op .OpGt | .Op .OpLsEq | .Op .OpGtEq | .Op .OpEq
    | .Op .OpNotEq => do
      let x0 ← match n.body.get? 0 with
        | some x => .ok x
        | none => .error "missing operand"
      let x1 ← match n.body.get? 1 with
        | some x => .ok x
        | none => .error "missing operand"
      let st ← compile_expr fuel x0 st
      let st := take_value x0 st
      let st ← compile_expr fuel x1 st
      let st := take_value x1 st
      asmM (Asm.op_binary n.type_) st
    | .Op .OpNot | .Op .OpPlus => do
      let x0 ← match n.body.get? 0 with
        | some x => .ok x
        | none => .error "missing operand"
      let st ← compile_expr fuel x0 st
      let st := take_value x0 st
      match n.body.get? 1 with
      | some x1 => do
        let st ← compile_expr fuel x1 st
        let st := take_value x1 st
        asmM (Asm.op_binary n.type_) st
      | none => asmM (Asm.op_unary n.type_) st
    | .Op .OpMinus => do
      let x0 ← match n.body.get? 0 with
        | some x => .ok x
        | none => .error "missing operand"
      match n.body.get? 1 with
      | some x1 => do
        let st ← compile_expr fuel x0 st
        let st := take_value x0 st
        let st ← compile_expr fuel x1 st
        let st := take_value x1 st
        asmM (Asm.op_binary n.type_) st
      | none =>
        match x0.type_ with
        | .Number bits => asmM (Asm.push_float (negF32 bits)) st
        | _ => do
          let st ← compile_expr fuel x0 st
          let st := take_value x0 st
          asmM (Asm.op_unary n.type_) st
    | .Member => do
      let obj ← match n.body.get? 1 with
        | some x => .ok x
        | none => .error "missing object"
      let key ← match n.body.get? 0 with
        | some x => .ok x
        | none => .error "missing key"
      let st ← compile_expr fuel obj st
      let st := take_value obj st
      let st ← compile_dict_key key st
      asmM Asm.get_op st
    | .Index => do
      let obj ← match n.body.get? 1 with
        | some x => .ok x
        | none => .error "missing object"
      let key ← match n.body.get? 0 with
        | some x => .ok x
        | none => .error "missing key"
      let st ← compile_expr fuel obj st
      let st := take_value obj st
      let st ← compile_expr fuel key st
      let st := take_value key st
      asmM Asm.get_op st
    | .Dict => do
      let st ← compile_pairs fuel n.body st
      asmM (Asm.push_dict (n.body.length / 2)) st
    | .Array => do
      let st ← compile_elems fuel n.body st
      asmM (Asm.push_array n.body.length) st
    | .Number bits => asmM (Asm.push_float bits) st
    | .String s => asmM (Asm.push_str s) st
    | .Symbol s =>
      match sys_objects s with
      | some sys_ptr => asmM (Asm.push_int sys_ptr) st
      | none =>
        match st.frame_stack.find_var s with
        | some var => do
          let sp ← st.assembler.get_sp
          let sp_offset := u32OfInt (sp - (var.frame_offset : Int))
          let st ← asmM (Asm.take sp_offset) st
          let st ← asmM (Asm.push_int var.var_offset) st
          asmM (Asm.op_binary (.Op .OpPlus)) st
        | none => .error "No such variable"
    | .Call => compile_call fuel n st
    | .Function => compile_fn fuel n st
    | _ => .error "compile_expr: unsupported node"

/-- The key/value chunk loop of the `Dict` arm (a trailing unpaired
child is an out-of-bounds panic in the source). -/
def compile_pairs : Nat → List Node → CSt → CM CSt
  | 0, _, _ => .error "fuel"
  | _, [], st => .ok st
  | _, [_], _ => .error "dict: odd chunk"
  | fuel + 1, k :: v :: rest, st => do
    let st ← compile_dict_key k st
    let st ← compile_expr fuel v st
    let st := take_value v st
    compile_pairs fuel rest st

/-- The element loop of the `Array` arm. -/
def compile_elems : Nat → List Node → CSt → CM CSt
  | 0, _, _ => .error "fuel"
  | _, [], st => .ok st
  | fuel + 1, v :: rest, st => do
    let st ← compile_expr fuel v st
    let st := take_value v st
    compile_elems fuel rest st

/-- `Compiler::compile_fn`. -/
def compile_fn : Nat → Node → CSt → CM CSt
  | 0, _, _ => .error "fuel"
  | fuel + 1, n, st => do
    let st := { st with frame_stack := st.frame_stack.enter }
    let (label_bypass, a) := st.assembler.gen_label
    let (label_begin, a) := a.gen_label
    let st := { st with assembler := a }
    let parents_len := st.frame_stack.parents.length
    let frame_size ←
      match st.frame_stack.frames.get? st.frame_stack.cur_frame with
      | some fr => .ok fr.var_offsets.length
      | none => .error "compile_fn: bad frame"
    let sp0 ← st.assembler.get_sp
    let sp := u32OfInt (sp0 + 1)
    let st ← asmM (Asm.put_label label_begin) st
    let st := asmP (Asm.push_fn parents_len sp frame_size) st
    let st ← asmM (Asm.put_label label_bypass) st
    let st ← asmM Asm.jump st
    let st ← asmM (Asm.fill_label label_begin) st
    let st := asmP (Asm.push_sp (parents_len : Int)) st
    let body ← match n.body.get? 1 with
      | some b => .ok b
      | none => .error "compile_fn: missing body"
    let st ← compile_block fuel body st
    let spEnd ← st.assembler.get_sp
    let st ← asmM (Asm.pop (u32OfInt (spEnd + 1))) st
    let st ← asmM Asm.pop_sp st
    let st ← asmM (Asm.push_int 0) st
    let st := asmP (Asm.swap 0 1) st
    let st ← asmM Asm.jump st
    let st ← asmM (Asm.fill_label label_bypass) st
    .ok { st with frame_stack := st.frame_stack.exit }

/-- `Compiler::compile_return`. -/
def compile_return : Nat → Node → CSt → CM CSt
  | 0, _, _ => .error "fuel"
  | fuel + 1, n, st => do
    let sp ← st.assembler.get_sp
    let st := asmP (Asm.push_sp sp) st
    let st ←
      match n.body.head? with
      | some e => do
        let st ← compile_expr fuel e st
        .ok (take_value e st)
      | none => asmM (Asm.push_int 0) st
    let st := asmP (Asm.swap 0 (u32OfInt (sp + 1))) st
    let st ← asmM (Asm.pop (u32OfInt (sp + 1))) st
    let st := asmP (Asm.swap 0 1) st
    let st ← asmM Asm.jump st
    asmM Asm.pop_sp st

/-- `Compiler::compile_call`. -/
def compile_call : Nat → Node → CSt → CM CSt
  | 0, _, _ => .error "fuel"
  | fuel + 1, n, st => do
    let (ret_label, a) := st.assembler.gen_label
    let st := { st with assembler := a }
    let st ← asmM (Asm.put_label ret_label) st
    let addr_node ← match n.body.get? 0 with
      | some x => .ok x
      | none => .error "compile_call: missing target"
    let args_node ← match n.body.get? 1 with
      | some x => .ok x
      | none => .error "compile_call: missing args"
    let st ← compile_args fuel args_node.body st
    let st ← asmM (Asm.push_int args_node.body.length) st
    let st ← compile_expr fuel addr_node st
    let st ← asmM (Asm.call args_node.body.length) st
    asmM (Asm.fill_label ret_label) st

/-- The argument loop of `compile_call`. -/
def compile_args : Nat → List Node → CSt → CM CSt
  | 0, _, _ => .error "fuel"
  | _, [], st => .ok st
  | fuel + 1, v :: rest, st => do
    let st ← compile_expr fuel v st
    let st := take_value v st
    compile_args fuel rest st

/-- `Compiler::compile_if`. -/
def compile_if : Nat → Node → CSt → CM CSt
  | 0, _, _ => .error "fuel"
  | fuel + 1, n, st => do
    let cond ← match n.body.get? 0 with
      | some x => .ok x
      | none => .error "compile_if: missing condition"
    let if_body ← match n.body.get? 1 with
      | some x => .ok x
      | none => .error "compile_if: missing body"
    let st ← compile_expr fuel cond st
    let st := take_value cond st
    let st ← asmM (Asm.op_unary (.Op .OpNot)) st
    let (else_label, a) := st.assembler.gen_label
    let st := { st with assembler := a }
    let st ← asmM (Asm.put_label else_label) st
    let st ← asmM Asm.jump_if st
    let st ← compile_block fuel if_body st
    let (out_label, a) := st.assembler.gen_label
    let st := { st with assembler := a }
    let st ← asmM (Asm.put_label out_label) st
    let st ← asmM Asm.jump st
    let st ← asmM (Asm.fill_label else_label) st
    let st ←
      match n.body.get? 2 with
      | some else_body => compile_block fuel else_body st
      | none => .ok st
    asmM (Asm.fill_label out_label) st

/-- `Compiler::compile_while`. -/
def compile_while : Nat → Node → CSt → CM CSt
  | 0, _, _ => .error "fuel"
  | fuel + 1, n, st => do
    let cond ← match n.body.get? 0 with
      | some x => .ok x
      | none => .error "compile_while: missing condition"
    let body ← match n.body.get? 1 with
      | some x => .ok x
      | none => .error "compile_while: missing body"
    let begin_ip := st.assembler.get_ip
    let st ← compile_expr fuel cond st
    let st := take_value cond st
    let st ← asmM (Asm.op_unary (.Op .OpNot)) st
    let (out_label, a) := st.assembler.gen_label
    let st := { st with assembler := a }
    let st ← asmM (Asm.put_label out_label) st
    let st ← asmM Asm.jump_if st
    let st ← compile_block fuel body st
    let st ← asmM (Asm.push_int begin_ip) st
    let st ← asmM Asm.jump st
    asmM (Asm.fill_label out_label) st

end

/-- `Compiler::compile`: the preamble followed by the program body. -/
def compile (fuel : Nat) (ast : Node) : CM CSt := do
  let fs ← Analyze.build_frame_stack ast
  let st : CSt := ⟨fs, Asm.init⟩
  let num_global_vars ←
    match st.frame_stack.frames.get? 0 with
    | some fr => .ok fr.var_offsets.length
    | none => .error "compile: no root frame"
  let st ← asmM (Asm.push_int 0) st
  let (start_label, a) := st.assembler.gen_label
  let st := { st with assembler := a }
  let st ← asmM (Asm.put_label start_label) st
  let st := asmP (Asm.push_fn 0 0 num_global_vars) st
  let st ← asmM (Asm.call 0) st
  let st ← asmM (Asm.fill_label start_label) st
  compile_block fuel ast st

end Compile

/-! ## Predicates used by the claim statements -/

/-- The name of a `Symbol` node. -/
def symName (n : Node) : Option String :=
  match n.type_ with
  | .Symbol s => some s
  | _ => none

mutual

/-- Does the tree contain an `Op(OpOr)` node? -/
def has_or : Node → Bool
  | .mk t b => (t = .Op .OpOr) || has_or_list b

def has_or_list : List Node → Bool
  | [] => false
  | n :: r => has_or n || has_or_list r

end

mutual

/-- Does the tree contain an `Assign` node whose first child is
`Symbol x`? -/
def assigns_to (x : String) : Node → Bool
  | .mk t b =>
    (t = .Assign && (b.head?.bind symName) = some x) || assigns_to_list x b

def assigns_to_list (x : String) : List Node → Bool
  | [] => false
  | n :: r => assigns_to x n || assigns_to_list x r

end

mutual

/-- Every name declared by a `StmtVar` anywhere in the tree. -/
def var_names : Node → List String
  | .mk t b =>
    (match t, b.head?.bind symName with
     | .StmtVar, some s => [s]
     | _, _ => []) ++ var_names_list b

def var_names_list : List Node → List String
  | [] => []
  | n :: r => var_names n ++ var_names_list r

end

mutual

/-- Every formal-argument name of a `Function` literal anywhere in the
tree (the symbols of the function's first child block). -/
def formal_names : Node → List String
  | .mk t b =>
    (match t, b.head? with
     | .Function, some args => args.body.filterMap symName
     | _, _ => []) ++ formal_names_list b

def formal_names_list : List Node → List String
  | [] => []
  | n :: r => formal_names n ++ formal_names_list r

end

/-- The number lexeme pattern claimed by the spec:
`[0-9]+(\.[0-9]+)?`. -/
def num_lexeme_spec (l : List Char) : Bool :=
  let ds := l.takeWhile Lex.isDigitCh
  let rest := l.drop ds.length
  decide (ds ≠ []) &&
    (rest.isEmpty ||
      (rest.head? = some '.' && decide (rest.tail ≠ []) &&
        rest.tail.all Lex.isDigitCh))

/-- The number lexeme pattern the lexer actually guarantees:
`[0-9]+(\.[0-9]*)?` (the fractional digits may be absent). -/
def num_lexeme_actual (l : List Char) : Bool :=
  let ds := l.takeWhile Lex.isDigitCh
  let rest := l.drop ds.length
  decide (ds ≠ []) &&
    (rest.isEmpty || (rest.head? = some '.' && rest.tail.all Lex.isDigitCh))

/-- The empty program's AST (`parse_program` on the empty token
stream). -/
def emptyProgram : Node := .mk .Block []

/-- The preamble byte list the spec's empty-program scenario claims,
with the second `PushInt` payload resolved to the byte offset after
`Call` (offset 24, the end of the 24-byte file) and, as the claim
states, a `PushFn` `frame_size` immediate of 0. -/
def claimedEmptyBytes : List Nat :=
  [0x22, 0, 0, 0, 0,
   0x22, 24, 0, 0, 0,
   0x23, 0, 0, 0, 0, 0, 0, 0, 0, 0, 0, 0, 0,
   0x42]

/-- The preamble bytes the code generator actually produces for the
empty program: identical except that `frame_size` is 1, the size of
the root frame holding the reserved `this` slot. -/
def actualEmptyBytes : List Nat :=
  [0x22, 0, 0, 0, 0,
   0x22, 24, 0, 0, 0,
   0x23, 0, 0, 0, 0, 0, 0, 0, 0, 1, 0, 0, 0,
   0x42]

/-- Add `d` to the top counter of a stack of counters (identity on the
empty stack); used only to state the stack effect of the child loops
`compile_pairs`, `compile_elems` and `compile_args`. -/
def shiftTop (d : Int) : List Int → List Int
  | [] => []
  | t :: r => (t + d) :: r

/-- Tokens of type `Num` in `ts` all carry a lexeme matching the loose
number pattern. -/
def numTokensOk (ts : List Token) : Prop :=
  ∀ t ∈ ts, t.type_ = .Num → num_lexeme_actual t.text.data = true

/-- Structural form of the loose number pattern: a nonempty digit block
optionally followed by a dot and a (possibly empty) digit block. -/
def NumText (l : List Char) : Prop :=
  ∃ a b, l = a ++ b ∧ a ≠ [] ∧ a.all Lex.isDigitCh = true ∧
    (b = [] ∨ ∃ f, b = '.' :: f ∧ f.all Lex.isDigitCh = true)

/-- Invariant of the tokenize loop implying the number-lexeme claim. -/
def lexNumInv (st : LexState) : Prop :=
  numTokensOk st.tokens ∧
  (st.ttype = .Num → NumText st.ttext) ∧
  (st.ttype = .Empty → st.ttext = []) ∧
  (st.ttype = .Empty ∨ st.ttype = .Sym ∨ st.ttype = .Num ∨
    st.ttype = .Str ∨ st.ttype = .Comment)

/-- `x` occurs in no frame of the tree. -/
def x_absent (x : String) (fs : FrameStackTree) : Prop :=
  ∀ j, x ∉ (fs.frameD j).var_offsets

/-- `x` occurs in no frame of a successful pass state. -/
def okAbsent (x : String) (s : AState) : Prop :=
  ∀ fs, s = .ok fs → x_absent x fs

/-- Any occurrence of `x` in some frame forces one in the root frame. -/
def root_linked (x : String) (fs : FrameStackTree) : Prop :=
  ∀ j, x ∈ (fs.frameD j).var_offsets → x ∈ (fs.frameD 0).var_offsets

/-- `x` is a slot of the root frame of a successful pass state. -/
def okRootMem (x : String) (s : AState) : Prop :=
  ∀ fs, s = .ok fs → x ∈ (fs.frameD 0).var_offsets
def okLen (s : AState) : Prop :=
  ∀ fs, s = .ok fs → 0 < fs.frames.length

def okRootOk (x : String) (s : AState) : Prop :=
  ∀ fs, s = .ok fs → 0 < fs.frames.length ∧ root_linked x fs


/-- The frames `find_var` visits, walking parent links upward from
`frame` exactly as `find_var_from` does (the walk continues only while
`parent < frame`; the fuel mirrors `find_var`'s). -/
def chainFrames (fs : FrameStackTree) : Nat → Nat → List Nat
  | fuel, frame =>
    frame ::
      (let parent := (fs.linkD frame).parent
       if parent < frame then
         match fuel with
         | f + 1 => chainFrames fs f parent
         | 0 => []
       else [])

/-! # Theorems

General-purpose inversion lemmas for the `Except` chains, then the
claim theorems C1-C10 with their witnesses and counterexamples. -/

theorem bind_ok {α β : Type} {x : Except String α} {f : α → Except String β}
    {b : β} : (x >>= f) = .ok b ↔ ∃ a, x = .ok a ∧ f a = .ok b := by
  cases x <;> simp [Bind.bind, Except.bind]

theorem map_ok {α β : Type} {x : Except String α} {f : α → β}
    {b : β} : x.map f = .ok b ↔ ∃ a, x = .ok a ∧ f a = b := by
  cases x <;> simp [Except.map]

theorem ok_bind {α β : Type} (a : α) (f : α → Except String β) :
    (Except.ok a >>= f) = f a := rfl

/-! ## C1: the empty-program preamble -/

/-- Claim C1 counterexample: compiling the empty program does *not*
produce the claimed byte list, whose `PushFn` `frame_size` immediate is
0 — the code passes `num_globals`, and the root frame always holds the
reserved `this` slot, so the immediate is 1. -/
theorem c1_counterexample :
    (Compile.compile 9 emptyProgram).map
        (fun st => st.assembler.store.dump st.assembler.store.len) ≠
      .ok claimedEmptyBytes := by
  decide

/-- Claim C1, amended: compiling the empty program produces exactly
`22 00000000 22 aaaaaaaa 23 00000000 00000000 01000000 42` — the
claimed preamble except that the `PushFn` `frame_size` immediate is 1
(the size of the root frame, which holds the reserved `this` slot) —
where `aaaaaaaa` (the payload at offset 6) is 24, the byte offset
immediately after the `Call` opcode, which is also the length of the
file. -/
theorem c1_empty_program :
    (Compile.compile 9 emptyProgram).map
        (fun st => (st.assembler.store.dump st.assembler.store.len,
                    st.assembler.store.len,
                    st.assembler.store.readU32 6)) =
      .ok (actualEmptyBytes, 24, 24) := by
  decide

/-! ## C2: formal-argument slot layout -/

/-- Claim C2 counterexample: after the local pass on a program whose
function literal has the single formal `a`, slot 0 of the new frame
holds `a`, not the reserved name `this` (which has been pushed to slot
1 by the insertions at index 0). -/
theorem c2_counterexample :
    (Node.visit Analyze.localPass
        (.mk .Block [.mk .StmtVar [.mk (.Symbol "f") [],
          .mk .Function [.mk .Block [.mk (.Symbol "a") []],
            .mk .Block []]]])
        (.ok FrameStackTree.new)).map
        (fun fs => (fs.frameD 1).var_offsets) = .ok ["a", "this"] ∧
      (["a", "this"].get? 0 ≠ some "this") := by
  exact ⟨by decide, by decide⟩

theorem insert_formal_fold (l : List Node) :
    ∀ (fs : FrameStackTree) (fr : Frame),
      fs.frames.get? fs.cur_frame = some fr →
      (l.foldl Analyze.insert_formal fs).frames.get? fs.cur_frame =
          some ⟨(l.filterMap symName).reverse ++ fr.var_offsets⟩ ∧
        (l.foldl Analyze.insert_formal fs).cur_frame = fs.cur_frame := by
  induction l with
  | nil =>
    intro fs fr hget
    simpa using hget
  | cons a l ih =>
    intro fs fr hget
    rw [List.get?_eq_getElem?] at hget
    have hlt : fs.cur_frame < fs.frames.length :=
      (List.getElem?_eq_some_iff.mp hget).1
    have hfd : fs.frameD fs.cur_frame = fr := by
      simp [FrameStackTree.frameD, List.getD, hget]
    cases ha : a.type_
    case Symbol s =>
      have hstep : Analyze.insert_formal fs a =
          { fs with frames :=
              fs.frames.set fs.cur_frame (Frame.mk (s :: fr.var_offsets)) } := by
        unfold Analyze.insert_formal
        rw [ha, hfd]
      have hget2 : (Analyze.insert_formal fs a).frames.get?
          (Analyze.insert_formal fs a).cur_frame =
          some (Frame.mk (s :: fr.var_offsets)) := by
        rw [hstep, List.get?_eq_getElem?]
        simpa using List.getElem?_set_self hlt
      have hcur : (Analyze.insert_formal fs a).cur_frame = fs.cur_frame := by
        rw [hstep]
      obtain ⟨h1, h2⟩ := ih (Analyze.insert_formal fs a)
        (Frame.mk (s :: fr.var_offsets)) hget2
      rw [hcur] at h1 h2
      refine ⟨?_, by simpa using h2⟩
      simp only [List.foldl_cons]
      rw [h1]
      simp [List.filterMap_cons, symName, ha]
    all_goals
      have hstep : Analyze.insert_formal fs a = fs := by
        unfold Analyze.insert_formal
        rw [ha]
    all_goals
      obtain ⟨h1, h2⟩ := ih fs fr (by rw [List.get?_eq_getElem?]; exact hget)
    all_goals
      simp only [List.foldl_cons, hstep]
    all_goals
      exact ⟨by rw [h1]; simp [List.filterMap_cons, symName, ha], h2⟩

/-- Claim C2, amended: for every `Function` node, `enter_fun` of the
local pass places the formals in the new frame in *reverse declaration
order starting at slot 0* (the last formal at slot 0), with the
reserved name `this` pushed to the last slot: each insertion at index 0
displaces the pre-populated `this`.  (`fs.frames.length = fs.links.length`
is an invariant of every tree the passes build; the new frame's id is
that common length.) -/
theorem c2_formals_layout :
    ∀ (n args : Node) (fs fs' : FrameStackTree),
      n.body.head? = some args →
      fs.frames.length = fs.links.length →
      Analyze.local_enter_fun n (.ok fs) = .ok fs' →
      fs'.frames.get? fs.frames.length =
        some ⟨(args.body.filterMap symName).reverse ++ ["this"]⟩ := by
  intro n args fs fs' hhead hlen h
  unfold Analyze.local_enter_fun at h
  simp only [Bind.bind, Except.bind, hhead] at h
  injection h with h
  have hA : (fs.add_child.enter).cur_frame = fs.frames.length := by
    simp [FrameStackTree.add_child, FrameStackTree.enter, hlen]
  have hB : (fs.add_child.enter).frames.get? fs.frames.length =
      some Frame.new := by
    show (fs.frames ++ [Frame.new]).get? fs.frames.length = some Frame.new
    rw [List.get?_eq_getElem?]
    simp
  obtain ⟨h1, h2⟩ := insert_formal_fold args.body (fs.add_child.enter)
    Frame.new (by rw [hA]; exact hB)
  rw [hA] at h1
  rw [h] at h1
  exact h1

/-- Claim C2 witness: the amended layout theorem applied to a function
literal with formals `p, q` entered from the fresh tree — the new
frame's slots are `["q", "p", "this"]`. -/
theorem c2_witness :
    (⟨[⟨["this"]⟩, ⟨["q", "p", "this"]⟩], [⟨[1], 0⟩, ⟨[], 0⟩], 1, 0⟩ :
        FrameStackTree).frames.get? 1 = some ⟨["q", "p", "this"]⟩ := by
  have h := c2_formals_layout
    (.mk .Function [.mk .Block [.mk (.Symbol "p") [], .mk (.Symbol "q") []],
      .mk .Block []])
    (.mk .Block [.mk (.Symbol "p") [], .mk (.Symbol "q") []])
    FrameStackTree.new
    ⟨[⟨["this"]⟩, ⟨["q", "p", "this"]⟩], [⟨[1], 0⟩, ⟨[], 0⟩], 1, 0⟩
    (by decide) (by decide) (by decide)
  simp at h
  exact h

/-! ## C3: associativity of the precedence layers -/

/-- Claim C3 counterexample: the multiplicative layer is *not*
left-associative: `a * b * c` parses as `Mul(a, Mul(b, c))`, not as the
claimed `Mul(Mul(a, b), c)` — `parse_term` descends into the last child
it pushed, growing the chain to the right. -/
theorem c3_counterexample :
    Parse.parse_src "a * b * c;" =
        .ok (.mk .Block [.mk (.Op .OpMul) [.mk (.Symbol "a") [],
          .mk (.Op .OpMul) [.mk (.Symbol "b") [], .mk (.Symbol "c") []]]]) ∧
      (Node.mk .Block [.mk (.Op .OpMul) [.mk (.Symbol "a") [],
          .mk (.Op .OpMul) [.mk (.Symbol "b") [], .mk (.Symbol "c") []]]] ≠
        .mk .Block [.mk (.Op .OpMul) [.mk (.Op .OpMul)
          [.mk (.Symbol "a") [], .mk (.Symbol "b") []],
          .mk (.Symbol "c") []]]) := by
  exact ⟨by decide, by decide⟩

/-- Claim C3, amended: the additive, comparison and and-layers fold
left-associatively (`a op b op c` parses as `Op(Op(a, b), c)`), but the
multiplicative layer (`* / %`) folds right-associatively: `a op b op c`
parses as `Op(a, Op(b, c))`. -/
theorem c3_associativity :
    (∀ op : OpType, ∀ src : String,
      (op = .OpPlus ∧ src = "a + b + c;") ∨
      (op = .OpMinus ∧ src = "a - b - c;") ∨
      (op = .OpLs ∧ src = "a < b < c;") ∨
      (op = .OpGt ∧ src = "a > b > c;") ∨
      (op = .OpLsEq ∧ src = "a <= b <= c;") ∨
      (op = .OpGtEq ∧ src = "a >= b >= c;") ∨
      (op = .OpEq ∧ src = "a == b == c;") ∨
      (op = .OpNotEq ∧ src = "a != b != c;") ∨
      (op = .OpAnd ∧ src = "a && b && c;") →
      Parse.parse_src src =
        .ok (.mk .Block [.mk (.Op op) [.mk (.Op op)
          [.mk (.Symbol "a") [], .mk (.Symbol "b") []],
          .mk (.Symbol "c") []]])) ∧
    (∀ op : OpType, ∀ src : String,
      (op = .OpMul ∧ src = "a * b * c;") ∨
      (op = .OpDiv ∧ src = "a / b / c;") ∨
      (op = .OpMod ∧ src = "a % b % c;") →
      Parse.parse_src src =
        .ok (.mk .Block [.mk (.Op op) [.mk (.Symbol "a") [],
          .mk (.Op op) [.mk (.Symbol "b") [], .mk (.Symbol "c") []]]])) := by
  constructor
  · intro op src h
    rcases h with ⟨h1, h2⟩ | ⟨h1, h2⟩ | ⟨h1, h2⟩ | ⟨h1, h2⟩ | ⟨h1, h2⟩ |
      ⟨h1, h2⟩ | ⟨h1, h2⟩ | ⟨h1, h2⟩ | ⟨h1, h2⟩ <;> subst h1 <;> subst h2 <;>
      decide
  · intro op src h
    rcases h with ⟨h1, h2⟩ | ⟨h1, h2⟩ | ⟨h1, h2⟩ <;> subst h1 <;> subst h2 <;>
      decide

/-- Claim C3 witness: the amended theorem applied at the additive layer
(`+`) and at the multiplicative layer (`*`). -/
theorem c3_witness :
    Parse.parse_src "a + b + c;" =
        .ok (.mk .Block [.mk (.Op .OpPlus) [.mk (.Op .OpPlus)
          [.mk (.Symbol "a") [], .mk (.Symbol "b") []],
          .mk (.Symbol "c") []]]) ∧
      Parse.parse_src "a * b * c;" =
        .ok (.mk .Block [.mk (.Op .OpMul) [.mk (.Symbol "a") [],
          .mk (.Op .OpMul) [.mk (.Symbol "b") [], .mk (.Symbol "c") []]]]) :=
  ⟨c3_associativity.1 .OpPlus "a + b + c;" (.inl ⟨rfl, rfl⟩),
   c3_associativity.2 .OpMul "a * b * c;" (.inl ⟨rfl, rfl⟩)⟩

/-! ## C4: the top precedence layer -/

/-- Claim C4 counterexample: `a && b && c` is folded only once, at the
and-layer, into `And(And(a, b), c)`; no `Or` node appears anywhere in
the parse — the top layer's `Or`-building branch never fires because
`parse_condition_and` has already consumed every `&&` token. -/
theorem c4_counterexample :
    Parse.parse_src "a && b && c;" =
        .ok (.mk .Block [.mk (.Op .OpAnd) [.mk (.Op .OpAnd)
          [.mk (.Symbol "a") [], .mk (.Symbol "b") []],
          .mk (.Symbol "c") []]]) ∧
      (Parse.parse_src "a && b && c;").map has_or = .ok false := by
  exact ⟨by decide, by decide⟩

theorem parse_condition_and_loop_stop {fuel : Nat} {e : Node} {st : PState}
    (h : st.token.type_ ≠ .OpAnd) :
    Parse.parse_condition_and_loop (fuel + 1) e st = .ok (e, st) := by
  rw [Parse.parse_condition_and_loop]
  split
  · rename_i heq; exact absurd heq h
  · rfl

theorem parse_condition_and_loop_exit :
    ∀ (fuel : Nat) (e : Node) (st : PState) (x : Node)
      (st' : PState),
      Parse.parse_condition_and_loop fuel e st = .ok (x, st') →
      st'.token.type_ ≠ .OpAnd := by
  intro fuel
  induction fuel with
  | zero =>
    intro e st x st' h
    simp [Parse.parse_condition_and_loop] at h
  | succ n ih =>
    intro e st x st' h
    by_cases hAnd : st.token.type_ = .OpAnd
    · rw [Parse.parse_condition_and_loop] at h
      split at h
      · rcases bind_ok.mp h with ⟨⟨e2, st2⟩, h1, h2⟩
        exact ih _ _ _ _ h2
      · rename_i hne
        injection h with h
        injection h with h1 h2
        subst h2
        exact hne
    · rw [parse_condition_and_loop_stop hAnd] at h
      injection h with h
      injection h with h1 h2
      subst h2
      exact hAnd

/-- Claim C4, amended: the top precedence layer does read the `&&`
token tag and does construct an `Op(OpOr)` node (conjunct 1, shown by
driving the layer's fold directly with an `&&` token), and no `||`
token is ever folded — a `||` left in the stream makes the parser fail
(conjunct 4).  But `a && b && c` is *not* folded twice: the and-layer
leaves the stream with a non-`&&` token (conjunct 2), so the top
layer's fold returns its operand untouched (conjunct 3), and the parse
of `a && b && c` contains no `Or` node (conjunct 5). -/
theorem c4_or_layer :
    (Parse.parse_condition_loop 9 (.mk (.Symbol "a") [])
        ⟨[⟨.Sym, "b", 1, 5⟩, ⟨.End, ";", 1, 6⟩, ⟨.Eof, "", 1, 7⟩],
         ⟨.OpAnd, "&&", 1, 3⟩, ⟨.Sym, "a", 1, 0⟩⟩ =
      .ok (.mk (.Op .OpOr) [.mk (.Symbol "a") [], .mk (.Symbol "b") []],
        ⟨[⟨.Eof, "", 1, 7⟩], ⟨.End, ";", 1, 6⟩, ⟨.Sym, "b", 1, 5⟩⟩)) ∧
    (∀ (fuel : Nat) (st : PState) (e : Node) (st' : PState),
      Parse.parse_condition_and fuel st = .ok (e, st') →
      st'.token.type_ ≠ .OpAnd) ∧
    (∀ (fuel : Nat) (e : Node) (st : PState),
      st.token.type_ ≠ .OpAnd →
      Parse.parse_condition_loop (fuel + 1) e st = .ok (e, st)) ∧
    (Parse.parse_src "a || b;" =
      .error "Unexpected token, expected token type") ∧
    ((Parse.parse_src "a && b && c;").map has_or = .ok false) := by
  refine ⟨by decide, ?_, ?_, by decide, by decide⟩
  · intro fuel st e st' h
    match fuel with
    | 0 => simp [Parse.parse_condition_and] at h
    | n + 1 =>
      rw [Parse.parse_condition_and] at h
      rcases bind_ok.mp h with ⟨⟨e1, st1⟩, h1, h2⟩
      exact parse_condition_and_loop_exit _ _ _ _ _ h2
  · intro fuel e st h
    rw [Parse.parse_condition_loop]
    split
    · rename_i heq; exact absurd heq h
    · rfl

/-- Claim C4 witness: the amended theorem's and-layer exit property
applied to a concrete run (`a && b` followed by `;`), and its top-layer
no-op fold applied to the resulting state. -/
theorem c4_witness :
    (Parse.parse_condition_and 9
        (⟨[⟨.OpAnd, "&&", 1, 2⟩, ⟨.Sym, "b", 1, 5⟩, ⟨.End, ";", 1, 6⟩,
          ⟨.Eof, "", 1, 7⟩], ⟨.Sym, "a", 1, 0⟩, Token.new_empty⟩ : PState) =
      .ok ((.mk (.Op .OpAnd) [.mk (.Symbol "a") [], .mk (.Symbol "b") []] :
          Node),
        ⟨[⟨.Eof, "", 1, 7⟩], ⟨.End, ";", 1, 6⟩, ⟨.Sym, "b", 1, 5⟩⟩)) ∧
    (⟨[⟨.Eof, "", 1, 7⟩], ⟨.End, ";", 1, 6⟩,
        ⟨.Sym, "b", 1, 5⟩⟩ : PState).token.type_ ≠ .OpAnd ∧
    Parse.parse_condition_loop 9
        (.mk (.Op .OpAnd) [.mk (.Symbol "a") [], .mk (.Symbol "b") []])
        ⟨[⟨.Eof, "", 1, 7⟩], ⟨.End, ";", 1, 6⟩, ⟨.Sym, "b", 1, 5⟩⟩ =
      .ok (.mk (.Op .OpAnd) [.mk (.Symbol "a") [], .mk (.Symbol "b") []],
        ⟨[⟨.Eof, "", 1, 7⟩], ⟨.End, ";", 1, 6⟩, ⟨.Sym, "b", 1, 5⟩⟩) :=
  ⟨by decide,
   c4_or_layer.2.1 9
     ⟨[⟨.OpAnd, "&&", 1, 2⟩, ⟨.Sym, "b", 1, 5⟩, ⟨.End, ";", 1, 6⟩,
       ⟨.Eof, "", 1, 7⟩], ⟨.Sym, "a", 1, 0⟩, Token.new_empty⟩
     (.mk (.Op .OpAnd) [.mk (.Symbol "a") [], .mk (.Symbol "b") []])
     ⟨[⟨.Eof, "", 1, 7⟩], ⟨.End, ";", 1, 6⟩, ⟨.Sym, "b", 1, 5⟩⟩
     (by decide),
   c4_or_layer.2.2.1 8 _ _ (by decide)⟩

/-! frame-level lemmas -/

theorem frameD_frames {fs fs' : FrameStackTree}
    (h : fs'.frames = fs.frames) (j : Nat) :
    fs'.frameD j = fs.frameD j := by
  unfold FrameStackTree.frameD
  rw [h]

theorem frameD_set (fs : FrameStackTree) (i : Nat) (fr : Frame) (j : Nat) :
    ({ fs with frames := fs.frames.set i fr } : FrameStackTree).frameD j
      = if j = i ∧ i < fs.frames.length then fr else fs.frameD j := by
  unfold FrameStackTree.frameD
  simp only [List.getD_eq_getElem?_getD]
  rcases Nat.lt_or_ge i fs.frames.length with hi | hi
  · by_cases hj : j = i
    · subst hj
      simp [List.getElem?_set_self (by simpa using hi), hi]
    · simp [List.getElem?_set_ne (fun hc => hj hc.symm), hj]
  · rw [List.set_eq_of_length_le (by simpa using hi)]
    simp [Nat.not_lt_of_ge hi]

theorem frameD_append_new (fs : FrameStackTree) (j : Nat) :
    ((fs.frames ++ [Frame.new]).getD j ⟨[]⟩) =
      if j < fs.frames.length then fs.frameD j
      else if j = fs.frames.length then Frame.new
      else ⟨[]⟩ := by
  unfold FrameStackTree.frameD
  simp only [List.getD_eq_getElem?_getD]
  rcases Nat.lt_trichotomy j fs.frames.length with hj | hj | hj
  · simp [List.getElem?_append_left hj, hj]
  · subst hj
    simp
  · rw [List.getElem?_append_right (Nat.le_of_lt hj)]
    have h2 : ¬ j < fs.frames.length := Nat.not_lt_of_ge (Nat.le_of_lt hj)
    have h3 : j ≠ fs.frames.length := Nat.ne_of_gt hj
    have h4 : ([Frame.new] : List Frame).length ≤ j - fs.frames.length := by
      simp only [List.length_singleton]
      omega
    simp [h2, h3, List.getElem?_eq_none h4]

/-! absence preservation by the frame-stack operations -/

theorem put_var_eq (fs : FrameStackTree) (y : String) :
    fs.put_var y =
      if ((fs.frameD fs.cur_frame).var_offsets).contains y = true then fs
      else { fs with frames := fs.frames.set fs.cur_frame (Frame.mk ((fs.frameD fs.cur_frame).var_offsets ++ [y])) } := rfl

theorem put_var_global_eq (fs : FrameStackTree) (y : String) :
    fs.put_var_global y =
      if ((fs.frameD 0).var_offsets).contains y = true then fs
      else { fs with frames := fs.frames.set 0 (Frame.mk ((fs.frameD 0).var_offsets ++ [y])) } := rfl

theorem x_absent_put_var {x y : String} {fs : FrameStackTree}
    (hxy : x ≠ y) (h : x_absent x fs) : x_absent x (fs.put_var y) := by
  rw [put_var_eq]
  split
  · exact h
  · intro j
    rw [frameD_set]
    split
    · simp only [List.mem_append, List.mem_singleton]
      rintro (hin | rfl)
      · exact h fs.cur_frame hin
      · exact hxy rfl
    · exact h j

theorem x_absent_enter {x : String} {fs : FrameStackTree}
    (h : x_absent x fs) : x_absent x fs.enter := fun j => by
  rw [frameD_frames rfl]
  exact h j

theorem x_absent_exit {x : String} {fs : FrameStackTree}
    (h : x_absent x fs) : x_absent x fs.exit := fun j => by
  rw [frameD_frames rfl]
  exact h j

theorem x_absent_reset {x : String} {fs : FrameStackTree}
    (h : x_absent x fs) : x_absent x fs.reset := fun j => by
  rw [frameD_frames rfl]
  exact h j

theorem x_absent_add_child {x : String} {fs : FrameStackTree}
    (hthis : x ≠ "this") (h : x_absent x fs) :
    x_absent x fs.add_child := by
  intro j
  unfold FrameStackTree.add_child
  show x ∉ ((fs.frames ++ [Frame.new]).getD j ⟨[]⟩).var_offsets
  rw [frameD_append_new]
  split
  · exact h j
  split
  · unfold Frame.new
    simp only [List.mem_singleton]
    intro hc
    exact hthis hc
  · simp

theorem x_absent_insert_formal {x : String} {fs : FrameStackTree}
    {arg : Node}
    (harg : ∀ a, symName arg = some a → x ≠ a) (h : x_absent x fs) :
    x_absent x (Analyze.insert_formal fs arg) := by
  unfold Analyze.insert_formal
  cases harg2 : arg.type_ <;> simp only [harg2] <;> try exact h
  rename_i a
  intro j
  rw [frameD_set]
  split
  · simp only [List.mem_cons]
    rintro (rfl | hin)
    · exact harg x (by simp [symName, harg2]) rfl
    · exact h fs.cur_frame hin
  · exact h j

theorem x_absent_foldl_formals {x : String} :
    ∀ (args : List Node) (fs : FrameStackTree),
      (∀ arg ∈ args, ∀ a, symName arg = some a → x ≠ a) →
      x_absent x fs →
      x_absent x (args.foldl Analyze.insert_formal fs) := by
  intro args
  induction args with
  | nil => intro fs _ h; exact h
  | cons arg rest ih =>
    intro fs hall h
    rw [List.foldl_cons]
    exact ih _ (fun a ha => hall a (List.mem_cons_of_mem _ ha))
      (x_absent_insert_formal (hall arg (List.mem_cons_self _ _)) h)


theorem var_names_mk (t : NodeType) (b : List Node) :
    var_names (Node.mk t b) =
      (match t, b.head?.bind symName with
       | .StmtVar, some s => [s]
       | _, _ => []) ++ var_names_list b := rfl

theorem formal_names_mk (t : NodeType) (b : List Node) :
    formal_names (Node.mk t b) =
      (match t, b.head? with
       | .Function, some args => args.body.filterMap symName
       | _, _ => []) ++ formal_names_list b := rfl

/-! the local pass leaves `x` absent -/

theorem local_enter_var_absent {x : String} {n : Node} {s : AState}
    (hname : ∀ name nb, n.body.head? = some (Node.mk (.Symbol name) nb) →
      x ≠ name)
    (hs : okAbsent x s) :
    okAbsent x (Analyze.local_enter_var n s) := by
  intro fs' heq
  cases s with
  | error e => cases heq
  | ok fs0 =>
    unfold Analyze.local_enter_var at heq
    rw [ok_bind] at heq
    cases hh : n.body.head? with
    | none => rw [hh] at heq; cases heq
    | some nd =>
      rw [hh] at heq
      cases nd with | mk t2 b2 =>
      cases t2 <;> simp only [] at heq <;> cases heq
      exact x_absent_put_var (hname _ _ hh) (hs fs0 rfl)

theorem local_enter_fun_absent {x : String} {n : Node} {s : AState}
    (hthis : x ≠ "this")
    (hargs : ∀ args, n.body.head? = some args →
      ∀ arg ∈ args.body, ∀ a, symName arg = some a → x ≠ a)
    (hs : okAbsent x s) :
    okAbsent x (Analyze.local_enter_fun n s) := by
  intro fs' heq
  cases s with
  | error e => cases heq
  | ok fs0 =>
    unfold Analyze.local_enter_fun at heq
    rw [ok_bind] at heq
    cases hh : n.body.head? with
    | none => simp only [hh] at heq; cases heq
    | some args =>
      simp only [hh] at heq
      injection heq with heq
      subst heq
      exact x_absent_foldl_formals args.body _ (hargs args hh)
        (x_absent_enter (x_absent_add_child hthis (hs fs0 rfl)))

theorem local_exit_fun_absent {x : String} {n : Node} {s : AState}
    (hs : okAbsent x s) :
    okAbsent x (Analyze.local_exit_fun n s) := by
  intro fs' heq
  cases s with
  | error e => cases heq
  | ok fs0 =>
    unfold Analyze.local_exit_fun at heq
    rw [ok_bind] at heq
    injection heq with heq
    subst heq
    exact x_absent_exit (hs fs0 rfl)

mutual

theorem local_absent (x : String) (hthis : x ≠ "this") (n : Node)
    (hv : x ∉ var_names n) (hf : x ∉ formal_names n) :
    ∀ s : AState, okAbsent x s →
      okAbsent x (Node.visit Analyze.localPass n s) := by
  cases n with | mk t b =>
  intro s hs
  have hv2 : x ∉ var_names_list b := fun hc =>
    hv (by rw [var_names_mk]; exact List.mem_append.mpr (Or.inr hc))
  have hf2 : x ∉ formal_names_list b := fun hc =>
    hf (by rw [formal_names_mk]; exact List.mem_append.mpr (Or.inr hc))
  rw [Node.visit]
  have hent : okAbsent x
      (Visitor.enterStep Analyze.localPass (Node.mk t b) s) := by
    cases t
    case StmtVar =>
      refine local_enter_var_absent ?_ hs
      intro name nb hh hxn
      subst hxn
      simp only [Node.body] at hh
      exact hv (by rw [var_names_mk, hh]; simp [symName, Node.type_])
    case Function =>
      refine local_enter_fun_absent hthis ?_ hs
      intro args hh arg hmem a hsym hxa
      subst hxa
      simp only [Node.body] at hh
      refine hf ?_
      rw [formal_names_mk, hh]
      exact List.mem_append.mpr
        (Or.inl (List.mem_filterMap.mpr ⟨arg, hmem, hsym⟩))
    all_goals exact hs
  have hrec := local_absent_list x hthis b hv2 hf2 _ hent
  cases t
  case Function => exact @local_exit_fun_absent x (Node.mk .Function b) _ hrec
  all_goals exact hrec

theorem local_absent_list (x : String) (hthis : x ≠ "this")
    (l : List Node)
    (hv : x ∉ var_names_list l) (hf : x ∉ formal_names_list l) :
    ∀ s : AState, okAbsent x s →
      okAbsent x (Node.visitList Analyze.localPass l s) := by
  cases l with
  | nil => intro s hs; exact hs
  | cons n r =>
    intro s hs
    have hv1 : x ∉ var_names n := fun hc =>
      hv (by rw [var_names_list]; exact List.mem_append.mpr (Or.inl hc))
    have hv2 : x ∉ var_names_list r := fun hc =>
      hv (by rw [var_names_list]; exact List.mem_append.mpr (Or.inr hc))
    have hf1 : x ∉ formal_names n := fun hc =>
      hf (by rw [formal_names_list]; exact List.mem_append.mpr (Or.inl hc))
    have hf2 : x ∉ formal_names_list r := fun hc =>
      hf (by rw [formal_names_list]; exact List.mem_append.mpr (Or.inr hc))
    rw [Node.visitList]
    exact local_absent_list x hthis r hv2 hf2 _
      (local_absent x hthis n hv1 hf1 s hs)

end

/-! frame counts are preserved -/

theorem length_put_var (fs : FrameStackTree) (y : String) :
    (fs.put_var y).frames.length = fs.frames.length := by
  rw [put_var_eq]
  split
  · rfl
  · simp

theorem length_put_var_global (fs : FrameStackTree) (y : String) :
    (fs.put_var_global y).frames.length = fs.frames.length := by
  rw [put_var_global_eq]
  split
  · rfl
  · simp

theorem length_insert_formal (fs : FrameStackTree) (arg : Node) :
    (Analyze.insert_formal fs arg).frames.length = fs.frames.length := by
  unfold Analyze.insert_formal
  cases arg.type_ <;> simp

theorem length_foldl_formals :
    ∀ (args : List Node) (fs : FrameStackTree),
      (args.foldl Analyze.insert_formal fs).frames.length =
        fs.frames.length := by
  intro args
  induction args with
  | nil => intro fs; rfl
  | cons arg rest ih =>
    intro fs
    rw [List.foldl_cons, ih, length_insert_formal]

/-! root-frame membership survives the global-pass operations -/

theorem root_linked_put_var_global {x y : String} {fs : FrameStackTree}
    (h : root_linked x fs) : root_linked x (fs.put_var_global y) := by
  rw [put_var_global_eq]
  split
  · exact h
  · intro j hmem
    rw [frameD_set] at hmem
    rw [frameD_set]
    by_cases h0 : 0 < fs.frames.length
    · rw [if_pos ⟨rfl, h0⟩]
      split at hmem
      · exact hmem
      · exact List.mem_append.mpr (Or.inl (h j hmem))
    · rw [if_neg (fun hc => h0 hc.2)]
      split at hmem
      · rename_i hj
        exact absurd hj.2 h0
      · exact h j hmem

theorem mem_put_var_global {x y : String} {fs : FrameStackTree}
    (h : x ∈ (fs.frameD 0).var_offsets) :
    x ∈ ((fs.put_var_global y).frameD 0).var_offsets := by
  rw [put_var_global_eq]
  split
  · exact h
  · rw [frameD_set]
    by_cases h0 : 0 < fs.frames.length
    · rw [if_pos ⟨rfl, h0⟩]
      exact List.mem_append.mpr (Or.inl h)
    · rw [if_neg (fun hc => h0 hc.2)]
      exact h

theorem mem_put_var_global_self {x : String} {fs : FrameStackTree}
    (hlen : 0 < fs.frames.length) :
    x ∈ ((fs.put_var_global x).frameD 0).var_offsets := by
  rw [put_var_global_eq]
  split
  · rename_i hc
    simpa using hc
  · rw [frameD_set]
    rw [if_pos ⟨rfl, hlen⟩]
    simp

/-! soundness of find_var -/

theorem mem_of_findIdx {x : String} :
    ∀ (l : List String) (s i : Nat),
      List.findIdx? (fun y => decide (y = x)) l s = some i → x ∈ l := by
  intro l
  induction l with
  | nil => intro s i h; simp [List.findIdx?] at h
  | cons a r ih =>
    intro s i h
    by_cases hax : a = x
    · subst hax
      exact List.mem_cons_self _ _
    · rw [List.findIdx?_cons] at h
      rw [if_neg (by simpa using hax)] at h
      exact List.mem_cons_of_mem _ (ih _ _ h)

theorem find_var_from_sound {x : String} {fs : FrameStackTree} :
    ∀ (fuel frame off : Nat) (d : VarDescr),
      FrameStackTree.find_var_from fs x fuel frame off = some d →
      ∃ j, x ∈ (fs.frameD j).var_offsets := by
  intro fuel
  induction fuel with
  | zero =>
    intro frame off d h
    unfold FrameStackTree.find_var_from at h
    cases hf : ((fs.frameD frame).var_offsets).findIdx? (· = x) with
    | some i =>
      exact ⟨frame, mem_of_findIdx _ _ _ hf⟩
    | none =>
      simp only [hf] at h
      by_cases hp : (fs.linkD frame).parent < frame
      · rw [if_pos hp] at h
        exact Option.noConfusion h
      · rw [if_neg hp] at h
        exact Option.noConfusion h
  | succ f ih =>
    intro frame off d h
    unfold FrameStackTree.find_var_from at h
    cases hf : ((fs.frameD frame).var_offsets).findIdx? (· = x) with
    | some i =>
      exact ⟨frame, mem_of_findIdx _ _ _ hf⟩
    | none =>
      simp only [hf] at h
      by_cases hp : (fs.linkD frame).parent < frame
      · rw [if_pos hp] at h
        exact ih _ _ _ h
      · rw [if_neg hp] at h
        exact Option.noConfusion h

theorem find_var_sound {x : String} {fs : FrameStackTree} {d : VarDescr}
    (h : fs.find_var x = some d) :
    ∃ j, x ∈ (fs.frameD j).var_offsets :=
  find_var_from_sound _ _ _ _ h

/-! frame count through the local pass -/

theorem length_add_child (fs : FrameStackTree) :
    fs.add_child.frames.length = fs.frames.length + 1 := by
  unfold FrameStackTree.add_child
  simp

theorem local_enter_var_len {n : Node} {s : AState}
    (hs : okLen s) : okLen (Analyze.local_enter_var n s) := by
  intro fs' heq
  cases s with
  | error e => cases heq
  | ok fs0 =>
    unfold Analyze.local_enter_var at heq
    rw [ok_bind] at heq
    cases hh : n.body.head? with
    | none => rw [hh] at heq; cases heq
    | some nd =>
      cases nd with | mk t2 b2 =>
      cases t2 <;> simp only [hh] at heq <;> cases heq
      rw [length_put_var]
      exact hs fs0 rfl

theorem local_enter_fun_len {n : Node} {s : AState}
    (hs : okLen s) : okLen (Analyze.local_enter_fun n s) := by
  intro fs' heq
  cases s with
  | error e => cases heq
  | ok fs0 =>
    unfold Analyze.local_enter_fun at heq
    rw [ok_bind] at heq
    cases hh : n.body.head? with
    | none => simp only [hh] at heq; cases heq
    | some args =>
      simp only [hh] at heq
      cases heq
      rw [length_foldl_formals]
      show 0 < fs0.add_child.frames.length
      rw [length_add_child]
      exact Nat.succ_pos _

theorem local_exit_fun_len {n : Node} {s : AState}
    (hs : okLen s) : okLen (Analyze.local_exit_fun n s) := by
  intro fs' heq
  cases s with
  | error e => cases heq
  | ok fs0 =>
    unfold Analyze.local_exit_fun at heq
    rw [ok_bind] at heq
    cases heq
    exact hs fs0 rfl

mutual

theorem local_len (n : Node) :
    ∀ s : AState, okLen s → okLen (Node.visit Analyze.localPass n s) := by
  cases n with | mk t b =>
  intro s hs
  rw [Node.visit]
  have hent : okLen (Visitor.enterStep Analyze.localPass (Node.mk t b) s) := by
    cases t
    case StmtVar => exact local_enter_var_len hs
    case Function => exact local_enter_fun_len hs
    all_goals exact hs
  have hrec := local_len_list b _ hent
  cases t
  case Function => exact @local_exit_fun_len (Node.mk .Function b) _ hrec
  all_goals exact hrec

theorem local_len_list (l : List Node) :
    ∀ s : AState, okLen s → okLen (Node.visitList Analyze.localPass l s) := by
  cases l with
  | nil => intro s hs; exact hs
  | cons n r =>
    intro s hs
    rw [Node.visitList]
    exact local_len_list r _ (local_len n s hs)

end

/-! the global pass: root_linked (with frame count) is an invariant -/

theorem root_linked_frames {x : String} {fs fs' : FrameStackTree}
    (h : fs'.frames = fs.frames) (hk : root_linked x fs) :
    root_linked x fs' := by
  intro j hm
  rw [frameD_frames h] at hm
  rw [frameD_frames h]
  exact hk j hm

theorem global_enter_assign_rootOk {x : String} {n : Node} {s : AState}
    (hs : okRootOk x s) : okRootOk x (Analyze.global_enter_assign n s) := by
  intro fs' heq
  cases s with
  | error e => cases heq
  | ok fs0 =>
    obtain ⟨hlen, hlk⟩ := hs fs0 rfl
    unfold Analyze.global_enter_assign at heq
    rw [ok_bind] at heq
    cases hh : n.body.head? with
    | none => rw [hh] at heq; cases heq
    | some nd =>
      cases nd with | mk t2 b2 =>
      cases t2 <;> simp only [hh] at heq
      case Symbol name =>
        split at heq
        · cases heq
          refine ⟨?_, root_linked_put_var_global hlk⟩
          rw [length_put_var_global]
          exact hlen
        · cases heq
          exact ⟨hlen, hlk⟩
      all_goals cases heq
      all_goals exact ⟨hlen, hlk⟩

theorem global_enter_fun_rootOk {x : String} {n : Node} {s : AState}
    (hs : okRootOk x s) : okRootOk x (Analyze.global_enter_fun n s) := by
  intro fs' heq
  cases s with
  | error e => cases heq
  | ok fs0 =>
    unfold Analyze.global_enter_fun at heq
    rw [ok_bind] at heq
    cases heq
    obtain ⟨hlen, hlk⟩ := hs fs0 rfl
    exact ⟨hlen, root_linked_frames rfl hlk⟩

theorem global_exit_fun_rootOk {x : String} {n : Node} {s : AState}
    (hs : okRootOk x s) : okRootOk x (Analyze.global_exit_fun n s) := by
  intro fs' heq
  cases s with
  | error e => cases heq
  | ok fs0 =>
    unfold Analyze.global_exit_fun at heq
    rw [ok_bind] at heq
    cases heq
    obtain ⟨hlen, hlk⟩ := hs fs0 rfl
    exact ⟨hlen, root_linked_frames rfl hlk⟩

theorem enterStep_global_rootOk {x : String} (t : NodeType) (b : List Node)
    {s : AState} (hs : okRootOk x s) :
    okRootOk x (Visitor.enterStep Analyze.globalPass (Node.mk t b) s) := by
  cases t
  case Assign => exact global_enter_assign_rootOk hs
  case Function => exact @global_enter_fun_rootOk x (Node.mk .Function b) s hs
  all_goals exact hs

theorem exitStep_global_rootOk {x : String} (t : NodeType) (b : List Node)
    {s : AState} (hs : okRootOk x s) :
    okRootOk x (Visitor.exitStep Analyze.globalPass (Node.mk t b) s) := by
  cases t
  case Function => exact @global_exit_fun_rootOk x (Node.mk .Function b) s hs
  all_goals exact hs

mutual

theorem global_rootOk (x : String) (n : Node) :
    ∀ s : AState, okRootOk x s →
      okRootOk x (Node.visit Analyze.globalPass n s) := by
  cases n with | mk t b =>
  intro s hs
  rw [Node.visit]
  exact exitStep_global_rootOk t b
    (global_rootOk_list x b _ (enterStep_global_rootOk t b hs))

theorem global_rootOk_list (x : String) (l : List Node) :
    ∀ s : AState, okRootOk x s →
      okRootOk x (Node.visitList Analyze.globalPass l s) := by
  cases l with
  | nil => intro s hs; exact hs
  | cons n r =>
    intro s hs
    rw [Node.visitList]
    exact global_rootOk_list x r _ (global_rootOk x n s hs)

end

/-! the global pass: root-frame membership is monotone -/

theorem global_enter_assign_mem {x : String} {n : Node} {s : AState}
    (hs : okRootMem x s) : okRootMem x (Analyze.global_enter_assign n s) := by
  intro fs' heq
  cases s with
  | error e => cases heq
  | ok fs0 =>
    have hm := hs fs0 rfl
    unfold Analyze.global_enter_assign at heq
    rw [ok_bind] at heq
    cases hh : n.body.head? with
    | none => rw [hh] at heq; cases heq
    | some nd =>
      cases nd with | mk t2 b2 =>
      cases t2 <;> simp only [hh] at heq
      case Symbol name =>
        split at heq
        · cases heq
          exact mem_put_var_global hm
        · cases heq
          exact hm
      all_goals cases heq
      all_goals exact hm

theorem global_enter_fun_mem {x : String} {n : Node} {s : AState}
    (hs : okRootMem x s) : okRootMem x (Analyze.global_enter_fun n s) := by
  intro fs' heq
  cases s with
  | error e => cases heq
  | ok fs0 =>
    unfold Analyze.global_enter_fun at heq
    rw [ok_bind] at heq
    cases heq
    have hm := hs fs0 rfl
    rw [frameD_frames rfl]
    exact hm

theorem global_exit_fun_mem {x : String} {n : Node} {s : AState}
    (hs : okRootMem x s) : okRootMem x (Analyze.global_exit_fun n s) := by
  intro fs' heq
  cases s with
  | error e => cases heq
  | ok fs0 =>
    unfold Analyze.global_exit_fun at heq
    rw [ok_bind] at heq
    cases heq
    have hm := hs fs0 rfl
    rw [frameD_frames rfl]
    exact hm

theorem enterStep_global_mem {x : String} (t : NodeType) (b : List Node)
    {s : AState} (hs : okRootMem x s) :
    okRootMem x (Visitor.enterStep Analyze.globalPass (Node.mk t b) s) := by
  cases t
  case Assign => exact global_enter_assign_mem hs
  case Function => exact @global_enter_fun_mem x (Node.mk .Function b) s hs
  all_goals exact hs

theorem exitStep_global_mem {x : String} (t : NodeType) (b : List Node)
    {s : AState} (hs : okRootMem x s) :
    okRootMem x (Visitor.exitStep Analyze.globalPass (Node.mk t b) s) := by
  cases t
  case Function => exact @global_exit_fun_mem x (Node.mk .Function b) s hs
  all_goals exact hs

mutual

theorem global_mem (x : String) (n : Node) :
    ∀ s : AState, okRootMem x s →
      okRootMem x (Node.visit Analyze.globalPass n s) := by
  cases n with | mk t b =>
  intro s hs
  rw [Node.visit]
  exact exitStep_global_mem t b
    (global_mem_list x b _ (enterStep_global_mem t b hs))

theorem global_mem_list (x : String) (l : List Node) :
    ∀ s : AState, okRootMem x s →
      okRootMem x (Node.visitList Analyze.globalPass l s) := by
  cases l with
  | nil => intro s hs; exact hs
  | cons n r =>
    intro s hs
    rw [Node.visitList]
    exact global_mem_list x r _ (global_mem x n s hs)

end

/-! the assignment hit deposits `x` in the root frame -/

theorem global_enter_assign_hit {x : String} {n : Node} {b2 : List Node}
    {s : AState}
    (hh : n.body.head? = some (Node.mk (.Symbol x) b2))
    (hs : okRootOk x s) :
    okRootMem x (Analyze.global_enter_assign n s) := by
  intro fs' heq
  cases s with
  | error e => cases heq
  | ok fs0 =>
    obtain ⟨hlen, hlk⟩ := hs fs0 rfl
    unfold Analyze.global_enter_assign at heq
    rw [ok_bind] at heq
    simp only [hh] at heq
    split at heq
    · cases heq
      exact mem_put_var_global_self hlen
    · injection heq with heq
      subst heq
      rename_i hcond
      cases hfv : fs0.find_var x with
      | none => rw [hfv] at hcond; simp [Option.isNone] at hcond
      | some d =>
        obtain ⟨j, hj⟩ := find_var_sound hfv
        exact hlk j hj

mutual

theorem global_hits (x : String) (n : Node)
    (ha : assigns_to x n = true) :
    ∀ s : AState, okRootOk x s →
      okRootMem x (Node.visit Analyze.globalPass n s) := by
  cases n with | mk t b =>
  intro s hs
  rw [Node.visit]
  rw [assigns_to] at ha
  simp only [Bool.or_eq_true, Bool.and_eq_true, decide_eq_true_eq] at ha
  rcases ha with ⟨hty, hsym⟩ | hl
  · subst hty
    obtain ⟨nd, hnd, hsy⟩ := Option.bind_eq_some.mp hsym
    cases nd with | mk t2 nb =>
    have ht2 : t2 = .Symbol x := by
      unfold symName at hsy
      cases t2 <;> simp only [Node.type_] at hsy <;> try cases hsy
      rfl
    subst ht2
    have hent : okRootMem x
        (Visitor.enterStep Analyze.globalPass (Node.mk .Assign b) s) :=
      global_enter_assign_hit
        (show (Node.mk .Assign b).body.head?
            = some (Node.mk (.Symbol x) nb) by
          simpa [Node.body] using hnd) hs
    exact exitStep_global_mem .Assign b (global_mem_list x b _ hent)
  · exact exitStep_global_mem t b
      (global_hits_list x b hl _ (enterStep_global_rootOk t b hs))

theorem global_hits_list (x : String) (l : List Node)
    (ha : assigns_to_list x l = true) :
    ∀ s : AState, okRootOk x s →
      okRootMem x (Node.visitList Analyze.globalPass l s) := by
  cases l with
  | nil => cases ha
  | cons n r =>
    intro s hs
    rw [assigns_to_list] at ha
    simp only [Bool.or_eq_true] at ha
    rw [Node.visitList]
    rcases ha with h1 | h2
    · exact global_mem_list x r _ (global_hits x n h1 s hs)
    · exact global_hits_list x r h2 _ (global_rootOk x n s hs)

end

theorem find_var_from_chain {x : String} {fs : FrameStackTree} :
    ∀ (fuel frame off : Nat) (d : VarDescr),
      FrameStackTree.find_var_from fs x fuel frame off = some d →
      x ∈ (fs.frameD d.frame_id).var_offsets ∧
        d.frame_id ∈ chainFrames fs fuel frame := by
  intro fuel
  induction fuel with
  | zero =>
    intro frame off d h
    unfold FrameStackTree.find_var_from at h
    cases hf : ((fs.frameD frame).var_offsets).findIdx? (· = x) with
    | some i =>
      rw [hf] at h
      injection h with h
      subst h
      exact ⟨mem_of_findIdx _ _ _ hf, by rw [chainFrames]; exact List.mem_cons_self _ _⟩
    | none =>
      simp only [hf] at h
      by_cases hp : (fs.linkD frame).parent < frame
      · rw [if_pos hp] at h
        exact Option.noConfusion h
      · rw [if_neg hp] at h
        exact Option.noConfusion h
  | succ f ih =>
    intro frame off d h
    unfold FrameStackTree.find_var_from at h
    cases hf : ((fs.frameD frame).var_offsets).findIdx? (· = x) with
    | some i =>
      rw [hf] at h
      injection h with h
      subst h
      exact ⟨mem_of_findIdx _ _ _ hf, by rw [chainFrames]; exact List.mem_cons_self _ _⟩
    | none =>
      simp only [hf] at h
      by_cases hp : (fs.linkD frame).parent < frame
      · rw [if_pos hp] at h
        obtain ⟨hm, hc⟩ := ih _ _ _ h
        refine ⟨hm, ?_⟩
        rw [chainFrames]
        simp only [if_pos hp]
        exact List.mem_cons_of_mem _ hc
      · rw [if_neg hp] at h
        exact Option.noConfusion h

theorem find_var_chain {x : String} {fs : FrameStackTree} {d : VarDescr}
    (h : fs.find_var x = some d) :
    x ∈ (fs.frameD d.frame_id).var_offsets ∧
      d.frame_id ∈ chainFrames fs fs.cur_frame fs.cur_frame :=
  find_var_from_chain _ _ _ _ h

/-- Claim C5 (amended): when the analyzer's global pass processes an
assignment whose left-hand side is a plain symbol `x`, and `x` is not
already a slot of the current frame or of any enclosing frame other
than the root frame (a frame's slots comprise the reserved `this`, the
function's formal arguments and its `var`-declared names — the
counterexample shows a formal blocks the global creation exactly like
a `var` would), then immediately afterwards `x` is a slot of frame 0;
the membership persists through every further step of the global pass
and through the final cursor reset, so after both passes `x` is a slot
of frame 0.  A name declared with `var` is added only to the frame of
the function being analyzed: `LocalPass::enter_var` changes no frame
other than the current one, leaves the links and the cursor unchanged,
and puts the declared name into the current frame.  In particular, at
the program level: if a program contains an assignment to `x` and `x`
is nowhere `var`-declared, nowhere a formal argument, and is not
`this`, then after both passes `x` is a slot of frame 0. -/
theorem c5_global_creation :
    (∀ (n : Node) (x : String) (nb : List Node) (fs fs' : FrameStackTree),
      n.body.head? = some (Node.mk (.Symbol x) nb) →
      0 < fs.frames.length →
      (∀ j ∈ chainFrames fs fs.cur_frame fs.cur_frame, j ≠ 0 →
        x ∉ (fs.frameD j).var_offsets) →
      Analyze.global_enter_assign n (.ok fs) = .ok fs' →
      x ∈ (fs'.frameD 0).var_offsets) ∧
    (∀ (x : String) (m : Node) (s : AState),
      okRootMem x s → okRootMem x (Node.visit Analyze.globalPass m s)) ∧
    (∀ (x : String) (fs2 : FrameStackTree),
      x ∈ (fs2.frameD 0).var_offsets →
      x ∈ (fs2.reset.frameD 0).var_offsets) ∧
    (∀ (n : Node) (name : String) (nb : List Node)
        (fs fs' : FrameStackTree),
      n.body.head? = some (Node.mk (.Symbol name) nb) →
      Analyze.local_enter_var n (.ok fs) = .ok fs' →
      (∀ j, j ≠ fs.cur_frame → fs'.frameD j = fs.frameD j) ∧
      fs'.cur_frame = fs.cur_frame ∧
      fs'.links = fs.links ∧
      (fs.cur_frame < fs.frames.length →
        name ∈ (fs'.frameD fs.cur_frame).var_offsets)) ∧
    (∀ (ast : Node) (x : String) (fs : FrameStackTree),
      assigns_to x ast = true →
      x ∉ var_names ast →
      x ∉ formal_names ast →
      x ≠ "this" →
      Analyze.build_frame_stack ast = .ok fs →
      x ∈ (fs.frameD 0).var_offsets) := by
  refine ⟨?_, ?_, ?_, ?_, ?_⟩
  · -- part 1: the global pass's assignment step
    intro n x nb fs fs' hh hlen hchain heq
    unfold Analyze.global_enter_assign at heq
    rw [ok_bind] at heq
    simp only [hh] at heq
    split at heq
    · cases heq
      exact mem_put_var_global_self hlen
    · injection heq with heq
      subst heq
      rename_i hcond
      cases hfv : fs.find_var x with
      | none => rw [hfv] at hcond; simp [Option.isNone] at hcond
      | some d =>
        obtain ⟨hxm, hjc⟩ := find_var_chain hfv
        by_cases h0 : d.frame_id = 0
        · rw [h0] at hxm
          exact hxm
        · exact absurd hxm (hchain d.frame_id hjc h0)
  · -- part 2: the membership persists through any further visiting
    intro x m s hs
    exact global_mem x m s hs
  · -- part 3: and through the final cursor reset
    intro x fs2 h
    rw [show fs2.reset.frameD 0 = fs2.frameD 0 from frameD_frames rfl 0]
    exact h
  · -- part 4: a var declaration touches only the current frame
    intro n name nb fs fs' hh heq
    unfold Analyze.local_enter_var at heq
    rw [ok_bind] at heq
    simp only [hh] at heq
    injection heq with heq
    subst heq
    refine ⟨?_, ?_, ?_, ?_⟩
    · intro j hj
      rw [put_var_eq]
      split
      · rfl
      · rw [frameD_set]
        rw [if_neg (fun hc => hj hc.1)]
    · rw [put_var_eq]
      split <;> rfl
    · rw [put_var_eq]
      split <;> rfl
    · intro hcur
      rw [put_var_eq]
      split
      · rename_i hc
        simpa using hc
      · rw [frameD_set, if_pos ⟨rfl, hcur⟩]
        simp
  · -- part 5: the coarse program-level sufficient condition
    intro ast x fs hassign hvar hformal hthis h
    unfold Analyze.build_frame_stack at h
    rw [bind_ok] at h
    obtain ⟨fs1, h1, h⟩ := h
    rw [bind_ok] at h
    obtain ⟨fs2, h2, h⟩ := h
    injection h with h
    subst h
    have habs0 : okAbsent x (.ok FrameStackTree.new) := by
      intro fs0 heq
      injection heq with heq
      subst heq
      intro j hm
      unfold FrameStackTree.new FrameStackTree.frameD at hm
      cases j with
      | zero =>
        simp [List.getD, Frame.new] at hm
        exact hthis hm
      | succ jj => simp [List.getD] at hm
    have hlen0 : okLen (.ok FrameStackTree.new) := by
      intro fs0 heq
      injection heq with heq
      subst heq
      simp [FrameStackTree.new]
    have habs1 : x_absent x fs1 :=
      local_absent x hthis ast hvar hformal _ habs0 fs1 h1
    have hlen1 : 0 < fs1.frames.length := local_len ast _ hlen0 fs1 h1
    have hstart : okRootOk x (.ok fs1.reset) := by
      intro fs0 heq
      injection heq with heq
      subst heq
      refine ⟨hlen1, ?_⟩
      intro j hm
      exact absurd hm (x_absent_reset habs1 j)
    have hfin := global_hits x ast hassign _ hstart fs2 h2
    rw [show fs2.reset.frameD 0 = fs2.frameD 0 from frameD_frames rfl 0]
    exact hfin

/-- Claim C5 witness: on a two-frame tree with the cursor in frame 1,
processing `x = 'a';` deposits `x` in frame 0; the membership survives
a later global-pass visit of `w = 'b';` and the final cursor reset; a
`var z;` declaration changes frame 1 only (frame 0 is untouched and
`z` lands in frame 1); and the one-statement program `x = 'a';` ends
its full analysis with `x` a slot of frame 0. -/
theorem c5_witness :
    "x" ∈ ((FrameStackTree.mk
        [Frame.mk ["this", "x"], Frame.mk ["this", "y"]]
        [Link.mk [1] 0, Link.mk [] 0] 1 0).frameD 0).var_offsets ∧
    "x" ∈ ((FrameStackTree.mk
        [Frame.mk ["this", "x", "w"], Frame.mk ["this", "y"]]
        [Link.mk [1] 0, Link.mk [] 0] 1 0).frameD 0).var_offsets ∧
    "x" ∈ ((FrameStackTree.mk
        [Frame.mk ["this", "x", "w"], Frame.mk ["this", "y"]]
        [Link.mk [1] 0, Link.mk [] 0] 1 0).reset.frameD 0).var_offsets ∧
    ((FrameStackTree.mk
        [Frame.mk ["this"], Frame.mk ["this", "y", "z"]]
        [Link.mk [1] 0, Link.mk [] 0] 1 0).frameD 0 =
      (FrameStackTree.mk
        [Frame.mk ["this"], Frame.mk ["this", "y"]]
        [Link.mk [1] 0, Link.mk [] 0] 1 0).frameD 0) ∧
    "z" ∈ ((FrameStackTree.mk
        [Frame.mk ["this"], Frame.mk ["this", "y", "z"]]
        [Link.mk [1] 0, Link.mk [] 0] 1 0).frameD 1).var_offsets ∧
    "x" ∈ ((FrameStackTree.mk [Frame.mk ["this", "x"]]
        [Link.mk [] 0] 0 1).frameD 0).var_offsets :=
  ⟨c5_global_creation.1
      (Node.mk .Assign [Node.mk (.Symbol "x") [], Node.mk (.String "a") []])
      "x" []
      (FrameStackTree.mk [Frame.mk ["this"], Frame.mk ["this", "y"]]
        [Link.mk [1] 0, Link.mk [] 0] 1 0)
      (FrameStackTree.mk [Frame.mk ["this", "x"], Frame.mk ["this", "y"]]
        [Link.mk [1] 0, Link.mk [] 0] 1 0)
      (by decide) (by decide) (by decide) (by decide),
   c5_global_creation.2.1 "x"
      (Node.mk .Assign [Node.mk (.Symbol "w") [], Node.mk (.String "b") []])
      (.ok (FrameStackTree.mk [Frame.mk ["this", "x"], Frame.mk ["this", "y"]]
        [Link.mk [1] 0, Link.mk [] 0] 1 0))
      (by intro fs h; cases h; decide)
      (FrameStackTree.mk [Frame.mk ["this", "x", "w"], Frame.mk ["this", "y"]]
        [Link.mk [1] 0, Link.mk [] 0] 1 0)
      (by decide),
   c5_global_creation.2.2.1 "x"
      (FrameStackTree.mk [Frame.mk ["this", "x", "w"], Frame.mk ["this", "y"]]
        [Link.mk [1] 0, Link.mk [] 0] 1 0)
      (by decide),
   (c5_global_creation.2.2.2.1 (Node.mk .StmtVar [Node.mk (.Symbol "z") []]) "z" []
      (FrameStackTree.mk [Frame.mk ["this"], Frame.mk ["this", "y"]]
        [Link.mk [1] 0, Link.mk [] 0] 1 0)
      (FrameStackTree.mk [Frame.mk ["this"], Frame.mk ["this", "y", "z"]]
        [Link.mk [1] 0, Link.mk [] 0] 1 0)
      (by decide) (by decide)).1 0 (by decide),
   (c5_global_creation.2.2.2.1 (Node.mk .StmtVar [Node.mk (.Symbol "z") []]) "z" []
      (FrameStackTree.mk [Frame.mk ["this"], Frame.mk ["this", "y"]]
        [Link.mk [1] 0, Link.mk [] 0] 1 0)
      (FrameStackTree.mk [Frame.mk ["this"], Frame.mk ["this", "y", "z"]]
        [Link.mk [1] 0, Link.mk [] 0] 1 0)
      (by decide) (by decide)).2.2.2 (by decide),
   c5_global_creation.2.2.2.2
      (Node.mk .Block
        [Node.mk .Assign [Node.mk (.Symbol "x") [], Node.mk (.String "a") []]])
      "x" (FrameStackTree.mk [Frame.mk ["this", "x"]] [Link.mk [] 0] 0 1)
      (by decide) (by decide) (by decide) (by decide) (by decide)⟩

/-! ## C5: the global-creation rule -/

/-- Claim C5 counterexample: in `var f = fn(x) { x = 'a'; };` the
name `x` is assigned to, is not declared with `var` anywhere, yet after
both passes it is a slot of the function's frame (frame 1, where it is
a formal argument), *not* of frame 0. -/
theorem c5_counterexample :
    ((Parse.parse_src "var f = fn(x) \x7b x = 'a'; \x7d;").map
        (assigns_to "x") = .ok true) ∧
    ((Parse.parse_src "var f = fn(x) \x7b x = 'a'; \x7d;").map
        (fun a => (var_names a).contains "x") = .ok false) ∧
    ((Parse.parse_src "var f = fn(x) \x7b x = 'a'; \x7d;" >>=
        Analyze.build_frame_stack).map
        (fun fs => ((fs.frameD 0).var_offsets.contains "x",
                    (fs.frameD 1).var_offsets.contains "x")) =
      .ok (false, true)) := by
  exact ⟨by decide, by decide, by decide⟩

/-! ## C7: label backpatching -/

theorem patch_site_mem_out (offset : Nat) (s : Store) (pos i : Nat)
    (hout : i < pos ∨ pos + 5 ≤ i) :
    (Asm.patch_site offset s pos).mem i = s.mem i := by
  unfold Asm.patch_site Store.writeBytes u32Bytes
  simp only [List.foldl_cons, List.foldl_nil, Store.writeByte]
  split_ifs <;> first | rfl | omega

theorem patch_site_mem_at (offset : Nat) (s : Store) (pos : Nat) :
    (Asm.patch_site offset s pos).mem pos = opPushInt ∧
    (Asm.patch_site offset s pos).mem (pos + 1) = offset % 256 ∧
    (Asm.patch_site offset s pos).mem (pos + 2) = offset / 256 % 256 ∧
    (Asm.patch_site offset s pos).mem (pos + 3) = offset / 65536 % 256 ∧
    (Asm.patch_site offset s pos).mem (pos + 4) =
      offset / 16777216 % 256 := by
  unfold Asm.patch_site Store.writeBytes u32Bytes
  simp only [List.foldl_cons, List.foldl_nil, Store.writeByte]
  refine ⟨?_, ?_, ?_, ?_, ?_⟩ <;> (split_ifs <;> first | rfl | omega)

theorem patch_site_len (offset : Nat) (s : Store) (pos : Nat)
    (hlen : pos + 5 ≤ s.len) :
    (Asm.patch_site offset s pos).len = s.len := by
  unfold Asm.patch_site Store.writeBytes u32Bytes
  simp only [List.foldl_cons, List.foldl_nil, Store.writeByte]
  omega

theorem patch_site_cursor (offset : Nat) (s : Store) (pos : Nat) :
    (Asm.patch_site offset s pos).cursor =
      (Asm.patch_site offset s pos).len := rfl

theorem fill_sites (offset : Nat) :
    ∀ (sites : List Nat) (s : Store),
      sites.Pairwise (fun p q => p + 5 ≤ q) →
      (∀ p ∈ sites, p + 5 ≤ s.len) →
      (∀ p ∈ sites,
        (sites.foldl (Asm.patch_site offset) s).mem p = opPushInt ∧
        (sites.foldl (Asm.patch_site offset) s).mem (p + 1) =
          offset % 256 ∧
        (sites.foldl (Asm.patch_site offset) s).mem (p + 2) =
          offset / 256 % 256 ∧
        (sites.foldl (Asm.patch_site offset) s).mem (p + 3) =
          offset / 65536 % 256 ∧
        (sites.foldl (Asm.patch_site offset) s).mem (p + 4) =
          offset / 16777216 % 256) ∧
      (∀ i, (∀ p ∈ sites, i < p ∨ p + 5 ≤ i) →
        (sites.foldl (Asm.patch_site offset) s).mem i = s.mem i) ∧
      (sites.foldl (Asm.patch_site offset) s).len = s.len ∧
      (sites ≠ [] →
        (sites.foldl (Asm.patch_site offset) s).cursor = s.len) := by
  intro sites
  induction sites with
  | nil =>
    intro s _ _
    refine ⟨?_, ?_, rfl, ?_⟩
    · intro p hp; cases hp
    · intro i _; rfl
    · intro hne; exact absurd rfl hne
  | cons p rest ih =>
    intro s hpw hin
    have hp5 : p + 5 ≤ s.len := hin p (List.mem_cons_self _ _)
    have hlen1 : (Asm.patch_site offset s p).len = s.len :=
      patch_site_len offset s p hp5
    have hpw2 := (List.pairwise_cons.mp hpw).2
    have hsep := (List.pairwise_cons.mp hpw).1
    have hin2 : ∀ q ∈ rest, q + 5 ≤ (Asm.patch_site offset s p).len := by
      intro q hq
      rw [hlen1]
      exact hin q (List.mem_cons_of_mem _ hq)
    obtain ⟨ihat, ihout, ihlen, ihcur⟩ :=
      ih (Asm.patch_site offset s p) hpw2 hin2
    rw [List.foldl_cons]
    refine ⟨?_, ?_, ?_, ?_⟩
    · intro q hq
      rcases List.mem_cons.mp hq with rfl | hq2
      · -- the head site: set by the first patch, protected afterwards
        obtain ⟨m0, m1, m2, m3, m4⟩ := patch_site_mem_at offset s q
        have hout : ∀ k, k ≤ 4 →
            ∀ p2 ∈ rest, q + k < p2 ∨ p2 + 5 ≤ q + k := by
          intro k hk p2 hp2
          have := hsep p2 hp2
          omega
        refine ⟨?_, ?_, ?_, ?_, ?_⟩
        · rw [ihout q (fun p2 hp2 => Or.inl (by
            have := hsep p2 hp2; omega))]
          exact m0
        · rw [ihout (q + 1) (hout 1 (by omega))]
          exact m1
        · rw [ihout (q + 2) (hout 2 (by omega))]
          exact m2
        · rw [ihout (q + 3) (hout 3 (by omega))]
          exact m3
        · rw [ihout (q + 4) (hout 4 (by omega))]
          exact m4
      · exact ihat q hq2
    · intro i hi
      rw [ihout i (fun p2 hp2 => hi p2 (List.mem_cons_of_mem _ hp2))]
      exact patch_site_mem_out offset s p i (hi p (List.mem_cons_self _ _))
    · rw [ihlen, hlen1]
    · intro _
      by_cases hre : rest = []
      · subst hre
        show (Asm.patch_site offset s p).cursor = s.len
        rw [patch_site_cursor, hlen1]
      · rw [ihcur hre, hlen1]

/-- Claim C7 (amended): when the sites recorded for a label are
mutually at least five bytes apart, lie wholly within the stream, and
the write cursor sits at end-of-stream, `fill_label` overwrites each
recorded site with the `PushInt` opcode followed by the captured
end-of-stream offset (mod 2^32, little-endian), leaves every byte
outside the five-byte patched regions unchanged, preserves the stream
length and leaves the write cursor at end-of-stream.  The payload is
the raw captured offset: nothing prevents it from being `0xDEAD`
itself, which is what refutes the claim's final clause. -/
theorem c7_fill_label (label : Nat) (a a' : Asm) (sites : List Nat)
    (hl : a.labels.get? label = some sites)
    (hsep : sites.Pairwise (fun p q => p + 5 ≤ q))
    (hend : ∀ p ∈ sites, p + 5 ≤ a.store.len)
    (hcur : a.store.cursor = a.store.len)
    (h : Asm.fill_label label a = .ok a') :
    (∀ p ∈ sites, a'.store.mem p = opPushInt ∧
      a'.store.readU32 (p + 1) = a.store.cursor % 4294967296) ∧
    (∀ i, (∀ p ∈ sites, i < p ∨ p + 5 ≤ i) →
      a'.store.mem i = a.store.mem i) ∧
    a'.store.len = a.store.len ∧
    a'.store.cursor = a.store.len := by
  unfold Asm.fill_label at h
  rw [hl] at h
  simp only [] at h
  injection h with h
  subst h
  obtain ⟨hat, hout, hlen, hcurs⟩ :=
    fill_sites a.get_ip sites a.store hsep hend
  refine ⟨?_, hout, hlen, ?_⟩
  · intro p hp
    obtain ⟨m0, m1, m2, m3, m4⟩ := hat p hp
    refine ⟨m0, ?_⟩
    unfold Store.readU32
    rw [show p + 1 + 1 = p + 2 from by omega,
      show p + 1 + 2 = p + 3 from by omega,
      show p + 1 + 3 = p + 4 from by omega,
      m1, m2, m3, m4]
    show Asm.get_ip a % 256 + 256 * (Asm.get_ip a / 256 % 256) +
        65536 * (Asm.get_ip a / 65536 % 256) +
        16777216 * (Asm.get_ip a / 16777216 % 256) =
      a.store.cursor % 4294967296
    unfold Asm.get_ip
    omega
  · by_cases hse : sites = []
    · subst hse
      exact hcur
    · exact hcurs hse

/-- Claim C7 counterexample: a `put_label` recording a site at byte
offset 57000 followed by `fill_label` of the same label backpatches
the site's payload with the captured end-of-stream offset
57005 = `0xDEAD` — after filling, the site still carries the
placeholder value. -/
theorem c7_counterexample :
    ((Asm.put_label 0 ⟨⟨fun _ => 0, 57000, 57000⟩, [0], [[]]⟩).bind
        (Asm.fill_label 0)).map
      (fun a => (a.store.mem 57000, a.store.readU32 57001,
                 a.store.cursor, a.store.len))
      = .ok (0x22, 0xDEAD, 57005, 57005) := by
  rfl

/-- Claim C7 witness: filling a label with one recorded site at
offset 2 of a ten-byte stream rewrites the opcode and payload there,
leaves byte 0 untouched and parks the cursor at end-of-stream. -/
theorem c7_witness :
    (match Asm.fill_label 0 (⟨⟨fun _ => 0, 10, 10⟩, [0], [[2]]⟩ : Asm) with
     | .ok a' =>
        a'.store.mem 2 = opPushInt ∧
        a'.store.readU32 (2 + 1) = 10 % 4294967296 ∧
        a'.store.mem 0 = 0 ∧
        a'.store.cursor = 10
     | .error _ => False) := by
  cases hrun :
      Asm.fill_label 0 (⟨⟨fun _ => 0, 10, 10⟩, [0], [[2]]⟩ : Asm) with
  | ok a' =>
    obtain ⟨hat, hout, hlen, hcur⟩ :=
      c7_fill_label 0 (⟨⟨fun _ => 0, 10, 10⟩, [0], [[2]]⟩ : Asm) a' [2]
        (by decide) (by decide) (by decide) rfl hrun
    refine ⟨(hat 2 (by decide)).1, (hat 2 (by decide)).2, ?_, hcur⟩
    rw [hout 0 (by decide)]
  | error e =>
    have hok : (Asm.fill_label 0
        (⟨⟨fun _ => 0, 10, 10⟩, [0], [[2]]⟩ : Asm)).isOk = true := by
      rfl
    rw [hrun] at hok
    exact Bool.noConfusion hok

/-! ## C8: the number-token lexeme -/

theorem takeWhile_all_append (p : Char → Bool) :
    ∀ (a b : List Char), a.all p = true →
      (a ++ b).takeWhile p = a ++ b.takeWhile p := by
  intro a
  induction a with
  | nil => simp
  | cons x xs ih =>
    intro b hall
    simp only [List.all_cons, Bool.and_eq_true] at hall
    simp [List.takeWhile_cons, hall.1, ih b hall.2]

theorem NumText_num_lexeme {l : List Char} (h : NumText l) :
    num_lexeme_actual l = true := by
  obtain ⟨a, b, rfl, hne, hall, hb⟩ := h
  have hdotd : Lex.isDigitCh '.' = false := by decide
  rcases hb with rfl | ⟨f, rfl, hf⟩
  · rw [List.append_nil]
    have htw : a.takeWhile Lex.isDigitCh = a := by
      have h0 := takeWhile_all_append Lex.isDigitCh a [] hall
      simpa using h0
    simp only [num_lexeme_actual]
    rw [htw, List.drop_length]
    simp [hne]
  · have htw : (a ++ '.' :: f).takeWhile Lex.isDigitCh = a := by
      rw [takeWhile_all_append _ a ('.' :: f) hall,
        List.takeWhile_cons, hdotd]
      simp
    simp only [num_lexeme_actual]
    rw [htw, List.drop_left]
    simp [hne, hf]

theorem NumText_digit {c : Char} (hc : Lex.isDigitCh c = true) :
    NumText [c] :=
  ⟨[c], [], rfl, by simp, by simp [hc], Or.inl rfl⟩

theorem NumText_append_digit {l : List Char} {c : Char}
    (h : NumText l) (hc : Lex.isDigitCh c = true) :
    NumText (l ++ [c]) := by
  obtain ⟨a, b, rfl, hne, hall, hb⟩ := h
  rcases hb with rfl | ⟨f, rfl, hf⟩
  · exact ⟨a ++ [c], [], by simp, by simp [hne],
      by simp [List.all_append, hall, hc], Or.inl rfl⟩
  · refine ⟨a, '.' :: (f ++ [c]), by simp, hne, hall,
      Or.inr ⟨f ++ [c], rfl, by simp [List.all_append, hf, hc]⟩⟩

theorem NumText_append_dot {l : List Char}
    (h : NumText l) (hnd : l.contains '.' = false) :
    NumText (l ++ ['.']) := by
  obtain ⟨a, b, rfl, hne, hall, hb⟩ := h
  rcases hb with rfl | ⟨f, rfl, hf⟩
  · exact ⟨a, ['.'], by simp, hne, hall, Or.inr ⟨[], rfl, rfl⟩⟩
  · exfalso
    have : (a ++ '.' :: f).contains '.' = true := by
      simp
    rw [this] at hnd
    cases hnd

/-! component lemmas about the tokenizer steps -/

theorem next_tokens (st : LexState) :
    (Lex.next st).tokens = st.tokens := by
  unfold Lex.next
  cases st.rest with
  | nil => rfl
  | cons c r => by_cases h : c = '\n' <;> simp [h]

theorem next_ttype (st : LexState) :
    (Lex.next st).ttype = st.ttype := by
  unfold Lex.next
  cases st.rest with
  | nil => rfl
  | cons c r => by_cases h : c = '\n' <;> simp [h]

theorem next_ttext {st : LexState} {c : Char} {r : List Char}
    (hr : st.rest = c :: r) :
    (Lex.next st).ttext = st.ttext ++ [c] := by
  unfold Lex.next
  rw [hr]
  by_cases h : c = '\n' <;> simp [h]

theorem new_token_tokens (t : TokenType) (st : LexState) :
    (Lex.new_token t st).tokens = st.tokens := rfl

theorem new_token_ttype (t : TokenType) (st : LexState) :
    (Lex.new_token t st).ttype = t := rfl

theorem new_token_ttext (t : TokenType) (st : LexState) :
    (Lex.new_token t st).ttext = st.ttext := rfl

/-- `commit` re-establishes the invariant provided the pending token,
if it is a number, has a good lexeme. -/
theorem inv_commit {st : LexState} (h1 : numTokensOk st.tokens)
    (hN : st.ttype = .Num → num_lexeme_actual st.ttext = true) :
    lexNumInv (Lex.commit st) := by
  refine ⟨?_, fun hcon => TokenType.noConfusion hcon, fun _ => rfl,
    Or.inl rfl⟩
  intro t ht hty
  rcases List.mem_append.mp ht with ha | hb
  · exact h1 t ha hty
  · have he : t = ⟨st.ttype, ⟨st.ttext⟩, st.tline, st.tcol⟩ := by
      simpa using hb
    subst he
    exact hN hty

/-- `commit` of a pending token that is certainly not a number. -/
theorem inv_commit_not_num {st : LexState} (h1 : numTokensOk st.tokens)
    (hN : st.ttype ≠ .Num) : lexNumInv (Lex.commit st) :=
  inv_commit h1 (fun h => absurd h hN)

theorem inv_reset {st : LexState} (h1 : numTokensOk st.tokens) :
    lexNumInv (Lex.reset st) :=
  ⟨h1, fun hcon => TokenType.noConfusion hcon, fun _ => rfl, Or.inl rfl⟩

theorem step_preserves {c : Char} {r : List Char} {st st' : LexState}
    (hinv : lexNumInv st) (hr : st.rest = c :: r)
    (h : Lex.step c st = .ok st') : lexNumInv st' := by
  obtain ⟨h1, h2, h3, h4⟩ := hinv
  unfold Lex.step at h
  rcases h4 with hty | hty | hty | hty | hty
  · -- Empty state: the default branch
    simp only [hty] at h
    have htx : st.ttext = [] := h3 hty
    unfold Lex.stepDefault at h
    by_cases k1 : (Lex.isUpper c || Lex.isLower c) = true
    · rw [if_pos k1] at h
      injection h with h
      subst h
      refine ⟨?_, ?_, ?_, ?_⟩
      · rw [next_tokens, new_token_tokens]; exact h1
      · rw [next_ttype, new_token_ttype]; intro hcon; cases hcon
      · rw [next_ttype, new_token_ttype]; intro hcon; cases hcon
      · rw [next_ttype, new_token_ttype]; exact Or.inr (Or.inl rfl)
    rw [if_neg k1] at h
    by_cases k2 : c = '/'
    · rw [if_pos k2] at h
      simp only [Lex.peek] at h
      split at h
      · -- line comment begins
        injection h with h
        subst h
        refine ⟨?_, ?_, ?_, ?_⟩
        · rw [new_token_tokens, next_tokens, next_tokens]; exact h1
        · rw [new_token_ttype]; intro hcon; cases hcon
        · rw [new_token_ttype]; intro hcon; cases hcon
        · rw [new_token_ttype]
          exact Or.inr (Or.inr (Or.inr (Or.inr rfl)))
      · injection h with h
        subst h
        refine inv_commit_not_num ?_ ?_
        · rw [new_token_tokens, next_tokens]; exact h1
        · rw [new_token_ttype]; intro hcon; cases hcon
    rw [if_neg k2] at h
    by_cases k3 : c = '+'
    · rw [if_pos k3] at h
      injection h with h
      subst h
      refine inv_commit_not_num ?_ ?_
      · rw [next_tokens, new_token_tokens]; exact h1
      · rw [next_ttype, new_token_ttype]; intro hcon; cases hcon
    rw [if_neg k3] at h
    by_cases k4 : c = '-'
    · rw [if_pos k4] at h
      injection h with h
      subst h
      refine inv_commit_not_num ?_ ?_
      · rw [next_tokens, new_token_tokens]; exact h1
      · rw [next_ttype, new_token_ttype]; intro hcon; cases hcon
    rw [if_neg k4] at h
    by_cases k5 : Lex.isDigitCh c = true
    · rw [if_pos k5] at h
      injection h with h
      subst h
      refine ⟨?_, ?_, ?_, ?_⟩
      · rw [next_tokens, new_token_tokens]; exact h1
      · intro _
        rw [@next_ttext (Lex.new_token .Num st) c r hr,
          new_token_ttext, htx]
        exact NumText_digit k5
      · rw [next_ttype, new_token_ttype]; intro hcon; cases hcon
      · rw [next_ttype, new_token_ttype]
        exact Or.inr (Or.inr (Or.inl rfl))
    rw [if_neg k5] at h
    by_cases k6 : c = '\''
    · rw [if_pos k6] at h
      injection h with h
      subst h
      refine ⟨?_, ?_, ?_, ?_⟩
      · rw [next_tokens, new_token_tokens]; exact h1
      · rw [next_ttype, new_token_ttype]; intro hcon; cases hcon
      · rw [next_ttype, new_token_ttype]; intro hcon; cases hcon
      · rw [next_ttype, new_token_ttype]
        exact Or.inr (Or.inr (Or.inr (Or.inl rfl)))
    rw [if_neg k6] at h
    by_cases k7 : c = '='
    · rw [if_pos k7] at h
      simp only [Lex.peek] at h
      split at h
      · injection h with h
        subst h
        refine inv_commit_not_num ?_ ?_
        · rw [new_token_tokens, next_tokens, next_tokens,
            new_token_tokens]
          exact h1
        · rw [new_token_ttype]; intro hcon; cases hcon
      · injection h with h
        subst h
        refine inv_commit_not_num ?_ ?_
        · rw [next_tokens, new_token_tokens]; exact h1
        · rw [next_ttype, new_token_ttype]; intro hcon; cases hcon
    rw [if_neg k7] at h
    by_cases k8 : c = '('
    · rw [if_pos k8] at h
      injection h with h
      subst h
      refine inv_commit_not_num ?_ ?_
      · rw [next_tokens, new_token_tokens]; exact h1
      · rw [next_ttype, new_token_ttype]; intro hcon; cases hcon
    rw [if_neg k8] at h
    by_cases k9 : c = ')'
    · rw [if_pos k9] at h
      injection h with h
      subst h
      refine inv_commit_not_num ?_ ?_
      · rw [next_tokens, new_token_tokens]; exact h1
      · rw [next_ttype, new_token_ttype]; intro hcon; cases hcon
    rw [if_neg k9] at h
    by_cases k10 : c = '['
    · rw [if_pos k10] at h
      injection h with h
      subst h
      refine inv_commit_not_num ?_ ?_
      · rw [next_tokens, new_token_tokens]; exact h1
      · rw [next_ttype, new_token_ttype]; intro hcon; cases hcon
    rw [if_neg k10] at h
    by_cases k11 : c = ']'
    · rw [if_pos k11] at h
      injection h with h
      subst h
      refine inv_commit_not_num ?_ ?_
      · rw [next_tokens, new_token_tokens]; exact h1
      · rw [next_ttype, new_token_ttype]; intro hcon; cases hcon
    rw [if_neg k11] at h
    by_cases k12 : c = '.'
    · rw [if_pos k12] at h
      injection h with h
      subst h
      refine inv_commit_not_num ?_ ?_
      · rw [next_tokens, new_token_tokens]; exact h1
      · rw [next_ttype, new_token_ttype]; intro hcon; cases hcon
    rw [if_neg k12] at h
    by_cases k13 : c = '\x7b'
    · rw [if_pos k13] at h
      injection h with h
      subst h
      refine inv_commit_not_num ?_ ?_
      · rw [next_tokens, new_token_tokens]; exact h1
      · rw [next_ttype, new_token_ttype]; intro hcon; cases hcon
    rw [if_neg k13] at h
    by_cases k14 : c = '\x7d'
    · rw [if_pos k14] at h
      injection h with h
      subst h
      refine inv_commit_not_num ?_ ?_
      · rw [next_tokens, new_token_tokens]; exact h1
      · rw [next_ttype, new_token_ttype]; intro hcon; cases hcon
    rw [if_neg k14] at h
    by_cases k15 : c = ';'
    · rw [if_pos k15] at h
      injection h with h
      subst h
      refine inv_commit_not_num ?_ ?_
      · rw [next_tokens, new_token_tokens]; exact h1
      · rw [next_ttype, new_token_ttype]; intro hcon; cases hcon
    rw [if_neg k15] at h
    by_cases k16 : c = ':'
    · rw [if_pos k16] at h
      injection h with h
      subst h
      refine inv_commit_not_num ?_ ?_
      · rw [next_tokens, new_token_tokens]; exact h1
      · rw [next_ttype, new_token_ttype]; intro hcon; cases hcon
    rw [if_neg k16] at h
    by_cases k17 : c = ','
    · rw [if_pos k17] at h
      injection h with h
      subst h
      refine inv_commit_not_num ?_ ?_
      · rw [next_tokens, new_token_tokens]; exact h1
      · rw [next_ttype, new_token_ttype]; intro hcon; cases hcon
    rw [if_neg k17] at h
    by_cases k18 : c = '*'
    · rw [if_pos k18] at h
      injection h with h
      subst h
      refine inv_commit_not_num ?_ ?_
      · rw [next_tokens, new_token_tokens]; exact h1
      · rw [next_ttype, new_token_ttype]; intro hcon; cases hcon
    rw [if_neg k18] at h
    by_cases k19 : c = '%'
    · rw [if_pos k19] at h
      injection h with h
      subst h
      refine inv_commit_not_num ?_ ?_
      · rw [next_tokens, new_token_tokens]; exact h1
      · rw [next_ttype, new_token_ttype]; intro hcon; cases hcon
    rw [if_neg k19] at h
    by_cases k20 : c = '!'
    · rw [if_pos k20] at h
      simp only [Lex.peek] at h
      split at h
      · injection h with h
        subst h
        refine inv_commit_not_num ?_ ?_
        · rw [new_token_tokens, next_tokens, next_tokens,
            new_token_tokens]
          exact h1
        · rw [new_token_ttype]; intro hcon; cases hcon
      · injection h with h
        subst h
        refine inv_commit_not_num ?_ ?_
        · rw [next_tokens, new_token_tokens]; exact h1
        · rw [next_ttype, new_token_ttype]; intro hcon; cases hcon
    rw [if_neg k20] at h
    by_cases k21 : c = '|'
    · rw [if_pos k21] at h
      simp only [Lex.peek] at h
      split at h
      · injection h with h
        subst h
        refine inv_commit_not_num ?_ ?_
        · rw [new_token_tokens, next_tokens, next_tokens]
          exact h1
        · rw [new_token_ttype]; intro hcon; cases hcon
      · cases h
    rw [if_neg k21] at h
    by_cases k22 : c = '&'
    · rw [if_pos k22] at h
      simp only [Lex.peek] at h
      split at h
      · injection h with h
        subst h
        refine inv_commit_not_num ?_ ?_
        · rw [new_token_tokens, next_tokens, next_tokens]
          exact h1
        · rw [new_token_ttype]; intro hcon; cases hcon
      · cases h
    rw [if_neg k22] at h
    by_cases k23 : c = '<'
    · rw [if_pos k23] at h
      simp only [Lex.peek] at h
      split at h
      · injection h with h
        subst h
        refine inv_commit_not_num ?_ ?_
        · rw [new_token_tokens, next_tokens, next_tokens,
            new_token_tokens]
          exact h1
        · rw [new_token_ttype]; intro hcon; cases hcon
      · injection h with h
        subst h
        refine inv_commit_not_num ?_ ?_
        · rw [next_tokens, new_token_tokens]; exact h1
        · rw [next_ttype, new_token_ttype]; intro hcon; cases hcon
    rw [if_neg k23] at h
    by_cases k24 : c = '>'
    · rw [if_pos k24] at h
      simp only [Lex.peek] at h
      split at h
      · injection h with h
        subst h
        refine inv_commit_not_num ?_ ?_
        · rw [new_token_tokens, next_tokens, next_tokens,
            new_token_tokens]
          exact h1
        · rw [new_token_ttype]; intro hcon; cases hcon
      · injection h with h
        subst h
        refine inv_commit_not_num ?_ ?_
        · rw [next_tokens, new_token_tokens]; exact h1
        · rw [next_ttype, new_token_ttype]; intro hcon; cases hcon
    rw [if_neg k24] at h
    by_cases k25 : (c = ' ' || c = '\t' || c = '\n') = true
    · rw [if_pos k25] at h
      injection h with h
      subst h
      exact inv_reset (by rw [next_tokens]; exact h1)
    rw [if_neg k25] at h
    cases h
  · -- Sym state
    simp only [hty] at h
    split at h
    · injection h with h
      subst h
      refine ⟨?_, ?_, ?_, ?_⟩
      · rw [next_tokens]; exact h1
      · rw [next_ttype, hty]; intro hcon; cases hcon
      · rw [next_ttype, hty]; intro hcon; cases hcon
      · rw [next_ttype, hty]; exact Or.inr (Or.inl rfl)
    · injection h with h
      subst h
      exact inv_commit_not_num h1 (by rw [hty]; intro hcon; cases hcon)
  · -- Num state
    simp only [hty] at h
    split at h
    · rename_i hguard
      injection h with h
      subst h
      have hnum : NumText st.ttext := h2 hty
      refine ⟨?_, ?_, ?_, ?_⟩
      · rw [next_tokens]; exact h1
      · intro _
        rw [next_ttext hr]
        simp only [Bool.or_eq_true, Bool.and_eq_true,
          decide_eq_true_eq, Bool.not_eq_true'] at hguard
        rcases hguard with hd | ⟨hc, hnc⟩
        · exact NumText_append_digit hnum hd
        · subst hc
          exact NumText_append_dot hnum hnc
      · rw [next_ttype, hty]; intro hcon; cases hcon
      · rw [next_ttype, hty]; exact Or.inr (Or.inr (Or.inl rfl))
    · injection h with h
      subst h
      exact inv_commit h1
        (fun _ => NumText_num_lexeme (h2 hty))
  · -- Str state
    simp only [hty] at h
    split at h
    · injection h with h
      subst h
      refine inv_commit_not_num ?_ ?_
      · rw [next_tokens]; exact h1
      · rw [next_ttype, hty]; intro hcon; cases hcon
    · injection h with h
      subst h
      refine ⟨?_, ?_, ?_, ?_⟩
      · rw [next_tokens]; exact h1
      · rw [next_ttype, hty]; intro hcon; cases hcon
      · rw [next_ttype, hty]; intro hcon; cases hcon
      · rw [next_ttype, hty]
        exact Or.inr (Or.inr (Or.inr (Or.inl rfl)))
  · -- Comment state
    simp only [hty] at h
    split at h
    · injection h with h
      subst h
      exact inv_reset (by rw [next_tokens]; exact h1)
    · injection h with h
      subst h
      refine ⟨?_, ?_, ?_, ?_⟩
      · rw [next_tokens]; exact h1
      · rw [next_ttype, hty]; intro hcon; cases hcon
      · rw [next_ttype, hty]; intro hcon; cases hcon
      · rw [next_ttype, hty]
        exact Or.inr (Or.inr (Or.inr (Or.inr rfl)))

theorem lexLoop_num (fuel : Nat) :
    ∀ (st : LexState) (ts : List Token), lexNumInv st →
      Lex.lexLoop fuel st = .ok ts →
      ∀ t ∈ ts, t.type_ = .Num → num_lexeme_actual t.text.data = true := by
  induction fuel with
  | zero => intro st ts _ h; cases h
  | succ fuel ih =>
    intro st ts hinv h
    rw [Lex.lexLoop] at h
    cases hr : st.rest with
    | nil =>
      rw [hr] at h
      injection h with h
      subst h
      intro t ht hty
      rcases List.mem_append.mp ht with ha | hb
      · exact hinv.1 t ha hty
      · have he : t = ⟨.Eof, "", st.line, st.col⟩ := by simpa using hb
        subst he
        cases hty
    | cons c r =>
      rw [hr] at h
      rw [bind_ok] at h
      obtain ⟨st1, hstep, h⟩ := h
      exact ih st1 ts (step_preserves hinv hr hstep) h

/-- Claim C8 (amended): every number token emitted by the lexer has a
lexeme matching `[0-9]+(\.[0-9]*)?` — one or more digits, optionally
followed by a decimal point and zero or more further digits.  (The
fractional part may be empty: a number token may end with the decimal
point, which is what refutes the spec's stricter pattern.) -/
theorem c8_num_lexeme (s : String) (ts : List Token)
    (h : Lex.tokenize s = .ok ts) :
    ∀ t ∈ ts, t.type_ = .Num → num_lexeme_actual t.text.data = true := by
  refine lexLoop_num _ _ _ ?_ h
  exact ⟨fun t ht => absurd ht (List.not_mem_nil t),
    fun hcon => TokenType.noConfusion hcon, fun _ => rfl, Or.inl rfl⟩

/-- Claim C8 witness: the number token of `1.5;` carries the lexeme
`1.5`, which matches the loose pattern. -/
theorem c8_witness :
    num_lexeme_actual (Token.mk .Num "1.5" 1 0).text.data = true :=
  c8_num_lexeme "1.5;"
    [⟨.Num, "1.5", 1, 0⟩, ⟨.End, ";", 1, 3⟩, ⟨.Eof, "", 1, 4⟩]
    (by decide) ⟨.Num, "1.5", 1, 0⟩ (by decide) (by decide)

/-- Claim C8 counterexample: on the input `1.x` the lexer emits a
number token with lexeme `1.`, which ends with a decimal point and so
does not match the claimed pattern `[0-9]+(\.[0-9]+)?`. -/
theorem c8_counterexample :
    ((Lex.tokenize "1.x").map
        (List.any · (fun t => t.type_ = .Num && t.text = "1."))
      = .ok true) ∧
    num_lexeme_spec ("1.".data) = false := by
  exact ⟨by decide, by decide⟩

/-! ## C10: end of input inside a token -/

/-- Claim C10: if the character stream is exhausted, the tokenize loop
returns `Ok` with the already committed tokens followed by a single
`Eof` token with empty text, regardless of any token still under
construction (which is dropped); in particular the input `x` yields
only an `Eof` token and no identifier token. -/
theorem c10_eof_discard :
    (Lex.tokenize "x" = .ok [⟨.Eof, "", 1, 1⟩]) ∧
    (∀ (fuel : Nat) (st : LexState), st.rest = [] →
      Lex.lexLoop (fuel + 1) st =
        .ok (st.tokens ++ [⟨.Eof, "", st.line, st.col⟩])) := by
  refine ⟨by decide, ?_⟩
  intro fuel st h
  rw [Lex.lexLoop, h]

/-- Claim C10 witness: the general discard property applied to a state
about to scan the tail of an identifier when the input runs out. -/
theorem c10_witness :
    Lex.lexLoop 3 ⟨[⟨.Num, "7", 2, 0⟩], [], 2, 4, .Sym, ['a', 'b'], 2, 2⟩ =
      .ok [⟨.Num, "7", 2, 0⟩, ⟨.Eof, "", 2, 4⟩] := by
  have h := c10_eof_discard.2 2
    ⟨[⟨.Num, "7", 2, 0⟩], [], 2, 4, .Sym, ['a', 'b'], 2, 2⟩ rfl
  simpa using h

/-! ## C6: simulated-sp neutrality of statements

Stack-pointer effect lemmas for each assembler operation, then a
mutual induction over the compile functions. -/

theorem asmM_ok {f : Asm → AM Asm} {st st' : CSt} :
    Compile.asmM f st = .ok st' ↔
      ∃ a, f st.assembler = .ok a ∧ st' = { st with assembler := a } := by
  unfold Compile.asmM
  rw [bind_ok]
  constructor
  · rintro ⟨a, h1, h2⟩
    injection h2 with h2
    exact ⟨a, h1, h2.symm⟩
  · rintro ⟨a, h1, h2⟩
    exact ⟨a, h1, by rw [h2]⟩

theorem emit_sp (bs : List Nat) (a : Asm) : (Asm.emit bs a).sp = a.sp := rfl

theorem mod_sp_ok {d : Int} {x a' : Asm} {s : List Int} (hx : x.sp = s)
    (h : Asm.mod_sp d x = .ok a') :
    ∃ t r, s = t :: r ∧ a'.sp = (t + d) :: r := by
  unfold Asm.mod_sp at h
  cases hsp : x.sp with
  | nil => rw [hsp] at h; cases h
  | cons t r =>
    rw [hsp] at h
    injection h with h
    exact ⟨t, r, by rw [← hx, hsp], by rw [← h]⟩

theorem push_int_sp {v : Nat} {a a' : Asm} (h : Asm.push_int v a = .ok a') :
    ∃ t r, a.sp = t :: r ∧ a'.sp = (t + 1) :: r := by
  unfold Asm.push_int at h
  exact mod_sp_ok (emit_sp _ _) h

theorem push_float_sp {v : Nat} {a a' : Asm}
    (h : Asm.push_float v a = .ok a') :
    ∃ t r, a.sp = t :: r ∧ a'.sp = (t + 1) :: r := by
  unfold Asm.push_float at h
  exact mod_sp_ok (emit_sp _ _) h

theorem push_str_sp {v : String} {a a' : Asm}
    (h : Asm.push_str v a = .ok a') :
    ∃ t r, a.sp = t :: r ∧ a'.sp = (t + 1) :: r := by
  unfold Asm.push_str at h
  exact mod_sp_ok (emit_sp _ _) h

theorem take_sp {v : Nat} {a a' : Asm} (h : Asm.take v a = .ok a') :
    ∃ t r, a.sp = t :: r ∧ a'.sp = (t + 1) :: r := by
  unfold Asm.take at h
  exact mod_sp_ok (emit_sp _ _) h

theorem push_dict_sp {v : Nat} {a a' : Asm}
    (h : Asm.push_dict v a = .ok a') :
    ∃ t r, a.sp = t :: r ∧ a'.sp = (t + (1 - 2 * (v : Int))) :: r := by
  unfold Asm.push_dict at h
  exact mod_sp_ok (emit_sp _ _) h

theorem push_array_sp {v : Nat} {a a' : Asm}
    (h : Asm.push_array v a = .ok a') :
    ∃ t r, a.sp = t :: r ∧ a'.sp = (t + (1 - (v : Int))) :: r := by
  unfold Asm.push_array at h
  exact mod_sp_ok (emit_sp _ _) h

theorem pop_op_sp {v : Nat} {a a' : Asm} (h : Asm.pop v a = .ok a') :
    ∃ t r, a.sp = t :: r ∧ a'.sp = (t + -(v : Int)) :: r := by
  unfold Asm.pop at h
  exact mod_sp_ok (emit_sp _ _) h

theorem store_op_sp {a a' : Asm} (h : Asm.store_op a = .ok a') :
    ∃ t r, a.sp = t :: r ∧ a'.sp = (t + -2) :: r := by
  unfold Asm.store_op at h
  exact mod_sp_ok (emit_sp _ _) h

theorem op_binary_sp {op : NodeType} {a a' : Asm}
    (h : Asm.op_binary op a = .ok a') :
    ∃ t r, a.sp = t :: r ∧ a'.sp = (t + -1) :: r := by
  unfold Asm.op_binary at h
  cases hop : from_op_node_type op with
  | none => rw [hop] at h; cases h
  | some opc =>
    rw [hop] at h
    exact mod_sp_ok (emit_sp _ _) h

theorem op_unary_sp {op : NodeType} {a a' : Asm}
    (h : Asm.op_unary op a = .ok a') : a'.sp = a.sp := by
  unfold Asm.op_unary at h
  split at h
  · injection h with h
    rw [← h]
  · injection h with h
    rw [← h]
    rfl
  · injection h with h
    rw [← h]
    rfl
  · cases h

theorem put_label_sp {l : Nat} {a a' : Asm} (h : Asm.put_label l a = .ok a') :
    ∃ t r, a.sp = t :: r ∧ a'.sp = (t + 1) :: r := by
  unfold Asm.put_label at h
  cases hl : a.labels.get? l with
  | none => rw [hl] at h; cases h
  | some sites =>
    simp only [hl] at h
    refine mod_sp_ok ?_ h
    rfl

theorem fill_label_sp {l : Nat} {a a' : Asm}
    (h : Asm.fill_label l a = .ok a') : a'.sp = a.sp := by
  unfold Asm.fill_label at h
  cases hl : a.labels.get? l with
  | none => rw [hl] at h; cases h
  | some sites =>
    simp only [hl] at h
    injection h with h
    rw [← h]

theorem jump_sp {a a' : Asm} (h : Asm.jump a = .ok a') :
    ∃ t r, a.sp = t :: r ∧ a'.sp = (t + -1) :: r := by
  unfold Asm.jump at h
  exact mod_sp_ok (emit_sp _ _) h

theorem jump_if_sp {a a' : Asm} (h : Asm.jump_if a = .ok a') :
    ∃ t r, a.sp = t :: r ∧ a'.sp = (t + -2) :: r := by
  unfold Asm.jump_if at h
  exact mod_sp_ok (emit_sp _ _) h

theorem call_sp {v : Nat} {a a' : Asm} (h : Asm.call v a = .ok a') :
    ∃ t r, a.sp = t :: r ∧ a'.sp = (t + -(1 + (v : Int) + 1)) :: r := by
  unfold Asm.call at h
  exact mod_sp_ok (emit_sp _ _) h

theorem get_op_sp {a a' : Asm} (h : Asm.get_op a = .ok a') :
    ∃ t r, a.sp = t :: r ∧ a'.sp = (t + -1) :: r := by
  unfold Asm.get_op at h
  exact mod_sp_ok (emit_sp _ _) h

theorem get_sp_ok {a : Asm} {v : Int} (h : a.get_sp = .ok v) :
    ∃ r, a.sp = v :: r := by
  unfold Asm.get_sp at h
  cases hsp : a.sp with
  | nil => rw [hsp] at h; cases h
  | cons t r =>
    rw [hsp] at h
    injection h with h
    exact ⟨r, by rw [h]⟩

theorem pop_sp_ok {a a' : Asm} (h : a.pop_sp = .ok a') :
    ∃ t r, a.sp = t :: r ∧ a'.sp = r := by
  unfold Asm.pop_sp at h
  cases hsp : a.sp with
  | nil => rw [hsp] at h; cases h
  | cons t r =>
    rw [hsp] at h
    injection h with h
    exact ⟨t, r, rfl, by rw [← h]⟩

theorem take_value_sp (n : Node) (st : CSt) :
    (Compile.take_value n st).assembler.sp = st.assembler.sp := by
  unfold Compile.take_value
  split <;> rfl

theorem compile_dict_key_sp {k : Node} {st st' : CSt}
    (h : Compile.compile_dict_key k st = .ok st') :
    ∃ t r, st.assembler.sp = t :: r ∧
      st'.assembler.sp = (t + 1) :: r := by
  unfold Compile.compile_dict_key at h
  split at h
  · obtain ⟨a, ha, hst⟩ := asmM_ok.mp h
    obtain ⟨t, r, e1, e2⟩ := push_str_sp ha
    exact ⟨t, r, e1, by rw [hst]; exact e2⟩
  · obtain ⟨a, ha, hst⟩ := asmM_ok.mp h
    obtain ⟨t, r, e1, e2⟩ := push_str_sp ha
    exact ⟨t, r, e1, by rw [hst]; exact e2⟩
  · obtain ⟨a, ha, hst⟩ := asmM_ok.mp h
    obtain ⟨t, r, e1, e2⟩ := push_float_sp ha
    exact ⟨t, r, e1, by rw [hst]; exact e2⟩
  · cases h

section

open Compile

theorem asmM_shift {d : Int} {f : Asm → AM Asm} {st st' : CSt}
    (hf : ∀ a a', f a = .ok a' → ∃ t r, a.sp = t :: r ∧ a'.sp = (t + d) :: r)
    (h : asmM f st = .ok st') :
    ∃ t r, st.assembler.sp = t :: r ∧
      st'.assembler.sp = (t + d) :: r := by
  obtain ⟨a, ha, hst⟩ := asmM_ok.mp h
  obtain ⟨t, r, e1, e2⟩ := hf _ _ ha
  exact ⟨t, r, e1, by rw [hst]; exact e2⟩

theorem sp_after {y x : List Int} {c d : Int} {r : List Int}
    (hstep : ∃ t' r', x = t' :: r' ∧ y = (t' + d) :: r')
    (hx : x = c :: r) : y = (c + d) :: r := by
  obtain ⟨t', r', e1, e2⟩ := hstep
  rw [hx] at e1
  injection e1 with a b
  rw [e2, ← a, ← b]

theorem asmM_keep {f : Asm → AM Asm} {st st' : CSt}
    (hf : ∀ a a', f a = .ok a' → a'.sp = a.sp)
    (h : asmM f st = .ok st') :
    st'.assembler.sp = st.assembler.sp := by
  obtain ⟨a, ha, hst⟩ := asmM_ok.mp h
  rw [hst]
  exact hf _ _ ha

set_option maxHeartbeats 1000000 in
theorem compile_sp (fuel : Nat) :
    (∀ (n : Node) (st st' : CSt), compile_block fuel n st = .ok st' →
      st'.assembler.sp = st.assembler.sp) ∧
    (∀ (l : List Node) (st st' : CSt), compile_stmts fuel l st = .ok st' →
      st'.assembler.sp = st.assembler.sp) ∧
    (∀ (n : Node) (st st' : CSt), compile_assign fuel n st = .ok st' →
      st'.assembler.sp = st.assembler.sp) ∧
    (∀ (n : Node) (st st' : CSt), compile_if fuel n st = .ok st' →
      st'.assembler.sp = st.assembler.sp) ∧
    (∀ (n : Node) (st st' : CSt), compile_while fuel n st = .ok st' →
      st'.assembler.sp = st.assembler.sp) ∧
    (∀ (n : Node) (st st' : CSt), compile_return fuel n st = .ok st' →
      st'.assembler.sp = st.assembler.sp) ∧
    (∀ (n : Node) (st st' : CSt), compile_expr fuel n st = .ok st' →
      ∃ t r, st.assembler.sp = t :: r ∧
        st'.assembler.sp = (t + 1) :: r) ∧
    (∀ (n : Node) (st st' : CSt), compile_call fuel n st = .ok st' →
      ∃ t r, st.assembler.sp = t :: r ∧
        st'.assembler.sp = (t + 1) :: r) ∧
    (∀ (n : Node) (st st' : CSt), compile_fn fuel n st = .ok st' →
      ∃ t r, st.assembler.sp = t :: r ∧
        st'.assembler.sp = (t + 1) :: r) ∧
    (∀ (l : List Node) (st st' : CSt), compile_pairs fuel l st = .ok st' →
      l.length % 2 = 0 ∧
        st'.assembler.sp = shiftTop l.length st.assembler.sp) ∧
    (∀ (l : List Node) (st st' : CSt), compile_elems fuel l st = .ok st' →
      st'.assembler.sp = shiftTop l.length st.assembler.sp) ∧
    (∀ (l : List Node) (st st' : CSt), compile_args fuel l st = .ok st' →
      st'.assembler.sp = shiftTop l.length st.assembler.sp) := by
  induction fuel with
  | zero =>
    refine ⟨?_, ?_, ?_, ?_, ?_, ?_, ?_, ?_, ?_, ?_, ?_, ?_⟩ <;>
      intro x st st' h <;> simp [compile_block, compile_stmts,
        compile_assign, compile_if, compile_while, compile_return,
        compile_expr, compile_call, compile_fn, compile_pairs,
        compile_elems, compile_args] at h
  | succ fuel ih =>
    obtain ⟨ihBlock, ihStmts, ihAssign, ihIf, ihWhile, ihReturn, ihExpr,
      ihCall, ihFn, ihPairs, ihElems, ihArgs⟩ := ih
    refine ⟨?_, ?_, ?_, ?_, ?_, ?_, ?_, ?_, ?_, ?_, ?_, ?_⟩
    -- compile_block
    · intro n st st' h
      cases n with | mk ty body =>
      cases ty <;>
        simp only [compile_block, Node.type_] at h
      case Block => exact ihStmts _ _ _ h
      case Assign => exact ihAssign _ _ _ h
      case StmtVar => exact ihAssign _ _ _ h
      case Call =>
        rw [bind_ok] at h
        obtain ⟨s1, h1, h2⟩ := h
        obtain ⟨t, r, e1, e2⟩ := ihCall _ _ _ h1
        obtain ⟨t2, r2, e3, e4⟩ := asmM_shift (fun _ _ hh => pop_op_sp hh) h2
        rw [e2] at e3
        injection e3 with e3a e3b
        rw [e4, ← e3a, ← e3b, e1]
        congr 1
        push_cast
        ring
      case StmtIf => exact ihIf _ _ _ h
      case StmtIfElse => exact ihIf _ _ _ h
      case StmtWhile => exact ihWhile _ _ _ h
      case StmtReturn => exact ihReturn _ _ _ h
      all_goals cases h
    -- compile_stmts
    · intro l st st' h
      cases l with
      | nil =>
        simp only [compile_stmts] at h
        injection h with h
        rw [← h]
      | cons n rest =>
        simp only [compile_stmts] at h
        rw [bind_ok] at h
        obtain ⟨s1, h1, h2⟩ := h
        rw [ihStmts _ _ _ h2, ihBlock _ _ _ h1]
    -- compile_assign
    · intro n st st' h
      rw [compile_assign] at h
      cases h0 : n.body.get? 0 with
      | none => simp only [h0] at h; cases h
      | some lhand =>
        simp only [h0, ok_bind] at h
        cases h1 : n.body.get? 1 with
        | none => simp only [h1] at h; cases h
        | some rhand =>
          simp only [h1, ok_bind] at h
          rw [bind_ok] at h
          obtain ⟨s1, hs1, h⟩ := h
          rw [bind_ok] at h
          obtain ⟨s2, hs2, h⟩ := h
          obtain ⟨t1, r1, e1, e2⟩ := ihExpr _ _ _ hs1
          have e3 : (take_value rhand s1).assembler.sp = (t1 + 1) :: r1 := by
            rw [take_value_sp, e2]
          obtain ⟨t2, r2, e4, e5⟩ := ihExpr _ _ _ hs2
          rw [e3] at e4
          obtain ⟨t3, r3, e6, e7⟩ :=
            asmM_shift (fun _ _ hh => store_op_sp hh) h
          rw [e5] at e6
          injection e4 with e4a e4b
          injection e6 with e6a e6b
          rw [e7, ← e6a, ← e6b, ← e4a, ← e4b, e1]
          congr 1
          ring
    -- compile_if
    · intro n st st' h
      rw [compile_if] at h
      cases h0 : n.body.get? 0 with
      | none => simp only [h0] at h; cases h
      | some cond =>
      simp only [h0, ok_bind] at h
      cases h1 : n.body.get? 1 with
      | none => simp only [h1] at h; cases h
      | some if_body =>
      simp only [h1, ok_bind, Asm.gen_label] at h
      rw [bind_ok] at h
      obtain ⟨s1, hs1, h⟩ := h
      rw [bind_ok] at h
      obtain ⟨s2, hs2, h⟩ := h
      rw [bind_ok] at h
      obtain ⟨s3, hs3, h⟩ := h
      rw [bind_ok] at h
      obtain ⟨s4, hs4, h⟩ := h
      rw [bind_ok] at h
      obtain ⟨s5, hs5, h⟩ := h
      rw [bind_ok] at h
      obtain ⟨s6, hs6, h⟩ := h
      rw [bind_ok] at h
      obtain ⟨s7, hs7, h⟩ := h
      rw [bind_ok] at h
      obtain ⟨s8, hs8, h⟩ := h
      obtain ⟨t, r, e1, e2⟩ := ihExpr _ _ _ hs1
      have e2' : (take_value cond s1).assembler.sp = (t + 1) :: r := by
        rw [take_value_sp]; exact e2
      have e3 : s2.assembler.sp = (t + 1) :: r := by
        rw [asmM_keep (fun _ _ hh => op_unary_sp hh) hs2]; exact e2'
      have e4 : s3.assembler.sp = (t + 1 + 1) :: r :=
        sp_after (asmM_shift (fun _ _ hh => put_label_sp hh) hs3) e3
      have e5 : s4.assembler.sp = (t + 1 + 1 + -2) :: r :=
        sp_after (asmM_shift (fun _ _ hh => jump_if_sp hh) hs4) e4
      have e6 : s5.assembler.sp = (t + 1 + 1 + -2) :: r := by
        rw [ihBlock _ _ _ hs5]; exact e5
      have e7 : s6.assembler.sp = (t + 1 + 1 + -2 + 1) :: r :=
        sp_after (asmM_shift (fun _ _ hh => put_label_sp hh) hs6) e6
      have e8 : s7.assembler.sp = (t + 1 + 1 + -2 + 1 + -1) :: r :=
        sp_after (asmM_shift (fun _ _ hh => jump_sp hh) hs7) e7
      have e9 : s8.assembler.sp = (t + 1 + 1 + -2 + 1 + -1) :: r := by
        rw [asmM_keep (fun _ _ hh => fill_label_sp hh) hs8]; exact e8
      have e10 : st'.assembler.sp = (t + 1 + 1 + -2 + 1 + -1) :: r := by
        cases h2 : n.body.get? 2 with
        | none =>
          simp only [h2, ok_bind] at h
          rw [asmM_keep (fun _ _ hh => fill_label_sp hh) h]
          exact e9
        | some else_body =>
          simp only [h2] at h
          rw [bind_ok] at h
          obtain ⟨s9, hs9, h⟩ := h
          have e9' : s9.assembler.sp = (t + 1 + 1 + -2 + 1 + -1) :: r := by
            rw [ihBlock _ _ _ hs9]; exact e9
          rw [asmM_keep (fun _ _ hh => fill_label_sp hh) h]
          exact e9'
      rw [e10, e1]
      congr 1
      ring
    -- compile_while
    · intro n st st' h
      rw [compile_while] at h
      cases h0 : n.body.get? 0 with
      | none => simp only [h0] at h; cases h
      | some cond =>
      simp only [h0, ok_bind] at h
      cases h1 : n.body.get? 1 with
      | none => simp only [h1] at h; cases h
      | some body =>
      simp only [h1, ok_bind, Asm.gen_label] at h
      rw [bind_ok] at h
      obtain ⟨s1, hs1, h⟩ := h
      rw [bind_ok] at h
      obtain ⟨s2, hs2, h⟩ := h
      rw [bind_ok] at h
      obtain ⟨s3, hs3, h⟩ := h
      rw [bind_ok] at h
      obtain ⟨s4, hs4, h⟩ := h
      rw [bind_ok] at h
      obtain ⟨s5, hs5, h⟩ := h
      rw [bind_ok] at h
      obtain ⟨s6, hs6, h⟩ := h
      rw [bind_ok] at h
      obtain ⟨s7, hs7, h⟩ := h
      obtain ⟨t, r, e1, e2⟩ := ihExpr _ _ _ hs1
      have e2' : (take_value cond s1).assembler.sp = (t + 1) :: r := by
        rw [take_value_sp]; exact e2
      have e3 : s2.assembler.sp = (t + 1) :: r := by
        rw [asmM_keep (fun _ _ hh => op_unary_sp hh) hs2]; exact e2'
      have e4 : s3.assembler.sp = (t + 1 + 1) :: r :=
        sp_after (asmM_shift (fun _ _ hh => put_label_sp hh) hs3) e3
      have e5 : s4.assembler.sp = (t + 1 + 1 + -2) :: r :=
        sp_after (asmM_shift (fun _ _ hh => jump_if_sp hh) hs4) e4
      have e6 : s5.assembler.sp = (t + 1 + 1 + -2) :: r := by
        rw [ihBlock _ _ _ hs5]; exact e5
      have e7 : s6.assembler.sp = (t + 1 + 1 + -2 + 1) :: r :=
        sp_after (asmM_shift (fun _ _ hh => push_int_sp hh) hs6) e6
      have e8 : s7.assembler.sp = (t + 1 + 1 + -2 + 1 + -1) :: r :=
        sp_after (asmM_shift (fun _ _ hh => jump_sp hh) hs7) e7
      have e9 : st'.assembler.sp = (t + 1 + 1 + -2 + 1 + -1) :: r := by
        rw [asmM_keep (fun _ _ hh => fill_label_sp hh) h]; exact e8
      rw [e9, e1]
      congr 1
      ring
    -- compile_return
    · intro n st st' h
      rw [compile_return] at h
      rw [bind_ok] at h
      obtain ⟨sp0, hsp0, h⟩ := h
      obtain ⟨r0, er0⟩ := get_sp_ok hsp0
      have e1 : (Compile.asmP (Asm.push_sp sp0) st).assembler.sp =
          sp0 :: sp0 :: r0 := by
        show sp0 :: st.assembler.sp = sp0 :: sp0 :: r0
        rw [er0]
      cases hh : n.body.head? with
      | some e =>
        simp only [hh] at h
        rw [bind_ok] at h
        obtain ⟨sm, hsm, h⟩ := h
        rw [bind_ok] at h
        obtain ⟨sv, hsv, h⟩ := h
        injection hsv with hsv
        rw [bind_ok] at h
        obtain ⟨s2, hs2, h⟩ := h
        rw [bind_ok] at h
        obtain ⟨s3, hs3, h⟩ := h
        obtain ⟨tm, rm, em1, em2⟩ := ihExpr _ _ _ hsm
        rw [e1] at em1
        injection em1 with ea eb
        have e2 : sv.assembler.sp = (sp0 + 1) :: sp0 :: r0 := by
          rw [← hsv, take_value_sp, em2, ← ea, ← eb]
        have e2' : (Compile.asmP (Asm.swap 0 (u32OfInt (sp0 + 1)))
            sv).assembler.sp = (sp0 + 1) :: sp0 :: r0 := e2
        have e3 : s2.assembler.sp =
            ((sp0 + 1) + -(u32OfInt (sp0 + 1) : Int)) :: sp0 :: r0 :=
          sp_after (asmM_shift (fun _ _ hh => pop_op_sp hh) hs2) e2'
        have e3' : (Compile.asmP (Asm.swap 0 1) s2).assembler.sp =
            ((sp0 + 1) + -(u32OfInt (sp0 + 1) : Int)) :: sp0 :: r0 := e3
        have e4 : s3.assembler.sp =
            ((sp0 + 1) + -(u32OfInt (sp0 + 1) : Int) + -1) :: sp0 :: r0 :=
          sp_after (asmM_shift (fun _ _ hh => jump_sp hh) hs3) e3'
        obtain ⟨a4, ha4, hst'⟩ := asmM_ok.mp h
        obtain ⟨t4, r4, f1, f2⟩ := pop_sp_ok ha4
        rw [e4] at f1
        injection f1 with f1a f1b
        rw [hst']
        show a4.sp = st.assembler.sp
        rw [f2, ← f1b, er0]
      | none =>
        simp only [hh] at h
        rw [bind_ok] at h
        obtain ⟨sv, hsv, h⟩ := h
        rw [bind_ok] at h
        obtain ⟨s2, hs2, h⟩ := h
        rw [bind_ok] at h
        obtain ⟨s3, hs3, h⟩ := h
        have e2 : sv.assembler.sp = (sp0 + 1) :: sp0 :: r0 :=
          sp_after (asmM_shift (fun _ _ hx => push_int_sp hx) hsv) e1
        have e2' : (Compile.asmP (Asm.swap 0 (u32OfInt (sp0 + 1)))
            sv).assembler.sp = (sp0 + 1) :: sp0 :: r0 := e2
        have e3 : s2.assembler.sp =
            ((sp0 + 1) + -(u32OfInt (sp0 + 1) : Int)) :: sp0 :: r0 :=
          sp_after (asmM_shift (fun _ _ hh => pop_op_sp hh) hs2) e2'
        have e3' : (Compile.asmP (Asm.swap 0 1) s2).assembler.sp =
            ((sp0 + 1) + -(u32OfInt (sp0 + 1) : Int)) :: sp0 :: r0 := e3
        have e4 : s3.assembler.sp =
            ((sp0 + 1) + -(u32OfInt (sp0 + 1) : Int) + -1) :: sp0 :: r0 :=
          sp_after (asmM_shift (fun _ _ hh => jump_sp hh) hs3) e3'
        obtain ⟨a4, ha4, hst'⟩ := asmM_ok.mp h
        obtain ⟨t4, r4, f1, f2⟩ := pop_sp_ok ha4
        rw [e4] at f1
        injection f1 with f1a f1b
        rw [hst']
        show a4.sp = st.assembler.sp
        rw [f2, ← f1b, er0]
    -- compile_expr
    · intro n st st' h
      cases n with | mk ty body =>
      cases ty
      case Number bits =>
        simp only [compile_expr, Node.type_, Node.body] at h
        exact asmM_shift (fun _ _ hh => push_float_sp hh) h
      case String sv =>
        simp only [compile_expr, Node.type_, Node.body] at h
        exact asmM_shift (fun _ _ hh => push_str_sp hh) h
      case Symbol sv =>
        simp only [compile_expr, Node.type_, Node.body] at h
        cases hsys : sys_objects sv with
        | some p =>
          simp only [hsys] at h
          exact asmM_shift (fun _ _ hh => push_int_sp hh) h
        | none =>
          simp only [hsys] at h
          cases hfv : st.frame_stack.find_var sv with
          | none => simp only [hfv] at h; cases h
          | some var =>
          simp only [hfv] at h
          rw [bind_ok] at h
          obtain ⟨sp0, hsp0, h⟩ := h
          rw [bind_ok] at h
          obtain ⟨s1, hs1, h⟩ := h
          rw [bind_ok] at h
          obtain ⟨s2, hs2, h⟩ := h
          obtain ⟨r0, er0⟩ := get_sp_ok hsp0
          have e1 : s1.assembler.sp = (sp0 + 1) :: r0 :=
            sp_after (asmM_shift (fun _ _ hh => take_sp hh) hs1) er0
          have e2 : s2.assembler.sp = (sp0 + 1 + 1) :: r0 :=
            sp_after (asmM_shift (fun _ _ hh => push_int_sp hh) hs2) e1
          have e3 : st'.assembler.sp = (sp0 + 1 + 1 + -1) :: r0 :=
            sp_after (asmM_shift (fun _ _ hh => op_binary_sp hh) h) e2
          refine ⟨sp0, r0, er0, ?_⟩
          rw [e3]
          congr 1
          ring
      case Function =>
        simp only [compile_expr, Node.type_, Node.body] at h
        exact ihFn _ _ _ h
      case Call =>
        simp only [compile_expr, Node.type_, Node.body] at h
        exact ihCall _ _ _ h
      case Dict =>
        simp only [compile_expr, Node.type_, Node.body] at h
        rw [bind_ok] at h
        obtain ⟨s1, hs1, h⟩ := h
        obtain ⟨heven, hsp⟩ := ihPairs _ _ _ hs1
        obtain ⟨t2, r2, f1, f2⟩ :=
          asmM_shift (fun _ _ hh => push_dict_sp hh) h
        cases hsp0 : st.assembler.sp with
        | nil =>
          rw [hsp0] at hsp
          simp [shiftTop] at hsp
          rw [hsp] at f1
          cases f1
        | cons t r =>
          rw [hsp0] at hsp
          simp only [shiftTop] at hsp
          rw [hsp] at f1
          injection f1 with f1a f1b
          refine ⟨t, r, rfl, ?_⟩
          rw [f2, ← f1a, ← f1b]
          congr 1
          omega
      case Array =>
        simp only [compile_expr, Node.type_, Node.body] at h
        rw [bind_ok] at h
        obtain ⟨s1, hs1, h⟩ := h
        have hsp := ihElems _ _ _ hs1
        obtain ⟨t2, r2, f1, f2⟩ :=
          asmM_shift (fun _ _ hh => push_array_sp hh) h
        cases hsp0 : st.assembler.sp with
        | nil =>
          rw [hsp0] at hsp
          simp [shiftTop] at hsp
          rw [hsp] at f1
          cases f1
        | cons t r =>
          rw [hsp0] at hsp
          simp only [shiftTop] at hsp
          rw [hsp] at f1
          injection f1 with f1a f1b
          refine ⟨t, r, rfl, ?_⟩
          rw [f2, ← f1a, ← f1b]
          congr 1
          ring
      case Member =>
        simp only [compile_expr, Node.type_, Node.body] at h
        cases h1 : body.get? 1 with
        | none => simp only [h1] at h; cases h
        | some obj =>
        simp only [h1, ok_bind] at h
        cases h0 : body.get? 0 with
        | none => simp only [h0] at h; cases h
        | some key =>
        simp only [h0, ok_bind] at h
        rw [bind_ok] at h
        obtain ⟨s1, hs1, h⟩ := h
        rw [bind_ok] at h
        obtain ⟨s2, hs2, h⟩ := h
        obtain ⟨t, r, e1, e2⟩ := ihExpr _ _ _ hs1
        have e2x : (take_value obj s1).assembler.sp = (t + 1) :: r := by
          rw [take_value_sp]; exact e2
        have e3 : s2.assembler.sp = (t + 1 + 1) :: r :=
          sp_after (compile_dict_key_sp hs2) e2x
        have e4 : st'.assembler.sp = (t + 1 + 1 + -1) :: r :=
          sp_after (asmM_shift (fun _ _ hh => get_op_sp hh) h) e3
        refine ⟨t, r, e1, ?_⟩
        rw [e4]
        congr 1
        ring
      case Index =>
        simp only [compile_expr, Node.type_, Node.body] at h
        cases h1 : body.get? 1 with
        | none => simp only [h1] at h; cases h
        | some obj =>
        simp only [h1, ok_bind] at h
        cases h0 : body.get? 0 with
        | none => simp only [h0] at h; cases h
        | some key =>
        simp only [h0, ok_bind] at h
        rw [bind_ok] at h
        obtain ⟨s1, hs1, h⟩ := h
        rw [bind_ok] at h
        obtain ⟨s2, hs2, h⟩ := h
        obtain ⟨t, r, e1, e2⟩ := ihExpr _ _ _ hs1
        have e2x : (take_value obj s1).assembler.sp = (t + 1) :: r := by
          rw [take_value_sp]; exact e2
        obtain ⟨t2, r2, f1, f2⟩ := ihExpr _ _ _ hs2
        rw [e2x] at f1
        injection f1 with f1a f1b
        have e3 : (take_value key s2).assembler.sp = (t + 1 + 1) :: r := by
          rw [take_value_sp, f2, ← f1a, ← f1b]
        have e4 : st'.assembler.sp = (t + 1 + 1 + -1) :: r :=
          sp_after (asmM_shift (fun _ _ hh => get_op_sp hh) h) e3
        refine ⟨t, r, e1, ?_⟩
        rw [e4]
        congr 1
        ring
      case Op op =>
        cases op
        case OpPlus =>
          simp only [compile_expr, Node.type_, Node.body] at h
          cases h0 : body.get? 0 with
          | none => simp only [h0] at h; cases h
          | some x0 =>
          simp only [h0, ok_bind] at h
          rw [bind_ok] at h
          obtain ⟨s1, hs1, h⟩ := h
          obtain ⟨t, r, e1, e2⟩ := ihExpr _ _ _ hs1
          have e2x : (take_value x0 s1).assembler.sp = (t + 1) :: r := by
            rw [take_value_sp]; exact e2
          cases h1 : body.get? 1 with
          | none =>
            simp only [h1] at h
            refine ⟨t, r, e1, ?_⟩
            rw [asmM_keep (fun _ _ hh => op_unary_sp hh) h]
            exact e2x
          | some x1 =>
            simp only [h1, ok_bind] at h
            rw [bind_ok] at h
            obtain ⟨s2, hs2, h⟩ := h
            obtain ⟨t2, r2, f1, f2⟩ := ihExpr _ _ _ hs2
            rw [e2x] at f1
            injection f1 with f1a f1b
            obtain ⟨t3, r3, g1, g2⟩ :=
              asmM_shift (fun _ _ hh => op_binary_sp hh) h
            rw [take_value_sp, f2, ← f1a, ← f1b] at g1
            injection g1 with g1a g1b
            refine ⟨t, r, e1, ?_⟩
            rw [g2, ← g1a, ← g1b]
            congr 1
            ring
        case OpNot =>
          simp only [compile_expr, Node.type_, Node.body] at h
          cases h0 : body.get? 0 with
          | none => simp only [h0] at h; cases h
          | some x0 =>
          simp only [h0, ok_bind] at h
          rw [bind_ok] at h
          obtain ⟨s1, hs1, h⟩ := h
          obtain ⟨t, r, e1, e2⟩ := ihExpr _ _ _ hs1
          have e2x : (take_value x0 s1).assembler.sp = (t + 1) :: r := by
            rw [take_value_sp]; exact e2
          cases h1 : body.get? 1 with
          | none =>
            simp only [h1] at h
            refine ⟨t, r, e1, ?_⟩
            rw [asmM_keep (fun _ _ hh => op_unary_sp hh) h]
            exact e2x
          | some x1 =>
            simp only [h1, ok_bind] at h
            rw [bind_ok] at h
            obtain ⟨s2, hs2, h⟩ := h
            obtain ⟨t2, r2, f1, f2⟩ := ihExpr _ _ _ hs2
            rw [e2x] at f1
            injection f1 with f1a f1b
            obtain ⟨t3, r3, g1, g2⟩ :=
              asmM_shift (fun _ _ hh => op_binary_sp hh) h
            rw [take_value_sp, f2, ← f1a, ← f1b] at g1
            injection g1 with g1a g1b
            refine ⟨t, r, e1, ?_⟩
            rw [g2, ← g1a, ← g1b]
            congr 1
            ring
        case OpMinus =>
          simp only [compile_expr, Node.type_, Node.body] at h
          cases h0 : body.get? 0 with
          | none => simp only [h0] at h; cases h
          | some x0 =>
          simp only [h0, ok_bind] at h
          cases h1 : body.get? 1 with
          | some x1 =>
            simp only [h1, ok_bind] at h
            rw [bind_ok] at h
            obtain ⟨s1, hs1, h⟩ := h
            rw [bind_ok] at h
            obtain ⟨s2, hs2, h⟩ := h
            obtain ⟨t, r, e1, e2⟩ := ihExpr _ _ _ hs1
            have e2x : (take_value x0 s1).assembler.sp = (t + 1) :: r := by
              rw [take_value_sp]; exact e2
            obtain ⟨t2, r2, f1, f2⟩ := ihExpr _ _ _ hs2
            rw [e2x] at f1
            injection f1 with f1a f1b
            obtain ⟨t3, r3, g1, g2⟩ :=
              asmM_shift (fun _ _ hh => op_binary_sp hh) h
            rw [take_value_sp, f2, ← f1a, ← f1b] at g1
            injection g1 with g1a g1b
            refine ⟨t, r, e1, ?_⟩
            rw [g2, ← g1a, ← g1b]
            congr 1
            ring
          | none =>
            cases x0 with | mk xt xb =>
            cases xt
            all_goals simp only [h1] at h
            case Number bits =>
              exact asmM_shift (fun _ _ hh => push_float_sp hh) h
            all_goals
              rw [bind_ok] at h
            all_goals
              obtain ⟨s1, hs1, h⟩ := h
            all_goals
              obtain ⟨t, r, e1, e2⟩ := ihExpr _ _ _ hs1
            all_goals
              refine ⟨t, r, e1, ?_⟩
            all_goals
              rw [asmM_keep (fun _ _ hh => op_unary_sp hh) h,
                take_value_sp]
            all_goals
              exact e2
        case OpMul =>
          simp only [compile_expr, Node.type_, Node.body] at h
          cases h0 : body.get? 0 with
          | none => simp only [h0] at h; cases h
          | some x0 =>
          simp only [h0, ok_bind] at h
          cases h1 : body.get? 1 with
          | none => simp only [h1] at h; cases h
          | some x1 =>
          simp only [h1, ok_bind] at h
          rw [bind_ok] at h
          obtain ⟨s1, hs1, h⟩ := h
          rw [bind_ok] at h
          obtain ⟨s2, hs2, h⟩ := h
          obtain ⟨t, r, e1, e2⟩ := ihExpr _ _ _ hs1
          have e2x : (take_value x0 s1).assembler.sp = (t + 1) :: r := by
            rw [take_value_sp]; exact e2
          obtain ⟨t2, r2, f1, f2⟩ := ihExpr _ _ _ hs2
          rw [e2x] at f1
          injection f1 with f1a f1b
          obtain ⟨t3, r3, g1, g2⟩ :=
            asmM_shift (fun _ _ hh => op_binary_sp hh) h
          rw [take_value_sp, f2, ← f1a, ← f1b] at g1
          injection g1 with g1a g1b
          refine ⟨t, r, e1, ?_⟩
          rw [g2, ← g1a, ← g1b]
          congr 1
          ring
        case OpDiv =>
          simp only [compile_expr, Node.type_, Node.body] at h
          cases h0 : body.get? 0 with
          | none => simp only [h0] at h; cases h
          | some x0 =>
          simp only [h0, ok_bind] at h
          cases h1 : body.get? 1 with
          | none => simp only [h1] at h; cases h
          | some x1 =>
          simp only [h1, ok_bind] at h
          rw [bind_ok] at h
          obtain ⟨s1, hs1, h⟩ := h
          rw [bind_ok] at h
          obtain ⟨s2, hs2, h⟩ := h
          obtain ⟨t, r, e1, e2⟩ := ihExpr _ _ _ hs1
          have e2x : (take_value x0 s1).assembler.sp = (t + 1) :: r := by
            rw [take_value_sp]; exact e2
          obtain ⟨t2, r2, f1, f2⟩ := ihExpr _ _ _ hs2
          rw [e2x] at f1
          injection f1 with f1a f1b
          obtain ⟨t3, r3, g1, g2⟩ :=
            asmM_shift (fun _ _ hh => op_binary_sp hh) h
          rw [take_value_sp, f2, ← f1a, ← f1b] at g1
          injection g1 with g1a g1b
          refine ⟨t, r, e1, ?_⟩
          rw [g2, ← g1a, ← g1b]
          congr 1
          ring
        case OpMod =>
          simp only [compile_expr, Node.type_, Node.body] at h
          cases h0 : body.get? 0 with
          | none => simp only [h0] at h; cases h
          | some x0 =>
          simp only [h0, ok_bind] at h
          cases h1 : body.get? 1 with
          | none => simp only [h1] at h; cases h
          | some x1 =>
          simp only [h1, ok_bind] at h
          rw [bind_ok] at h
          obtain ⟨s1, hs1, h⟩ := h
          rw [bind_ok] at h
          obtain ⟨s2, hs2, h⟩ := h
          obtain ⟨t, r, e1, e2⟩ := ihExpr _ _ _ hs1
          have e2x : (take_value x0 s1).assembler.sp = (t + 1) :: r := by
            rw [take_value_sp]; exact e2
          obtain ⟨t2, r2, f1, f2⟩ := ihExpr _ _ _ hs2
          rw [e2x] at f1
          injection f1 with f1a f1b
          obtain ⟨t3, r3, g1, g2⟩ :=
            asmM_shift (fun _ _ hh => op_binary_sp hh) h
          rw [take_value_sp, f2, ← f1a, ← f1b] at g1
          injection g1 with g1a g1b
          refine ⟨t, r, e1, ?_⟩
          rw [g2, ← g1a, ← g1b]
          congr 1
          ring
        case OpOr =>
          simp only [compile_expr, Node.type_, Node.body] at h
          cases h0 : body.get? 0 with
          | none => simp only [h0] at h; cases h
          | some x0 =>
          simp only [h0, ok_bind] at h
          cases h1 : body.get? 1 with
          | none => simp only [h1] at h; cases h
          | some x1 =>
          simp only [h1, ok_bind] at h
          rw [bind_ok] at h
          obtain ⟨s1, hs1, h⟩ := h
          rw [bind_ok] at h
          obtain ⟨s2, hs2, h⟩ := h
          obtain ⟨t, r, e1, e2⟩ := ihExpr _ _ _ hs1
          have e2x : (take_value x0 s1).assembler.sp = (t + 1) :: r := by
            rw [take_value_sp]; exact e2
          obtain ⟨t2, r2, f1, f2⟩ := ihExpr _ _ _ hs2
          rw [e2x] at f1
          injection f1 with f1a f1b
          obtain ⟨t3, r3, g1, g2⟩ :=
            asmM_shift (fun _ _ hh => op_binary_sp hh) h
          rw [take_value_sp, f2, ← f1a, ← f1b] at g1
          injection g1 with g1a g1b
          refine ⟨t, r, e1, ?_⟩
          rw [g2, ← g1a, ← g1b]
          congr 1
          ring
        case OpAnd =>
          simp only [compile_expr, Node.type_, Node.body] at h
          cases h0 : body.get? 0 with
          | none => simp only [h0] at h; cases h
          | some x0 =>
          simp only [h0, ok_bind] at h
          cases h1 : body.get? 1 with
          | none => simp only [h1] at h; cases h
          | some x1 =>
          simp only [h1, ok_bind] at h
          rw [bind_ok] at h
          obtain ⟨s1, hs1, h⟩ := h
          rw [bind_ok] at h
          obtain ⟨s2, hs2, h⟩ := h
          obtain ⟨t, r, e1, e2⟩ := ihExpr _ _ _ hs1
          have e2x : (take_value x0 s1).assembler.sp = (t + 1) :: r := by
            rw [take_value_sp]; exact e2
          obtain ⟨t2, r2, f1, f2⟩ := ihExpr _ _ _ hs2
          rw [e2x] at f1
          injection f1 with f1a f1b
          obtain ⟨t3, r3, g1, g2⟩ :=
            asmM_shift (fun _ _ hh => op_binary_sp hh) h
          rw [take_value_sp, f2, ← f1a, ← f1b] at g1
          injection g1 with g1a g1b
          refine ⟨t, r, e1, ?_⟩
          rw [g2, ← g1a, ← g1b]
          congr 1
          ring
        case OpLs =>
          simp only [compile_expr, Node.type_, Node.body] at h
          cases h0 : body.get? 0 with
          | none => simp only [h0] at h; cases h
          | some x0 =>
          simp only [h0, ok_bind] at h
          cases h1 : body.get? 1 with
          | none => simp only [h1] at h; cases h
          | some x1 =>
          simp only [h1, ok_bind] at h
          rw [bind_ok] at h
          obtain ⟨s1, hs1, h⟩ := h
          rw [bind_ok] at h
          obtain ⟨s2, hs2, h⟩ := h
          obtain ⟨t, r, e1, e2⟩ := ihExpr _ _ _ hs1
          have e2x : (take_value x0 s1).assembler.sp = (t + 1) :: r := by
            rw [take_value_sp]; exact e2
          obtain ⟨t2, r2, f1, f2⟩ := ihExpr _ _ _ hs2
          rw [e2x] at f1
          injection f1 with f1a f1b
          obtain ⟨t3, r3, g1, g2⟩ :=
            asmM_shift (fun _ _ hh => op_binary_sp hh) h
          rw [take_value_sp, f2, ← f1a, ← f1b] at g1
          injection g1 with g1a g1b
          refine ⟨t, r, e1, ?_⟩
          rw [g2, ← g1a, ← g1b]
          congr 1
          ring
        case OpGt =>
          simp only [compile_expr, Node.type_, Node.body] at h
          cases h0 : body.get? 0 with
          | none => simp only [h0] at h; cases h
          | some x0 =>
          simp only [h0, ok_bind] at h
          cases h1 : body.get? 1 with
          | none => simp only [h1] at h; cases h
          | some x1 =>
          simp only [h1, ok_bind] at h
          rw [bind_ok] at h
          obtain ⟨s1, hs1, h⟩ := h
          rw [bind_ok] at h
          obtain ⟨s2, hs2, h⟩ := h
          obtain ⟨t, r, e1, e2⟩ := ihExpr _ _ _ hs1
          have e2x : (take_value x0 s1).assembler.sp = (t + 1) :: r := by
            rw [take_value_sp]; exact e2
          obtain ⟨t2, r2, f1, f2⟩ := ihExpr _ _ _ hs2
          rw [e2x] at f1
          injection f1 with f1a f1b
          obtain ⟨t3, r3, g1, g2⟩ :=
            asmM_shift (fun _ _ hh => op_binary_sp hh) h
          rw [take_value_sp, f2, ← f1a, ← f1b] at g1
          injection g1 with g1a g1b
          refine ⟨t, r, e1, ?_⟩
          rw [g2, ← g1a, ← g1b]
          congr 1
          ring
        case OpLsEq =>
          simp only [compile_expr, Node.type_, Node.body] at h
          cases h0 : body.get? 0 with
          | none => simp only [h0] at h; cases h
          | some x0 =>
          simp only [h0, ok_bind] at h
          cases h1 : body.get? 1 with
          | none => simp only [h1] at h; cases h
          | some x1 =>
          simp only [h1, ok_bind] at h
          rw [bind_ok] at h
          obtain ⟨s1, hs1, h⟩ := h
          rw [bind_ok] at h
          obtain ⟨s2, hs2, h⟩ := h
          obtain ⟨t, r, e1, e2⟩ := ihExpr _ _ _ hs1
          have e2x : (take_value x0 s1).assembler.sp = (t + 1) :: r := by
            rw [take_value_sp]; exact e2
          obtain ⟨t2, r2, f1, f2⟩ := ihExpr _ _ _ hs2
          rw [e2x] at f1
          injection f1 with f1a f1b
          obtain ⟨t3, r3, g1, g2⟩ :=
            asmM_shift (fun _ _ hh => op_binary_sp hh) h
          rw [take_value_sp, f2, ← f1a, ← f1b] at g1
          injection g1 with g1a g1b
          refine ⟨t, r, e1, ?_⟩
          rw [g2, ← g1a, ← g1b]
          congr 1
          ring
        case OpGtEq =>
          simp only [compile_expr, Node.type_, Node.body] at h
          cases h0 : body.get? 0 with
          | none => simp only [h0] at h; cases h
          | some x0 =>
          simp only [h0, ok_bind] at h
          cases h1 : body.get? 1 with
          | none => simp only [h1] at h; cases h
          | some x1 =>
          simp only [h1, ok_bind] at h
          rw [bind_ok] at h
          obtain ⟨s1, hs1, h⟩ := h
          rw [bind_ok] at h
          obtain ⟨s2, hs2, h⟩ := h
          obtain ⟨t, r, e1, e2⟩ := ihExpr _ _ _ hs1
          have e2x : (take_value x0 s1).assembler.sp = (t + 1) :: r := by
            rw [take_value_sp]; exact e2
          obtain ⟨t2, r2, f1, f2⟩ := ihExpr _ _ _ hs2
          rw [e2x] at f1
          injection f1 with f1a f1b
          obtain ⟨t3, r3, g1, g2⟩ :=
            asmM_shift (fun _ _ hh => op_binary_sp hh) h
          rw [take_value_sp, f2, ← f1a, ← f1b] at g1
          injection g1 with g1a g1b
          refine ⟨t, r, e1, ?_⟩
          rw [g2, ← g1a, ← g1b]
          congr 1
          ring
        case OpEq =>
          simp only [compile_expr, Node.type_, Node.body] at h
          cases h0 : body.get? 0 with
          | none => simp only [h0] at h; cases h
          | some x0 =>
          simp only [h0, ok_bind] at h
          cases h1 : body.get? 1 with
          | none => simp only [h1] at h; cases h
          | some x1 =>
          simp only [h1, ok_bind] at h
          rw [bind_ok] at h
          obtain ⟨s1, hs1, h⟩ := h
          rw [bind_ok] at h
          obtain ⟨s2, hs2, h⟩ := h
          obtain ⟨t, r, e1, e2⟩ := ihExpr _ _ _ hs1
          have e2x : (take_value x0 s1).assembler.sp = (t + 1) :: r := by
            rw [take_value_sp]; exact e2
          obtain ⟨t2, r2, f1, f2⟩ := ihExpr _ _ _ hs2
          rw [e2x] at f1
          injection f1 with f1a f1b
          obtain ⟨t3, r3, g1, g2⟩ :=
            asmM_shift (fun _ _ hh => op_binary_sp hh) h
          rw [take_value_sp, f2, ← f1a, ← f1b] at g1
          injection g1 with g1a g1b
          refine ⟨t, r, e1, ?_⟩
          rw [g2, ← g1a, ← g1b]
          congr 1
          ring
        case OpNotEq =>
          simp only [compile_expr, Node.type_, Node.body] at h
          cases h0 : body.get? 0 with
          | none => simp only [h0] at h; cases h
          | some x0 =>
          simp only [h0, ok_bind] at h
          cases h1 : body.get? 1 with
          | none => simp only [h1] at h; cases h
          | some x1 =>
          simp only [h1, ok_bind] at h
          rw [bind_ok] at h
          obtain ⟨s1, hs1, h⟩ := h
          rw [bind_ok] at h
          obtain ⟨s2, hs2, h⟩ := h
          obtain ⟨t, r, e1, e2⟩ := ihExpr _ _ _ hs1
          have e2x : (take_value x0 s1).assembler.sp = (t + 1) :: r := by
            rw [take_value_sp]; exact e2
          obtain ⟨t2, r2, f1, f2⟩ := ihExpr _ _ _ hs2
          rw [e2x] at f1
          injection f1 with f1a f1b
          obtain ⟨t3, r3, g1, g2⟩ :=
            asmM_shift (fun _ _ hh => op_binary_sp hh) h
          rw [take_value_sp, f2, ← f1a, ← f1b] at g1
          injection g1 with g1a g1b
          refine ⟨t, r, e1, ?_⟩
          rw [g2, ← g1a, ← g1b]
          congr 1
          ring
      all_goals
        simp only [compile_expr, Node.type_, Node.body] at h
      all_goals
        cases h
    -- compile_call
    · intro n st st' h
      rw [compile_call] at h
      simp only [Asm.gen_label] at h
      rw [bind_ok] at h
      obtain ⟨s1, hs1, h⟩ := h
      cases h0 : n.body.get? 0 with
      | none => simp only [h0] at h; cases h
      | some addr =>
      simp only [h0, ok_bind] at h
      cases h1 : n.body.get? 1 with
      | none => simp only [h1] at h; cases h
      | some args =>
      simp only [h1, ok_bind] at h
      rw [bind_ok] at h
      obtain ⟨s2, hs2, h⟩ := h
      rw [bind_ok] at h
      obtain ⟨s3, hs3, h⟩ := h
      rw [bind_ok] at h
      obtain ⟨s4, hs4, h⟩ := h
      rw [bind_ok] at h
      obtain ⟨s5, hs5, h⟩ := h
      obtain ⟨t, r, e1, e2⟩ :=
        asmM_shift (fun _ _ hh => put_label_sp hh) hs1
      have e3 : s2.assembler.sp = (t + 1 + args.body.length) :: r := by
        rw [ihArgs _ _ _ hs2, e2]
        simp [shiftTop]
      have e4 : s3.assembler.sp = (t + 1 + args.body.length + 1) :: r :=
        sp_after (asmM_shift (fun _ _ hh => push_int_sp hh) hs3) e3
      obtain ⟨t4, r4, f1, f2⟩ := ihExpr _ _ _ hs4
      rw [e4] at f1
      injection f1 with f1a f1b
      have e5 : s4.assembler.sp =
          (t + 1 + args.body.length + 1 + 1) :: r := by
        rw [f2, ← f1a, ← f1b]
      have e6 : s5.assembler.sp = (t + 1 + args.body.length + 1 + 1 +
          -(1 + (args.body.length : Int) + 1)) :: r :=
        sp_after (asmM_shift (fun _ _ hh => call_sp hh) hs5) e5
      have e7 : st'.assembler.sp = (t + 1 + args.body.length + 1 + 1 +
          -(1 + (args.body.length : Int) + 1)) :: r := by
        rw [asmM_keep (fun _ _ hh => fill_label_sp hh) h]
        exact e6
      refine ⟨t, r, ?_, ?_⟩
      · exact e1
      · rw [e7]
        congr 1
        ring
    -- compile_fn
    · intro n st st' h
      rw [compile_fn] at h
      simp only [Asm.gen_label] at h
      cases hf : ((st.frame_stack.enter).frames.get?
          (st.frame_stack.enter).cur_frame) with
      | none => simp only [hf] at h; cases h
      | some fr =>
      simp only [hf, ok_bind] at h
      rw [bind_ok] at h
      obtain ⟨sp0, hsp0, h⟩ := h
      cases hb : n.body.get? 1 with
      | none =>
        simp only [hb] at h
        rw [bind_ok] at h
        obtain ⟨s1, hs1, h⟩ := h
        rw [bind_ok] at h
        obtain ⟨s2, hs2, h⟩ := h
        rw [bind_ok] at h
        obtain ⟨s3, hs3, h⟩ := h
        rw [bind_ok] at h
        obtain ⟨s4, hs4, h⟩ := h
        cases h
      | some body =>
      simp only [hb, ok_bind] at h
      rw [bind_ok] at h
      obtain ⟨s1, hs1, h⟩ := h
      rw [bind_ok] at h
      obtain ⟨s2, hs2, h⟩ := h
      rw [bind_ok] at h
      obtain ⟨s3, hs3, h⟩ := h
      rw [bind_ok] at h
      obtain ⟨s4, hs4, h⟩ := h
      rw [bind_ok] at h
      obtain ⟨s5, hs5, h⟩ := h
      rw [bind_ok] at h
      obtain ⟨spE, hspE, h⟩ := h
      rw [bind_ok] at h
      obtain ⟨s6, hs6, h⟩ := h
      rw [bind_ok] at h
      obtain ⟨s7, hs7, h⟩ := h
      rw [bind_ok] at h
      obtain ⟨s8, hs8, h⟩ := h
      rw [bind_ok] at h
      obtain ⟨s9, hs9, h⟩ := h
      rw [bind_ok] at h
      obtain ⟨s10, hs10, h⟩ := h
      injection h with h
      obtain ⟨r0, er0⟩ := get_sp_ok hsp0
      have er0' : st.assembler.sp = sp0 :: r0 := er0
      have e1 : s1.assembler.sp = (sp0 + 1) :: r0 :=
        sp_after (asmM_shift (fun _ _ hh => put_label_sp hh) hs1) er0
      have e1' : (Compile.asmP (Asm.push_fn
          (st.frame_stack.enter).parents.length (u32OfInt (sp0 + 1))
          fr.var_offsets.length) s1).assembler.sp = (sp0 + 1) :: r0 := e1
      have e2 : s2.assembler.sp = (sp0 + 1 + 1) :: r0 :=
        sp_after (asmM_shift (fun _ _ hh => put_label_sp hh) hs2) e1'
      have e3 : s3.assembler.sp = (sp0 + 1 + 1 + -1) :: r0 :=
        sp_after (asmM_shift (fun _ _ hh => jump_sp hh) hs3) e2
      have e4 : s4.assembler.sp = (sp0 + 1 + 1 + -1) :: r0 := by
        rw [asmM_keep (fun _ _ hh => fill_label_sp hh) hs4]
        exact e3
      have e5 : s5.assembler.sp =
          ((st.frame_stack.enter).parents.length : Int) ::
            (sp0 + 1 + 1 + -1) :: r0 := by
        have : (Compile.asmP (Asm.push_sp
            ((st.frame_stack.enter).parents.length : Int)) s4).assembler.sp =
            ((st.frame_stack.enter).parents.length : Int) ::
              s4.assembler.sp := rfl
        rw [ihBlock _ _ _ hs5, this, e4]
      obtain ⟨t6, r6, f61, f62⟩ :=
        asmM_shift (fun _ _ hh => pop_op_sp hh) hs6
      rw [e5] at f61
      injection f61 with f61a f61b
      obtain ⟨a7, ha7, hs7'⟩ := asmM_ok.mp hs7
      obtain ⟨t7, r7, f71, f72⟩ := pop_sp_ok ha7
      rw [f62, ← f61b] at f71
      injection f71 with f71a f71b
      have e7 : s7.assembler.sp = (sp0 + 1 + 1 + -1) :: r0 := by
        rw [hs7']
        show a7.sp = _
        rw [f72, ← f71b]
      have e8 : s8.assembler.sp = (sp0 + 1 + 1 + -1 + 1) :: r0 :=
        sp_after (asmM_shift (fun _ _ hh => push_int_sp hh) hs8) e7
      have e8' : (Compile.asmP (Asm.swap 0 1) s8).assembler.sp =
          (sp0 + 1 + 1 + -1 + 1) :: r0 := e8
      have e9 : s9.assembler.sp = (sp0 + 1 + 1 + -1 + 1 + -1) :: r0 :=
        sp_after (asmM_shift (fun _ _ hh => jump_sp hh) hs9) e8'
      have e10 : s10.assembler.sp = (sp0 + 1 + 1 + -1 + 1 + -1) :: r0 := by
        rw [asmM_keep (fun _ _ hh => fill_label_sp hh) hs10]
        exact e9
      refine ⟨sp0, r0, er0', ?_⟩
      rw [← h]
      show s10.assembler.sp = (sp0 + 1) :: r0
      rw [e10]
      congr 1
      ring
    -- compile_pairs
    · intro l st st' h
      match l with
      | [] =>
        simp only [compile_pairs] at h
        injection h with h
        rw [← h]
        refine ⟨rfl, ?_⟩
        cases st.assembler.sp <;> simp [shiftTop]
      | [k] =>
        simp only [compile_pairs] at h
        cases h
      | k :: v :: rest =>
        simp only [compile_pairs] at h
        rw [bind_ok] at h
        obtain ⟨s1, hs1, h⟩ := h
        rw [bind_ok] at h
        obtain ⟨s2, hs2, h⟩ := h
        obtain ⟨heven, hrest⟩ := ihPairs _ _ _ h
        obtain ⟨t, r, e1, e2⟩ := compile_dict_key_sp hs1
        obtain ⟨t2, r2, f1, f2⟩ := ihExpr _ _ _ hs2
        rw [e2] at f1
        injection f1 with f1a f1b
        refine ⟨by simp only [List.length_cons]; omega, ?_⟩
        rw [hrest, take_value_sp, f2, ← f1a, ← f1b, e1]
        simp only [shiftTop, List.length_cons]
        congr 1
        push_cast
        ring
    -- compile_elems
    · intro l st st' h
      match l with
      | [] =>
        simp only [compile_elems] at h
        injection h with h
        rw [← h]
        cases st.assembler.sp <;> simp [shiftTop]
      | v :: rest =>
        simp only [compile_elems] at h
        rw [bind_ok] at h
        obtain ⟨s1, hs1, h⟩ := h
        have hrest := ihElems _ _ _ h
        obtain ⟨t, r, e1, e2⟩ := ihExpr _ _ _ hs1
        rw [hrest, take_value_sp, e2, e1]
        simp only [shiftTop, List.length_cons]
        congr 1
        push_cast
        ring
    -- compile_args
    · intro l st st' h
      match l with
      | [] =>
        simp only [compile_args] at h
        injection h with h
        rw [← h]
        cases st.assembler.sp <;> simp [shiftTop]
      | v :: rest =>
        simp only [compile_args] at h
        rw [bind_ok] at h
        obtain ⟨s1, hs1, h⟩ := h
        have hrest := ihArgs _ _ _ h
        obtain ⟨t, r, e1, e2⟩ := ihExpr _ _ _ hs1
        rw [hrest, take_value_sp, e2, e1]
        simp only [shiftTop, List.length_cons]
        congr 1
        push_cast
        ring

/-! ## C6: statements are operand-stack neutral -/

/-- Claim C6: for every non-return statement node (Assign, StmtVar,
bare Call, StmtIf, StmtIfElse, StmtWhile) and every simulated
operand-stack depth at entry, compiling that statement leaves the
current simulated operand-stack depth (the top counter of the
assembler's sp stack) equal to its value at entry. -/
theorem c6_statement_sp_neutral (fuel : Nat) (n : Node) (st st' : CSt)
    (hty : n.type_ = .Assign ∨ n.type_ = .StmtVar ∨ n.type_ = .Call ∨
      n.type_ = .StmtIf ∨ n.type_ = .StmtIfElse ∨ n.type_ = .StmtWhile)
    (h : Compile.compile_block fuel n st = .ok st') :
    st'.assembler.sp.head? = st.assembler.sp.head? := by
  rw [(compile_sp fuel).1 _ _ _ h]

/-- Claim C6 witness: compiling the statement `x = 'a';` (an Assign
node) in a one-frame state with `x` a slot of the root frame succeeds
and leaves the top sp counter at its entry value. -/
theorem c6_witness :
    (match
        Compile.compile_block 6
          (Node.mk .Assign
            [Node.mk (.Symbol "x") [], Node.mk (.String "a") []])
          ⟨⟨[⟨["this", "x"]⟩], [⟨[], 0⟩], 0, 1⟩, Asm.init⟩ with
      | .ok st' => st'.assembler.sp.head? =
          (⟨⟨[⟨["this", "x"]⟩], [⟨[], 0⟩], 0, 1⟩,
            Asm.init⟩ : CSt).assembler.sp.head?
      | .error _ => False) := by
  cases hrun :
      Compile.compile_block 6
        (Node.mk .Assign
          [Node.mk (.Symbol "x") [], Node.mk (.String "a") []])
        ⟨⟨[⟨["this", "x"]⟩], [⟨[], 0⟩], 0, 1⟩, Asm.init⟩ with
  | ok st' =>
    exact c6_statement_sp_neutral 6
      (Node.mk .Assign
        [Node.mk (.Symbol "x") [], Node.mk (.String "a") []])
      ⟨⟨[⟨["this", "x"]⟩], [⟨[], 0⟩], 0, 1⟩, Asm.init⟩ st'
      (Or.inl rfl) hrun
  | error e =>
    have hok :
        (Compile.compile_block 6
          (Node.mk .Assign
            [Node.mk (.Symbol "x") [], Node.mk (.String "a") []])
          ⟨⟨[⟨["this", "x"]⟩], [⟨[], 0⟩], 0, 1⟩, Asm.init⟩).isOk
          = true := by decide
    rw [hrun] at hok
    exact Bool.noConfusion hok

end

/-! ## C9: idempotence of put_var -/

/-- Claim C9: `put_var` is idempotent — when the cursor frame's slot
list already contains the name, `put_var` returns the whole tree
unchanged (every frame, the links and both cursors included); and
starting from a cursor frame without the name, two `put_var` calls
leave exactly one slot carrying it. -/
theorem c9_put_var_idempotent :
    (∀ (fs : FrameStackTree) (name : String),
      name ∈ (fs.frameD fs.cur_frame).var_offsets →
      fs.put_var name = fs) ∧
    (∀ (fs : FrameStackTree) (name : String) (fr : Frame),
      fs.frames.get? fs.cur_frame = some fr →
      name ∉ fr.var_offsets →
      (((fs.put_var name).put_var name).frameD
          fs.cur_frame).var_offsets.count name = 1) := by
  constructor
  · intro fs name h
    unfold FrameStackTree.put_var
    rw [if_pos (by simpa using h)]
  · intro fs name fr hget h
    rw [List.get?_eq_getElem?] at hget
    have hlt : fs.cur_frame < fs.frames.length :=
      (List.getElem?_eq_some_iff.mp hget).1
    have hfd : fs.frameD fs.cur_frame = fr := by
      simp [FrameStackTree.frameD, List.getD, hget]
    set fr2 : Frame := Frame.mk (fr.var_offsets ++ [name]) with hfr2
    set fs2 : FrameStackTree :=
      { fs with frames := fs.frames.set fs.cur_frame fr2 } with hfs2
    have h1 : fs.put_var name = fs2 := by
      unfold FrameStackTree.put_var
      rw [if_neg (by simpa [hfd] using h), hfd]
    have hfd2 : fs2.frameD fs.cur_frame = fr2 := by
      simp [FrameStackTree.frameD, List.getD, hfs2,
        List.getElem?_set_self hlt]
    have h2 : fs2.put_var name = fs2 := by
      unfold FrameStackTree.put_var
      rw [if_pos]
      have hcur : fs2.cur_frame = fs.cur_frame := rfl
      rw [hcur, hfd2, hfr2]
      simp
    rw [h1, h2, hfd2, hfr2]
    simp [List.count_append, List.count_eq_zero.mpr h]

/-- Claim C9 witness: both parts applied to a concrete two-frame tree
with the cursor on frame 1 — `put_var` of a present name is a no-op,
and a double `put_var` of a fresh name yields a single slot. -/
theorem c9_witness :
    (FrameStackTree.put_var
        ⟨[⟨["this"]⟩, ⟨["this", "y"]⟩], [⟨[1], 0⟩, ⟨[], 0⟩], 1, 0⟩ "y" =
      ⟨[⟨["this"]⟩, ⟨["this", "y"]⟩], [⟨[1], 0⟩, ⟨[], 0⟩], 1, 0⟩) ∧
    ((((FrameStackTree.put_var
          (FrameStackTree.put_var
            ⟨[⟨["this"]⟩, ⟨["this", "y"]⟩], [⟨[1], 0⟩, ⟨[], 0⟩], 1, 0⟩
            "x") "x")).frameD 1).var_offsets.count "x" = 1) :=
  ⟨c9_put_var_idempotent.1
      ⟨[⟨["this"]⟩, ⟨["this", "y"]⟩], [⟨[1], 0⟩, ⟨[], 0⟩], 1, 0⟩ "y"
      (by decide),
   c9_put_var_idempotent.2
      ⟨[⟨["this"]⟩, ⟨["this", "y"]⟩], [⟨[1], 0⟩, ⟨[], 0⟩], 1, 0⟩ "x"
      ⟨["this", "y"]⟩ (by decide) (by decide)⟩

end EcmaToy
